import Mathlib

/-!
Verification of `exporter.go` (package `trdsql`)

A shallow embedding of `ValString` and `WriteFormat.Export` together with the
standard-library routines they call (`unicode/utf8.Valid`,
`encoding/hex.EncodeToString`, `strconv.FormatInt`, `time.Time.Format`) and the
routines that read their output back (`hex.DecodeString`, `strconv.ParseInt`,
`time.Parse` with the RFC 3339 layout), and theorems about them.

Go strings and byte slices are sequences of bytes; both are lists of `Byte`.
Machine integers are `Nat` and `Int` with explicit reduction modulo `2^64` where
Go wraps around. A run of `Export` is the list of calls it makes on the database,
the cursor and the sink, together with the way it ends.
-/

namespace Trdsql

/-- One octet. -/
abbrev Byte := Fin 256

/-- A Go `string`: an immutable sequence of bytes (not necessarily UTF-8). -/
abbrev GoString := List Byte

deriving instance DecidableEq for Except

/-- The bytes of an ASCII literal (code points are taken modulo 256). -/
def ascii (s : String) : GoString := s.toList.map (fun c => Fin.ofNat c.toNat)

/-! ## `encoding/hex` -/

/-- Go `encoding/hex`: `const hextable = "0123456789abcdef"`. -/
def hextable : List Byte :=
  [0x30, 0x31, 0x32, 0x33, 0x34, 0x35, 0x36, 0x37, 0x38, 0x39,
   0x61, 0x62, 0x63, 0x64, 0x65, 0x66]

/-- Go `hex.Encode`: for every source byte `v` the two bytes
`hextable[v>>4]`, `hextable[v&0x0f]`; `hex.EncodeToString` is its result as a string. -/
def EncodeToString : List Byte → GoString
  | [] => []
  | v :: src => hextable.getD (v.val / 16) 0 :: hextable.getD (v.val % 16) 0 :: EncodeToString src

/-- Go `hex.fromHexChar` (the contents of `reverseHexTable`): the value of one hex digit,
upper or lower case. -/
def fromHexChar (c : Byte) : Option Nat :=
  if 0x30 ≤ c.val ∧ c.val ≤ 0x39 then some (c.val - 0x30)
  else if 0x61 ≤ c.val ∧ c.val ≤ 0x66 then some (c.val - 0x61 + 10)
  else if 0x41 ≤ c.val ∧ c.val ≤ 0x46 then some (c.val - 0x41 + 10)
  else none

/-- Go `hex.DecodeString`: pairs of hex digits are turned into bytes; a character that is
not a hex digit, or an odd length, is an error (`none`). -/
def DecodeString : GoString → Option (List Byte)
  | [] => some []
  | [_] => none
  | p :: q :: src =>
    match fromHexChar p, fromHexChar q with
    | some a, some b =>
      match DecodeString src with
      | some dst => some (Fin.ofNat (a * 16 + b) :: dst)
      | none => none
    | _, _ => none

/-- A lowercase hex digit: one of `0`-`9`, `a`-`f`. -/
def isLowerHex (c : Byte) : Bool :=
  (0x30 ≤ c.val && c.val ≤ 0x39) || (0x61 ≤ c.val && c.val ≤ 0x66)

/-! ## `unicode/utf8` -/

/-- Go `utf8.RuneSelf`: bytes below it are single-byte runes. -/
def RuneSelf : Nat := 0x80

/-- Go `utf8`: lowest continuation byte. -/
def locb : Nat := 0x80

/-- Go `utf8`: highest continuation byte. -/
def hicb : Nat := 0xBF

/-- Go `utf8`: the `first` entry of an illegal starter byte. -/
def xx : Nat := 0xF1

/-- Go `utf8.first`: information about the first byte of an encoding. The low three bits
are the length of the encoding, the high four bits index `acceptRanges`. -/
def first (b : Nat) : Nat :=
  if b < 0x80 then 0xF0        -- as
  else if b < 0xC2 then xx
  else if b < 0xE0 then 0x02   -- s1
  else if b = 0xE0 then 0x13   -- s2
  else if b < 0xED then 0x03   -- s3
  else if b = 0xED then 0x23   -- s4
  else if b < 0xF0 then 0x03   -- s3
  else if b = 0xF0 then 0x34   -- s5
  else if b < 0xF4 then 0x04   -- s6
  else if b = 0xF4 then 0x44   -- s7
  else xx

/-- Go `utf8.acceptRanges`: the range `(lo, hi)` allowed for the second byte. -/
def acceptRanges (i : Nat) : Nat × Nat :=
  match i with
  | 0 => (locb, hicb)
  | 1 => (0xA0, hicb)
  | 2 => (locb, 0x9F)
  | 3 => (0x90, hicb)
  | 4 => (locb, 0x8F)
  | _ => (0, 0)

/-- Go `utf8.Valid`: whether `p` consists entirely of valid UTF-8-encoded runes. The loop
over the index `i` is a recursion on the rest of the slice; running off the end of the
slice (`i+size > n`) is the `[]` case of each `match`. -/
def Valid : List Byte → Bool
  | [] => true
  | p0 :: rest =>
    if p0.val < RuneSelf then Valid rest
    else
      let x := first p0.val
      if x = xx then false
      else
        let size := x % 8
        let accept := acceptRanges (x / 16)
        match rest with
        | [] => false
        | c1 :: r1 =>
          if c1.val < accept.1 ∨ accept.2 < c1.val then false
          else if size = 2 then Valid r1
          else
            match r1 with
            | [] => false
            | c2 :: r2 =>
              if c2.val < locb ∨ hicb < c2.val then false
              else if size = 3 then Valid r2
              else
                match r2 with
                | [] => false
                | c3 :: r3 =>
                  if c3.val < locb ∨ hicb < c3.val then false
                  else Valid r3

/-! ## `strconv` -/

/-- Go `strconv`: the character of the decimal digit `d` (`digits[d]`). -/
def digit (d : Nat) : Byte := Fin.ofNat (0x30 + d)

/-- Go `strconv.smallsString`: the 200 characters `"00" "01" ... "99"`; the character at
index `2k` is the tens digit of `k` and the one at `2k+1` its units digit. -/
def smallsString (i : Nat) : Byte :=
  if i % 2 = 0 then digit (i / 2 / 10) else digit (i / 2 % 10)

/-- Go `strconv.small`: the decimal numeral of `0 ≤ i < 100`. -/
def small (i : Nat) : GoString :=
  if i < 10 then [digit i] else [smallsString (i * 2), smallsString (i * 2 + 1)]

/-- The loop `for us >= 100` of Go `strconv.formatBits` in base 10: two digits are
written in front of the buffer contents `a` per round. `fuel` bounds the number of rounds by
the room in the 65-byte buffer. -/
def formatBitsLoop : Nat → Nat → List Byte → Nat × List Byte
  | 0, us, a => (us, a)
  | fuel + 1, us, a =>
    if 100 ≤ us then
      let is := us % 100 * 2
      formatBitsLoop fuel (us / 100) (smallsString is :: smallsString (is + 1) :: a)
    else (us, a)

/-- Go `strconv.formatBits` for base 10: the numeral of the unsigned 64-bit `u`, which is
first negated (modulo `2^64`) and later preceded by `-` when `neg` is set. -/
def formatBits (u : Nat) (neg : Bool) : GoString :=
  let u := if neg then (2 ^ 64 - u) % 2 ^ 64 else u
  let (us, a) := formatBitsLoop 32 u []
  let is := us * 2
  let a := smallsString (is + 1) :: a
  let a := if 10 ≤ us then smallsString is :: a else a
  if neg then 0x2d :: a else a

/-- Go `strconv.FormatInt(i, 10)` for an `int64` value `i`. -/
def FormatInt (i : Int) : GoString :=
  if 0 ≤ i ∧ i < 100 then small i.toNat
  else formatBits (i % 2 ^ 64).toNat (decide (i < 0))

/-- Go `strconv.Itoa(i)`: `FormatInt(int64(i), 10)`. -/
def Itoa (i : Int) : GoString := FormatInt i

/-- Go `strconv.NumError.Err`: why a conversion failed. -/
inductive NumError where
  | ErrSyntax
  | ErrRange
  deriving DecidableEq, Repr

/-- The digit loop of Go `strconv.ParseUint` in base 10, from the accumulated value `n`:
a character that is not a decimal digit is a syntax error, a value beyond `maxVal` (or
beyond 64 bits) a range error. -/
def parseUintLoop (maxVal : Nat) : List Byte → Nat → Except NumError Nat
  | [], n => .ok n
  | c :: s, n =>
    if 0x30 ≤ c.val ∧ c.val ≤ 0x39 then
      let d := c.val - 0x30
      if (2 ^ 64 - 1) / 10 + 1 ≤ n then .error .ErrRange
      else
        let n := n * 10
        let n1 := (n + d) % 2 ^ 64
        if n1 < n ∨ maxVal < n1 then .error .ErrRange
        else parseUintLoop maxVal s n1
    else .error .ErrSyntax

/-- Go `strconv.ParseUint(s, 10, bitSize)` for `1 ≤ bitSize ≤ 64`. -/
def ParseUint (s : GoString) (bitSize : Nat) : Except NumError Nat :=
  if s = [] then .error .ErrSyntax
  else parseUintLoop (2 ^ bitSize - 1) s 0

/-- Go `strconv.ParseInt(s, 10, bitSize)` for `1 ≤ bitSize ≤ 64`: an optional sign, then
`ParseUint`, then the range check of the signed type. -/
def ParseInt (s : GoString) (bitSize : Nat) : Except NumError Int :=
  match s with
  | [] => .error .ErrSyntax
  | c :: s1 =>
    let neg := decide (c.val = 0x2d)
    let s2 := if c.val = 0x2b ∨ c.val = 0x2d then s1 else s
    match ParseUint s2 bitSize with
    | .error e => .error e
    | .ok un =>
      let cutoff := 2 ^ (bitSize - 1)
      if !neg ∧ cutoff ≤ un then .error .ErrRange
      else if neg ∧ cutoff < un then .error .ErrRange
      else .ok (if neg then -(un : Int) else (un : Int))

/-! ## `time` -/

/-- Go `time.Time`: an instant with nanosecond precision together with a location. The
instant is `sec` seconds and `nsec` nanoseconds (`0 ≤ nsec < 10^9`) after
1970-01-01T00:00:00Z; of the location only the offset in force at that instant counts,
`offset` seconds east of UTC. -/
structure Time where
  sec : Int
  nsec : Nat
  offset : Int
  deriving DecidableEq, Repr

/-- Go `Time.Equal`: whether the two values are the same instant, whatever their
locations. -/
def Time.Equal (t u : Time) : Bool := decide (t.sec = u.sec ∧ t.nsec = u.nsec)

/-- Go `time`: seconds per day. -/
def secondsPerDay : Int := 86400

/-- Go `time.unixToInternal`: the seconds from 0001-01-01T00:00:00Z to the Unix epoch. -/
def unixToInternal : Int := (1969 * 365 + 1969 / 4 - 1969 / 100 + 1969 / 400) * secondsPerDay

/-- Go `time.daysPer400Years`. -/
def daysPer400Years : Int := 365 * 400 + 97

/-- Go `time.daysPer100Years`. -/
def daysPer100Years : Int := 365 * 100 + 24

/-- Go `time.daysPer4Years`. -/
def daysPer4Years : Int := 365 * 4 + 1

/-- Go `time.daysBefore`: `daysBefore[m]` counts the days of a non-leap year before month
`m+1`. -/
def daysBefore (m : Nat) : Int :=
  [0, 31, 59, 90, 120, 151, 181, 212, 243, 273, 304, 334, 365].getD m 0

/-- Go `time.isLeap`. -/
def isLeap (year : Int) : Bool :=
  year % 4 = 0 && (year % 100 ≠ 0 || year % 400 = 0)

/-- Go `time.daysIn`: the number of days of month `m` in `year`. -/
def daysIn (m : Nat) (year : Int) : Int :=
  if m = 2 ∧ isLeap year then 29 else daysBefore m - daysBefore (m - 1)

/-- The year computation of Go `time.absDate`: the year and the zero-based day of the
year of day number `d`. Go counts days from January 1 of a year congruent to 1 modulo 400
far in the past, so that unsigned arithmetic suffices; here they are counted from
0001-01-01 with floor division. -/
def absYear (d : Int) : Int × Int :=
  -- Account for 400 year cycles.
  let n := d / daysPer400Years
  let y := 400 * n
  let d := d - daysPer400Years * n
  -- Cut off 100-year cycles; the last cycle has one extra leap year.
  let n := d / daysPer100Years
  let n := n - n / 4
  let y := y + 100 * n
  let d := d - daysPer100Years * n
  -- Cut off 4-year cycles.
  let n := d / daysPer4Years
  let y := y + 4 * n
  let d := d - daysPer4Years * n
  -- Cut off years within a 4-year cycle.
  let n := d / 365
  let n := n - n / 4
  let y := y + n
  let d := d - 365 * n
  (y + 1, d)

/-- The month computation of Go `time.absDate`: month (1 to 12) and day of the month of
the zero-based day `yday` of `year`. -/
def absMonthDay (year : Int) (yday : Int) : Nat × Int :=
  if isLeap year ∧ yday = 31 + 29 - 1 then (2, 29)
  else
    let day := if isLeap year ∧ yday > 31 + 29 - 1 then yday - 1 else yday
    -- Estimate month on assumption that every month has 31 days.
    let month := (day / 31).toNat
    let e := daysBefore (month + 1)
    if day ≥ e then (month + 2, day - e + 1)
    else (month + 1, day - daysBefore month + 1)

/-- Go `time.absDate`: year, month and day of day number `d` (days since 0001-01-01). -/
def absDate (d : Int) : Int × Nat × Int :=
  let (year, yday) := absYear d
  let (month, day) := absMonthDay year yday
  (year, month, day)

/-- Go `time.daysSinceEpoch`: the days from 0001-01-01 to January 1 of `year`. -/
def daysSinceEpoch (year : Int) : Int :=
  let y := year - 1
  -- Add in days from 400-year cycles.
  let n := y / 400
  let y := y - 400 * n
  let d := daysPer400Years * n
  -- Add in 100-year cycles.
  let n := y / 100
  let y := y - 100 * n
  let d := d + daysPer100Years * n
  -- Add in 4-year cycles.
  let n := y / 4
  let y := y - 4 * n
  let d := d + daysPer4Years * n
  -- Add in non-leap years.
  d + 365 * y

/-- Go `time.Date(year, month, day, hour, min, sec, nsec, time.UTC)` for fields that are
already in range (no normalisation takes place): the time in UTC with these fields. -/
def Date (year : Int) (month : Nat) (day hour min sec : Int) (nsec : Nat) : Time :=
  let d := daysSinceEpoch year
  let d := d + daysBefore (month - 1)
  let d := if isLeap year ∧ month ≥ 3 then d + 1 else d
  let d := d + (day - 1)
  let abs := d * secondsPerDay + hour * 3600 + min * 60 + sec
  { sec := abs - unixToInternal, nsec := nsec, offset := 0 }

/-- The digit loop of Go `time.appendInt`: the decimal digits of `u` in front of `buf`.
`fuel` is the size of the 20-byte buffer. -/
def appendIntLoop : Nat → Nat → List Byte → List Byte
  | 0, _, buf => buf
  | fuel + 1, u, buf =>
    if 10 ≤ u then appendIntLoop fuel (u / 10) (digit (u % 10) :: buf)
    else digit u :: buf

/-- Go `time.appendInt(b, x, width)` without the prefix `b`: the decimal form of `x`,
after a `-` when `x` is negative, padded with zeros on the left to `width` digits. -/
def appendInt (x : Int) (width : Nat) : GoString :=
  let ds := appendIntLoop 20 x.natAbs []
  let padded := List.replicate (width - ds.length) (0x30 : Byte) ++ ds
  if x < 0 then 0x2d :: padded else padded

/-- Go `Time.abs` in days and seconds of the day: the local day number since 0001-01-01
and the second within it. -/
def Time.abs (t : Time) : Int × Int :=
  let a := t.sec + t.offset + unixToInternal
  (a / secondsPerDay, a % secondsPerDay)

/-- Go `Time.Year`: the year in which `t` occurs, in `t`'s location. -/
def Time.Year (t : Time) : Int := (absDate t.abs.1).1

/-- Go `Time.appendFormatRFC3339(b, false)`, which is `Time.Format(time.RFC3339)`: date,
`T`, clock, then `Z` for a zero offset and the sign, hours, `:` and minutes of the offset
otherwise. -/
def Time.FormatRFC3339 (t : Time) : GoString :=
  let (days, secs) := t.abs
  let (year, month, day) := absDate days
  let hour := secs / 3600
  let min := secs % 3600 / 60
  let sec := secs % 60
  let b := appendInt year 4 ++ [0x2d] ++ appendInt month 2 ++ [0x2d] ++ appendInt day 2
    ++ [0x54] ++ appendInt hour 2 ++ [0x3a] ++ appendInt min 2 ++ [0x3a] ++ appendInt sec 2
  if t.offset = 0 then b ++ [0x5a]
  else
    -- Go: `zone := offset / 60`, truncated toward zero.
    let zone := Int.tdiv t.offset 60
    let sign : Byte := if zone < 0 then 0x2d else 0x2b
    let zone := if zone < 0 then -zone else zone
    b ++ [sign] ++ appendInt (zone / 60) 2 ++ [0x3a] ++ appendInt (zone % 60) 2

/-- The closure `parseUint` of Go `time.parseRFC3339`: `s` as an unsigned decimal integer
that lies within `[min, max]`. -/
def parseUintIn (s : List Byte) (min max : Int) : Option Int :=
  if s.all (fun c => 0x30 ≤ c.val && c.val ≤ 0x39) then
    let x : Int := s.foldl (fun x c => x * 10 + (c.val - 0x30 : Nat)) 0
    if x < min ∨ max < x then none else some x
  else none

/-- Go `time.parseNanoseconds` as used by `parseRFC3339`: the digits after the decimal
point, at most nine of them, scaled to nanoseconds. -/
def parseNanoseconds (ds : List Byte) : Nat :=
  let ds := ds.take 9
  ds.foldl (fun x c => x * 10 + (c.val - 0x30)) 0 * 10 ^ (9 - ds.length)

/-- The time zone part of Go `time.parseRFC3339`: the offset in seconds of `Z` or of
`+hh:mm` / `-hh:mm`. -/
def parseZone (s : List Byte) : Option Int :=
  if s = [0x5a] then some 0
  else
    match s with
    | [sg, h0, h1, c, m0, m1] =>
      match parseUintIn [h0, h1] 0 23, parseUintIn [m0, m1] 0 59 with
      | some hr, some mm =>
        if (sg.val = 0x2d ∨ sg.val = 0x2b) ∧ c.val = 0x3a then
          let zoneOffset := (hr * 60 + mm) * 60
          some (if sg.val = 0x2d then -zoneOffset else zoneOffset)
        else none
      | _, _ => none
    | _ => none

/-- Go `time.parseRFC3339`, the parser that `time.Parse(time.RFC3339, s)` tries first:
`some t` when `s` is a strict RFC 3339 timestamp, `t` being the time it denotes in a zone
of the offset written in `s`. -/
def parseRFC3339 (s : GoString) : Option Time :=
  match s with
  | y0 :: y1 :: y2 :: y3 :: c4 :: m0 :: m1 :: c7 :: d0 :: d1 :: c10 :: h0 :: h1 :: c13
      :: i0 :: i1 :: c16 :: s0 :: s1 :: rest =>
    match parseUintIn [y0, y1, y2, y3] 0 9999, parseUintIn [m0, m1] 1 12 with
    | some year, some month =>
      match parseUintIn [d0, d1] 1 (daysIn month.toNat year), parseUintIn [h0, h1] 0 23,
          parseUintIn [i0, i1] 0 59, parseUintIn [s0, s1] 0 59 with
      | some day, some hour, some min, some sec =>
        if c4.val = 0x2d ∧ c7.val = 0x2d ∧ c10.val = 0x54 ∧ c13.val = 0x3a ∧ c16.val = 0x3a then
          -- Parse the fractional second.
          let isDigit := fun (c : Byte) => 0x30 ≤ c.val && c.val ≤ 0x39
          let (nsec, rest) :=
            match rest with
            | dot :: f0 :: more =>
              if dot.val = 0x2e ∧ isDigit f0 then
                (parseNanoseconds ((f0 :: more).takeWhile isDigit),
                  (f0 :: more).dropWhile isDigit)
              else (0, rest)
            | _ => (0, rest)
          -- Parse the time zone.
          let t := Date year month.toNat day hour min sec nsec
          match parseZone rest with
          | some zoneOffset => some { t with sec := t.sec - zoneOffset, offset := zoneOffset }
          | none => none
        else none
      | _, _, _, _ => none
    | _, _ => none
  | _ => none

/-! ## `ValString` -/

/-- A database value as the driver hands it over (Go `interface{}`): the dynamic types
`ValString` tells apart, and `other` for a value of any other dynamic type, which carries
the text `fmt.Sprint` renders it as. The integer constructors carry the value of an `int`,
`int32` or `int64`, which lies in the range of its type. -/
inductive Value where
  | nil
  | string (t : GoString)
  | bytes (t : List Byte)
  | int (t : Int)
  | int32 (t : Int)
  | int64 (t : Int)
  | time (t : Time)
  | other (sprint : GoString)
  deriving DecidableEq, Repr

/-- The escape marker: the two characters backslash and `x`. -/
def escapeMarker : GoString := [0x5c, 0x78]

/-- Source `ValString`: converts a database value to a string. (`int64(t)` leaves the value
of an `int32` as it is.) -/
def ValString (v : Value) : GoString :=
  match v with
  | .nil => []
  | .string t => t
  | .bytes t =>
    if Valid t then t
    else escapeMarker ++ EncodeToString t
  | .int t => Itoa t
  | .int32 t => FormatInt t
  | .int64 t => FormatInt t
  | .time t => t.FormatRFC3339
  | .other sprint => sprint

/-! ## `Export` -/

/-- A Go `error` value, known by its message. -/
structure Error where
  msg : String
  deriving DecidableEq, Repr

/-- One call that `Export` makes, with the arguments it passes and what the call returns
(`err = none` for a nil error): the calls on the database and its cursor, the calls on the
sink, and the `log.Printf` of a failed close. -/
inductive Call where
  | Select (query : GoString) (err : Option Error)
  | Columns (err : Option Error)
  | ColumnTypes (err : Option Error)
  | PreWrite (columns types : List GoString) (err : Option Error)
  | Next (more : Bool)
  | Scan (err : Option Error)
  | WriteRow (values : List Value) (columns : List GoString) (err : Option Error)
  | PostWrite (err : Option Error)
  | Close (err : Option Error)
  | Log (err : Error)
  deriving DecidableEq, Repr

/-- Whether the call is one on the sink (the `Writer`). -/
def Call.isSink : Call → Bool
  | .PreWrite _ _ _ => true
  | .WriteRow _ _ _ => true
  | .PostWrite _ => true
  | _ => false

/-- Source `Writer` (the sink `WriteFormat` embeds): its three operations. A sink has
state, so what a call returns may depend on the calls it has received before; each
operation takes that history of earlier sink calls as its first argument. -/
structure Writer where
  PreWrite : List Call → List GoString → List GoString → Option Error
  WriteRow : List Call → List Value → List GoString → Option Error
  PostWrite : List Call → Option Error

/-- Go `sql.ColumnType`, of which `Export` uses only `DatabaseTypeName()`. -/
structure ColumnType where
  DatabaseTypeName : GoString
  deriving DecidableEq, Repr

/-- Go `sql.Rows`, the cursor of a finite result set: what `Columns()` and `ColumnTypes()`
return, the outcome of each `Scan` in result order (the values it stores in the slots, or
its error; `Next()` is true as long as an outcome is left), and what `Close()` returns. -/
structure Rows where
  Columns : Except Error (List GoString)
  ColumnTypes : Except Error (List ColumnType)
  scans : List (Except Error (List Value))
  Close : Option Error

/-- Source `DB`, of which `Export` uses only `Select`. -/
structure DB where
  Select : GoString → Except Error Rows

/-- How a call of `Export` ends: it returns an error value (`none` for nil), or it panics. -/
inductive Outcome where
  | returned (err : Option Error)
  | panicked
  deriving DecidableEq, Repr

/-- One run of `Export`: the calls it made, in order, and how it ended. -/
structure Run where
  trace : List Call
  result : Outcome
  deriving DecidableEq, Repr

/-- Source `Export`, lines 59-62: the loop `for i, ct := range columnTypes` that stores
`ct.DatabaseTypeName()` in `types[i]`, from index `i` on. An index outside `types` panics
(`none`). -/
def setTypes : List GoString → Nat → List ColumnType → Option (List GoString)
  | types, _, [] => some types
  | types, i, ct :: columnTypes =>
    if i < types.length then setTypes (types.set i ct.DatabaseTypeName) (i + 1) columnTypes
    else none

/-- Source `Export`, lines 68-78: the loop over the rows that are left and the final
`PostWrite`. `hist` is the sink calls made so far. The result is the calls made and the
error returned. -/
def rowLoop (w : Writer) (columns : List GoString) :
    List (Except Error (List Value)) → List Call → List Call × Option Error
  | [], hist =>
    let err := w.PostWrite hist
    ([.Next false, .PostWrite err], err)
  | .error e :: _, _ => ([.Next true, .Scan (some e)], some e)
  | .ok values :: scans, hist =>
    match w.WriteRow hist values columns with
    | some e => ([.Next true, .Scan none, .WriteRow values columns (some e)], some e)
    | none =>
      let (trace, err) := rowLoop w columns scans (hist ++ [.WriteRow values columns none])
      (.Next true :: .Scan none :: .WriteRow values columns none :: trace, err)

/-- Source `Export`, lines 49-78: what follows the `defer` statement. -/
def exportBody (w : Writer) (rows : Rows) (columns : List GoString) : List Call × Outcome :=
  match rows.ColumnTypes with
  | .error e => ([.ColumnTypes (some e)], .returned (some e))
  | .ok columnTypes =>
    match setTypes (List.replicate columns.length []) 0 columnTypes with
    | none => ([.ColumnTypes none], .panicked)
    | some types =>
      match w.PreWrite [] columns types with
      | some e => ([.ColumnTypes none, .PreWrite columns types (some e)], .returned (some e))
      | none =>
        let (trace, err) := rowLoop w columns rows.scans [.PreWrite columns types none]
        (.ColumnTypes none :: .PreWrite columns types none :: trace, .returned err)

/-- Source `Export`, lines 43-48: the deferred function. It calls `rows.Close()` and logs
a failure. It assigns to the local `err` only, after the value to return has been fixed, so
it leaves the outcome of `Export` as it is. -/
def deferred (rows : Rows) : List Call :=
  match rows.Close with
  | some e => [.Close (some e), .Log e]
  | none => [.Close none]

/-- Source `WriteFormat.Export`: executes the query and writes the result out by the
writer. The deferred function is registered only once `Columns()` has succeeded, and from
then on runs at every exit, a panic included. -/
def Export (w : Writer) (db : DB) (query : GoString) : Run :=
  match db.Select query with
  | .error e => ⟨[.Select query (some e)], .returned (some e)⟩
  | .ok rows =>
    match rows.Columns with
    | .error e => ⟨[.Select query none, .Columns (some e)], .returned (some e)⟩
    | .ok columns =>
      let (trace, result) := exportBody w rows columns
      ⟨.Select query none :: .Columns none :: trace ++ deferred rows, result⟩

/-- The calls on the sink among the calls of a run, in order. -/
def sinkCalls (trace : List Call) : List Call := trace.filter Call.isSink

/-! ## Vocabulary of the theorems -/

/-- The number a sequence of decimal digits denotes, continuing from `n`. -/
def valOf (n : Nat) (ds : List Byte) : Nat := ds.foldl (fun n c => n * 10 + (c.val - 0x30)) n

/-- A decimal digit character. -/
def isDigit (c : Byte) : Prop := 0x30 ≤ c.val ∧ c.val ≤ 0x39

instance (c : Byte) : Decidable (isDigit c) := by unfold isDigit; infer_instance

/-- The `WriteRow` calls that deliver the rows `rs` one after the other, all succeeding. -/
def writeCalls (columns : List GoString) (rs : List (List Value)) : List Call :=
  rs.map (fun r => .WriteRow r columns none)

/-- The calls of the loop rounds that fetch and deliver the rows `rs`, all succeeding. -/
def rowCalls (columns : List GoString) (rs : List (List Value)) : List Call :=
  rs.flatMap (fun r => [.Next true, .Scan none, .WriteRow r columns none])

/-- Whether the call is a `WriteRow`. -/
def Call.isWriteRow : Call → Bool
  | .WriteRow _ _ _ => true
  | _ => false

/-- Whether the call is a `PostWrite`. -/
def Call.isPostWrite : Call → Bool
  | .PostWrite _ => true
  | _ => false

/-- Whether the call is a `Close` of the cursor. -/
def Call.isClose : Call → Bool
  | .Close _ => true
  | _ => false

/-- Whether the call fetches a row: `Next` or `Scan`. -/
def Call.isFetch : Call → Bool
  | .Next _ => true
  | .Scan _ => true
  | _ => false

/-- The same cursor with `Close()` returning `c`. -/
def Rows.withClose (rows : Rows) (c : Option Error) : Rows := { rows with Close := c }

/-- The same database, the cursors of which return `c` from `Close()`. -/
def DB.withClose (db : DB) (c : Option Error) : DB :=
  { Select := fun query =>
      match db.Select query with
      | .ok rows => .ok (rows.withClose c)
      | .error e => .error e }

/-- A sink all of whose operations succeed. -/
def okWriter : Writer :=
  { PreWrite := fun _ _ _ => none, WriteRow := fun _ _ _ => none, PostWrite := fun _ => none }

/-- A cursor over the schema `(id INTEGER, name TEXT)` with the given scan outcomes. -/
def idNameRows (scans : List (Except Error (List Value))) (close : Option Error) : Rows :=
  { Columns := .ok [ascii "id", ascii "name"],
    ColumnTypes := .ok [⟨ascii "INTEGER"⟩, ⟨ascii "TEXT"⟩],
    scans := scans,
    Close := close }

/-- A database that answers every query with the same cursor. -/
def constDB (rows : Rows) : DB := { Select := fun _ => .ok rows }

/-- A sink whose `PreWrite` fails with the error `e`. -/
def failingPreWrite (e : Error) : Writer :=
  { okWriter with PreWrite := fun _ _ _ => some e }

/-- A cursor whose `Columns()` fails with `e`. -/
def failingColumns (e : Error) (close : Option Error) : Rows :=
  { Columns := .error e, ColumnTypes := .ok [], scans := [], Close := close }

/-- The text of a date and a clock time in RFC 3339 form, without the zone. -/
def fieldsText (Y M D h mi s : Nat) : GoString :=
  [digit (Y / 1000), digit (Y / 100 % 10), digit (Y / 10 % 10), digit (Y % 10), 0x2d,
   digit (M / 10), digit (M % 10), 0x2d, digit (D / 10), digit (D % 10), 0x54,
   digit (h / 10), digit (h % 10), 0x3a, digit (mi / 10), digit (mi % 10), 0x3a,
   digit (s / 10), digit (s % 10)]

/-- The zone designator `FormatRFC3339` writes for an offset that is a whole number of
minutes `zone` east of UTC, less than 100 hours. -/
def zoneText (zone : Int) : GoString :=
  if zone = 0 then [0x5a]
  else
    [if zone < 0 then 0x2d else 0x2b,
      digit (zone.natAbs / 60 / 10), digit (zone.natAbs / 60 % 10), 0x3a,
      digit (zone.natAbs % 60 / 10), digit (zone.natAbs % 60 % 10)]

/-- Go `utf8.ValidRune`: a rune that can be legally encoded, that is a code point up to
`MaxRune` outside the surrogate range. -/
def ValidRune (r : Nat) : Bool := r < 0xD800 || (0xDFFF < r && r ≤ 0x10FFFF)

/-- Go `utf8.EncodeRune`: the UTF-8 encoding of the rune `r`; a rune that is not valid is
encoded as `RuneError` (U+FFFD). The bit patterns are written arithmetically: `t | x` with
disjoint bits is `t + x`, `r >> k` is `r / 2^k` and `x & 0x3F` is `x % 64`. -/
def EncodeRune (r : Nat) : List Byte :=
  if r ≤ 0x7F then [Fin.ofNat r]
  else if r ≤ 0x7FF then [Fin.ofNat (0xC0 + r / 64), Fin.ofNat (0x80 + r % 64)]
  else if ValidRune r = false then [0xEF, 0xBF, 0xBD]
  else if r ≤ 0xFFFF then
    [Fin.ofNat (0xE0 + r / 4096), Fin.ofNat (0x80 + r / 64 % 64), Fin.ofNat (0x80 + r % 64)]
  else
    [Fin.ofNat (0xF0 + r / 262144), Fin.ofNat (0x80 + r / 4096 % 64),
      Fin.ofNat (0x80 + r / 64 % 64), Fin.ofNat (0x80 + r % 64)]

/-- Go `string(rs)` for a slice of runes `rs`: the UTF-8 encodings of the runes, joined. -/
def encodeRunes (rs : List Nat) : GoString := rs.flatMap EncodeRune

/-- Whether the call is a `PreWrite`. -/
def Call.isPreWrite : Call → Bool
  | .PreWrite _ _ _ => true
  | _ => false

/-- Whether the call returned an error. `Next` returns no error and `Log` returns
nothing. -/
def Call.failed : Call → Bool
  | .Select _ err => err.isSome
  | .Columns err => err.isSome
  | .ColumnTypes err => err.isSome
  | .PreWrite _ _ err => err.isSome
  | .Scan err => err.isSome
  | .WriteRow _ _ err => err.isSome
  | .PostWrite err => err.isSome
  | .Close err => err.isSome
  | .Next _ => false
  | .Log _ => false

/-- Whether the call is one on the cursor: `Columns`, `ColumnTypes`, `Next`, `Scan` or
`Close`. -/
def Call.isCursor : Call → Bool
  | .Columns _ => true
  | .ColumnTypes _ => true
  | .Next _ => true
  | .Scan _ => true
  | .Close _ => true
  | _ => false

/-- A database whose `Select` fails with `e`. -/
def failingDB (e : Error) : DB := { Select := fun _ => .error e }

/-- A sink whose `WriteRow` fails with `e` on the `k`-th row (the call that finds `k`
earlier sink calls, `PreWrite` and `k - 1` rows) and succeeds otherwise. -/
def failingWriteRow (k : Nat) (e : Error) : Writer :=
  { okWriter with WriteRow := fun hist _ _ => if hist.length = k then some e else none }

/-- A cursor over a join with two columns of the same name, `(id INTEGER, id TEXT)`, and
no rows. -/
def joinRows : Rows :=
  { Columns := .ok [ascii "id", ascii "id"],
    ColumnTypes := .ok [⟨ascii "INTEGER"⟩, ⟨ascii "TEXT"⟩],
    scans := [],
    Close := none }

/-- A cursor with the two columns `id`, `name` of which only the first has a type
descriptor, and no rows. -/
def shortTypesRows : Rows :=
  { Columns := .ok [ascii "id", ascii "name"],
    ColumnTypes := .ok [⟨ascii "INTEGER"⟩],
    scans := [],
    Close := none }

/-- A cursor over the schema `(id INTEGER, name TEXT)` with three rows. -/
def threeRows : Rows :=
  idNameRows [.ok [.int64 1, .nil], .ok [.int64 2, .nil], .ok [.int64 3, .nil]] none

/-- The run over `threeRows` into a sink whose second `WriteRow` fails. -/
def writeFailingRun : Run :=
  Export (failingWriteRow 2 ⟨"write"⟩) (constDB threeRows) (ascii "q")

/-- A cursor over the schema `(id INTEGER, name TEXT)` with one row, whose `Close()`
fails. -/
def closeFailingRows : Rows := idNameRows [.ok [.int64 1, .nil]] (some ⟨"close"⟩)

/-- The run over `closeFailingRows` into a sink that accepts everything. -/
def closeFailingRun : Run := Export okWriter (constDB closeFailingRows) (ascii "q")

/-- The error a call returned (`none` for nil); `Next` and `Log` return none. -/
def Call.error : Call → Option Error
  | .Select _ err => err
  | .Columns err => err
  | .ColumnTypes err => err
  | .PreWrite _ _ err => err
  | .Scan err => err
  | .WriteRow _ _ err => err
  | .PostWrite err => err
  | .Close err => err
  | .Next _ => none
  | .Log _ => none

/-- A cursor over the schema `(id INTEGER, name TEXT)` with one row. -/
def oneRow : Rows := idNameRows [.ok [.int64 1, .nil]] none

/-- A cursor over the schema `(id INTEGER, name TEXT)` whose second `Scan` fails. -/
def scanFailingRows : Rows := idNameRows [.ok [.int64 1, .nil], .error ⟨"scan"⟩] none

/-! ## Theorems: hex escape of byte sequences -/

set_option maxRecDepth 100000 in
theorem hextable_digit (v : Byte) :
    fromHexChar (hextable.getD (v.val / 16) 0) = some (v.val / 16) ∧
    fromHexChar (hextable.getD (v.val % 16) 0) = some (v.val % 16) ∧
    isLowerHex (hextable.getD (v.val / 16) 0) = true ∧
    isLowerHex (hextable.getD (v.val % 16) 0) = true := by
  revert v
  decide

set_option maxRecDepth 100000 in
theorem byte_of_nibbles (v : Byte) : (Fin.ofNat (v.val / 16 * 16 + v.val % 16) : Byte) = v := by
  revert v
  decide

theorem EncodeToString_length (b : List Byte) : (EncodeToString b).length = 2 * b.length := by
  induction b with
  | nil => rfl
  | cons v src ih => simp [EncodeToString, ih]; omega

theorem EncodeToString_lower (b : List Byte) : ∀ c ∈ EncodeToString b, isLowerHex c = true := by
  induction b with
  | nil => simp [EncodeToString]
  | cons v src ih =>
    intro c hc
    simp only [EncodeToString, List.mem_cons] at hc
    rcases hc with rfl | rfl | hc
    · exact (hextable_digit v).2.2.1
    · exact (hextable_digit v).2.2.2
    · exact ih c hc

theorem DecodeString_EncodeToString (b : List Byte) :
    DecodeString (EncodeToString b) = some b := by
  induction b with
  | nil => rfl
  | cons v src ih =>
    simp only [EncodeToString, DecodeString, (hextable_digit v).1, (hextable_digit v).2.1, ih,
      byte_of_nibbles]

/-- C1: for every byte sequence `b` that is not valid UTF-8, `ValString` of `b` is the
escape marker (backslash, `x`) followed by exactly `2 * len(b)` characters, each of them a
lowercase hex digit, and hex-decoding these characters gives `b` back. -/
theorem ValString_bytes_invalid (b : List Byte) (h : Valid b = false) :
    ∃ hx : GoString, ValString (.bytes b) = [0x5c, 0x78] ++ hx ∧ hx.length = 2 * b.length ∧
      (∀ c ∈ hx, isLowerHex c = true) ∧ DecodeString hx = some b := by
  refine ⟨EncodeToString b, ?_, EncodeToString_length b, EncodeToString_lower b,
    DecodeString_EncodeToString b⟩
  simp [ValString, h, escapeMarker]

theorem ValString_bytes_invalid_witness :
    Valid [0xff, 0x00, 0x41] = false ∧
    ∃ hx : GoString, ValString (.bytes [0xff, 0x00, 0x41]) = [0x5c, 0x78] ++ hx ∧
      hx.length = 2 * [(0xff : Byte), 0x00, 0x41].length ∧
      (∀ c ∈ hx, isLowerHex c = true) ∧ DecodeString hx = some [0xff, 0x00, 0x41] :=
  ⟨by decide, ValString_bytes_invalid [0xff, 0x00, 0x41] (by decide)⟩

/-- C5: `ValString` of the nil value is the empty string, and `ValString` of the empty
byte sequence is the empty string, not the escape marker. -/
theorem ValString_nil_and_empty :
    ValString .nil = [] ∧ ValString (.bytes []) = [] ∧ ValString (.bytes []) ≠ escapeMarker := by
  decide

/-! ## Theorems: integers -/

theorem digit_val (d : Nat) (h : d < 10) : (digit d).val = 0x30 + d := by
  simp [digit, Fin.ofNat]; omega

theorem digit_isDigit (d : Nat) (h : d < 10) : isDigit (digit d) := by
  unfold isDigit; rw [digit_val d h]; omega

theorem smallsString_even (k : Nat) : smallsString (k * 2) = digit (k / 10) := by
  have h1 : k * 2 % 2 = 0 := by omega
  have h2 : k * 2 / 2 = k := by omega
  simp [smallsString, h1, h2]

theorem smallsString_odd (k : Nat) : smallsString (k * 2 + 1) = digit (k % 10) := by
  have h1 : (k * 2 + 1) % 2 = 1 := by omega
  have h2 : (k * 2 + 1) / 2 = k := by omega
  simp [smallsString, h1, h2]

theorem valOf_cons (n : Nat) (c : Byte) (ds : List Byte) :
    valOf n (c :: ds) = valOf (n * 10 + (c.val - 0x30)) ds := rfl

theorem valOf_eq (ds : List Byte) : ∀ n, valOf n ds = n * 10 ^ ds.length + valOf 0 ds := by
  induction ds with
  | nil => intro n; simp [valOf]
  | cons c ds ih =>
    intro n
    rw [valOf_cons, valOf_cons, ih, ih (0 * 10 + _)]
    simp only [List.length_cons, pow_succ]
    ring

theorem le_valOf (ds : List Byte) (n : Nat) : n ≤ valOf n ds := by
  rw [valOf_eq]
  have : 0 < 10 ^ ds.length := by positivity
  nlinarith

theorem parseUintLoop_ok (maxVal : Nat) (hmax : maxVal < 2 ^ 64) (ds : List Byte) :
    ∀ n, (∀ c ∈ ds, isDigit c) → valOf n ds ≤ maxVal →
      parseUintLoop maxVal ds n = .ok (valOf n ds) := by
  induction ds with
  | nil => intro n _ _; rfl
  | cons c ds ih =>
    intro n hd hv
    have hc : isDigit c := hd c (List.mem_cons_self _ _)
    have hle := le_valOf ds (n * 10 + (c.val - 0x30))
    rw [valOf_cons] at hv
    have hlt : n * 10 + (c.val - 0x30) < 2 ^ 64 := by omega
    have h1 : ¬ ((2 ^ 64 - 1) / 10 + 1 ≤ n) := by omega
    have h2 : (n * 10 + (c.val - 0x30)) % 2 ^ 64 = n * 10 + (c.val - 0x30) := Nat.mod_eq_of_lt hlt
    unfold isDigit at hc
    simp only [parseUintLoop, hc, and_self, if_true, h1, if_false, h2]
    rw [if_neg (by omega), valOf_cons]
    exact ih _ (fun c hc => hd c (List.mem_cons_of_mem _ hc)) hv


theorem formatBitsLoop_spec : ∀ (fuel us : Nat) (a : List Byte), us < 100 ^ (fuel + 1) →
    (∀ c ∈ a, isDigit c) →
    (formatBitsLoop fuel us a).1 < 100 ∧ (∀ c ∈ (formatBitsLoop fuel us a).2, isDigit c) ∧
      (formatBitsLoop fuel us a).1 * 10 ^ (formatBitsLoop fuel us a).2.length
        + valOf 0 (formatBitsLoop fuel us a).2 = us * 10 ^ a.length + valOf 0 a := by
  intro fuel
  induction fuel with
  | zero => intro us a h ha; simp only [formatBitsLoop]; exact ⟨by omega, ha, trivial⟩
  | succ fuel ih =>
    intro us a h ha
    by_cases h100 : 100 ≤ us
    · simp only [formatBitsLoop, h100, if_true, smallsString_even, smallsString_odd]
      have hq : us / 100 < 100 ^ (fuel + 1) := by
        rw [Nat.div_lt_iff_lt_mul (by norm_num)]
        calc us < 100 ^ (fuel + 1 + 1) := h
          _ = 100 ^ (fuel + 1) * 100 := by rw [pow_succ]
      have hT : us % 100 / 10 < 10 := by omega
      have hO : us % 100 % 10 < 10 := by omega
      have ha2 : ∀ c ∈ digit (us % 100 / 10) :: digit (us % 100 % 10) :: a, isDigit c := by
        intro c hc
        simp only [List.mem_cons] at hc
        rcases hc with rfl | rfl | hc
        · exact digit_isDigit _ hT
        · exact digit_isDigit _ hO
        · exact ha c hc
      obtain ⟨r1, r2, r3⟩ := ih (us / 100) _ hq ha2
      refine ⟨r1, r2, ?_⟩
      rw [r3, valOf_cons, valOf_cons, valOf_eq, digit_val _ hT, digit_val _ hO]
      simp only [List.length_cons, pow_succ]
      have e : us = us / 100 * 100 + (us % 100 / 10 * 10 + us % 100 % 10) := by omega
      generalize 10 ^ a.length = P
      generalize valOf 0 a = v
      have e2 : (0 * 10 + (48 + us % 100 / 10 - 48)) * 10 + (48 + us % 100 % 10 - 48)
          = us % 100 / 10 * 10 + us % 100 % 10 := by omega
      rw [e2]
      conv_rhs => rw [e]
      ring
    · simp only [formatBitsLoop, h100, if_false]
      exact ⟨by omega, ha, trivial⟩

/-- The numeral `formatBits` writes for a non-negative number. -/
theorem formatBits_pos (u : Nat) (hu : u < 2 ^ 64) :
    (∀ c ∈ formatBits u false, isDigit c) ∧ formatBits u false ≠ [] ∧
      valOf 0 (formatBits u false) = u := by
  obtain ⟨r1, r2, r3⟩ := formatBitsLoop_spec 32 u [] (by norm_num; omega) (by simp)
  simp only [formatBits, Bool.false_eq_true, if_false,
    smallsString_even, smallsString_odd]
  generalize formatBitsLoop 32 u [] = r at r1 r2 r3
  obtain ⟨us, a⟩ := r
  simp only at r1 r2 r3 ⊢
  have hO : us % 10 < 10 := by omega
  have hT : us / 10 < 10 := by omega
  simp only [List.length_nil, pow_zero, mul_one, valOf, List.foldl_nil, add_zero] at r3
  change us * 10 ^ a.length + valOf 0 a = u at r3
  by_cases h10 : 10 ≤ us
  · simp only [h10, if_true]
    refine ⟨?_, by simp, ?_⟩
    · intro c hc
      simp only [List.mem_cons] at hc
      rcases hc with rfl | rfl | hc
      · exact digit_isDigit _ hT
      · exact digit_isDigit _ hO
      · exact r2 c hc
    · rw [valOf_cons, valOf_cons, valOf_eq, digit_val _ hT, digit_val _ hO, ← r3]
      have e2 : (0 * 10 + (48 + us / 10 - 48)) * 10 + (48 + us % 10 - 48) = us := by omega
      rw [e2]
  · simp only [h10, if_false]
    refine ⟨?_, by simp, ?_⟩
    · intro c hc
      simp only [List.mem_cons] at hc
      rcases hc with rfl | hc
      · exact digit_isDigit _ hO
      · exact r2 c hc
    · rw [valOf_cons, valOf_eq, digit_val _ hO, ← r3]
      have e2 : (0 * 10 + (48 + us % 10 - 48)) = us := by omega
      rw [e2]


theorem small_eq_formatBits (k : Nat) (h : k < 100) : small k = formatBits k false := by
  have h100 : ¬ (100 ≤ k) := by omega
  simp only [small, formatBits, formatBitsLoop, h100, Bool.false_eq_true, if_false,
    smallsString_even, smallsString_odd]
  by_cases h10 : 10 ≤ k
  · simp [h10, Nat.not_lt.mpr h10]
  · have e : k % 10 = k := by omega
    simp [h10, Nat.lt_of_not_le h10, e]

theorem formatBits_neg (u : Nat) :
    formatBits u true = 0x2d :: formatBits ((2 ^ 64 - u) % 2 ^ 64) false := by
  simp only [formatBits, if_true, Bool.false_eq_true, if_false]

theorem FormatInt_nonneg (n : Int) (h0 : 0 ≤ n) (h : n < 2 ^ 64) :
    FormatInt n = formatBits n.toNat false := by
  unfold FormatInt
  by_cases hs : 0 ≤ n ∧ n < 100
  · rw [if_pos hs]
    exact small_eq_formatBits _ (by omega)
  · rw [if_neg hs]
    have e : (n % 2 ^ 64).toNat = n.toNat := by omega
    have e2 : decide (n < 0) = false := by simp; omega
    rw [e, e2]

theorem FormatInt_neg (n : Int) (h0 : n < 0) (h : -2 ^ 63 ≤ n) :
    FormatInt n = 0x2d :: formatBits (-n).toNat false := by
  unfold FormatInt
  have hs : ¬ (0 ≤ n ∧ n < 100) := by omega
  rw [if_neg hs]
  have e2 : decide (n < 0) = true := by simp; omega
  have e : (2 ^ 64 - (n % 2 ^ 64).toNat) % 2 ^ 64 = (-n).toNat := by omega
  rw [e2, formatBits_neg, e]

theorem ParseInt_digits (s : GoString) (bits : Nat) (hb : 1 ≤ bits ∧ bits ≤ 64)
    (hd : ∀ c ∈ s, isDigit c) (hne : s ≠ []) (hv : valOf 0 s < 2 ^ (bits - 1)) :
    ParseInt s bits = .ok (valOf 0 s : Int) := by
  have hp : (2:Nat) ^ (bits - 1) * 2 = 2 ^ bits := by
    rw [← pow_succ]; congr 1; omega
  have hp64 : (2:Nat) ^ bits ≤ 2 ^ 64 := Nat.pow_le_pow_right (by norm_num) hb.2
  have hu : ParseUint s bits = .ok (valOf 0 s) := by
    unfold ParseUint
    rw [if_neg hne]
    exact parseUintLoop_ok _ (by omega) s 0 hd (by omega)
  cases s with
  | nil => exact absurd rfl hne
  | cons c s1 =>
    have hc := hd c (List.mem_cons_self _ _)
    unfold isDigit at hc
    have h1 : ¬ (c.val = 0x2b) := by omega
    have h2 : ¬ (c.val = 0x2d) := by omega
    simp only [ParseInt, h1, if_false, h2, decide_False, Bool.not_false, Bool.false_eq_true,
      false_and, true_and, or_self]
    rw [hu]
    simp only
    rw [if_neg (by omega)]

theorem ParseInt_minus_digits (s : GoString) (bits : Nat) (hb : 1 ≤ bits ∧ bits ≤ 64)
    (hd : ∀ c ∈ s, isDigit c) (hne : s ≠ []) (hv : valOf 0 s ≤ 2 ^ (bits - 1)) :
    ParseInt (0x2d :: s) bits = .ok (-(valOf 0 s : Int)) := by
  have hp : (2:Nat) ^ (bits - 1) * 2 = 2 ^ bits := by
    rw [← pow_succ]; congr 1; omega
  have hpos : 0 < (2:Nat) ^ (bits - 1) := by positivity
  have hp64 : (2:Nat) ^ bits ≤ 2 ^ 64 := Nat.pow_le_pow_right (by norm_num) hb.2
  have hu : ParseUint s bits = .ok (valOf 0 s) := by
    unfold ParseUint
    rw [if_neg hne]
    exact parseUintLoop_ok _ (by omega) s 0 hd (by omega)
  have h45 : ((45 : Byte) : Nat) = 45 := rfl
  simp only [ParseInt, h45]
  simp only [or_true, if_true, decide_True, Bool.not_true, Bool.false_eq_true, false_and,
    if_false, true_and]
  rw [hu]
  simp only
  rw [if_neg (by omega)]

theorem ParseInt_FormatInt (n : Int) (bits : Nat) (hb : bits = 32 ∨ bits = 64)
    (hlo : -2 ^ (bits - 1) ≤ n) (hhi : n < 2 ^ (bits - 1)) :
    ParseInt (FormatInt n) bits = .ok n := by
  have hb2 : 1 ≤ bits ∧ bits ≤ 64 := by omega
  have hle : (2:Int) ^ (bits - 1) ≤ 2 ^ 63 := by
    rcases hb with rfl | rfl <;> norm_num
  by_cases h0 : 0 ≤ n
  · obtain ⟨d1, d2, d3⟩ := formatBits_pos n.toNat (by omega)
    rw [FormatInt_nonneg n h0 (by omega), ParseInt_digits _ bits hb2 d1 d2, d3]
    · simp [h0]
    · rw [d3]
      have : ((n.toNat : Nat) : Int) < ((2 ^ (bits - 1) : Nat) : Int) := by
        push_cast; omega
      exact_mod_cast this
  · obtain ⟨d1, d2, d3⟩ := formatBits_pos (-n).toNat (by omega)
    rw [FormatInt_neg n (by omega) (by omega), ParseInt_minus_digits _ bits hb2 d1 d2, d3]
    · congr 1; omega
    · rw [d3]
      have : (((-n).toNat : Nat) : Int) ≤ ((2 ^ (bits - 1) : Nat) : Int) := by
        push_cast; omega
      exact_mod_cast this

/-- C3: for every integer `n` in the range of the signed type of `bits` bits, `bits` being
32 or 64 (the bounds included), `strconv.ParseInt` in base 10 of `ValString` of `n` succeeds
and yields `n`, whichever of the integer types `int32`, `int64`, `int` carries `n`. -/
theorem ValString_int_parses_back (n : Int) (bits : Nat) (hb : bits = 32 ∨ bits = 64)
    (hlo : -2 ^ (bits - 1) ≤ n) (hhi : n < 2 ^ (bits - 1)) :
    ParseInt (ValString (.int32 n)) bits = .ok n ∧ ParseInt (ValString (.int64 n)) bits = .ok n ∧
      ParseInt (ValString (.int n)) bits = .ok n := by
  have h := ParseInt_FormatInt n bits hb hlo hhi
  exact ⟨h, h, h⟩

theorem ValString_int_parses_back_witness :
    ParseInt (ValString (.int32 (-9223372036854775808))) 64 = .ok (-9223372036854775808) ∧
      ParseInt (ValString (.int64 (-9223372036854775808))) 64 = .ok (-9223372036854775808) ∧
      ParseInt (ValString (.int (-9223372036854775808))) 64 = .ok (-9223372036854775808) :=
  ValString_int_parses_back (-9223372036854775808) 64 (Or.inr rfl) (by norm_num) (by norm_num)

/-! ## Theorems: the export pipeline -/

theorem set_append_cons (pre : List GoString) (m x : GoString) (rest : List GoString) :
    (pre ++ m :: rest).set pre.length x = pre ++ x :: rest := by
  induction pre with
  | nil => rfl
  | cons p pre ih => simp [List.set, ih]

theorem setTypes_spec (columnTypes : List ColumnType) :
    ∀ (pre mid post : List GoString), mid.length = columnTypes.length →
      setTypes (pre ++ (mid ++ post)) pre.length columnTypes
        = some (pre ++ (columnTypes.map ColumnType.DatabaseTypeName ++ post)) := by
  induction columnTypes with
  | nil =>
    intro pre mid post h
    have : mid = [] := List.length_eq_zero.mp h
    simp [setTypes, this]
  | cons ct cts ih =>
    intro pre mid post h
    cases mid with
    | nil => simp at h
    | cons m mid =>
      simp only [List.length_cons, Nat.add_right_cancel_iff] at h
      have hi : pre.length < (pre ++ (m :: mid ++ post)).length := by simp
      simp only [setTypes, hi, if_true, List.cons_append, set_append_cons]
      have := ih (pre ++ [ct.DatabaseTypeName]) mid post h
      simp only [List.length_append, List.length_singleton, List.append_assoc,
        List.singleton_append] at this
      rw [this]
      simp

theorem setTypes_le (n : Nat) (columnTypes : List ColumnType) (h : columnTypes.length ≤ n) :
    setTypes (List.replicate n []) 0 columnTypes
      = some (columnTypes.map ColumnType.DatabaseTypeName
          ++ List.replicate (n - columnTypes.length) []) := by
  have e : List.replicate n ([] : GoString)
      = [] ++ (List.replicate columnTypes.length [] ++ List.replicate (n - columnTypes.length) []) := by
    rw [List.nil_append, List.append_replicate_replicate]
    congr 1; omega
  rw [e]
  exact setTypes_spec columnTypes [] _ _ (by simp)

theorem setTypes_same_length (columns : List GoString) (columnTypes : List ColumnType)
    (h : columnTypes.length = columns.length) :
    setTypes (List.replicate columns.length []) 0 columnTypes
      = some (columnTypes.map ColumnType.DatabaseTypeName) := by
  rw [setTypes_le _ _ (by omega)]
  simp [h]

theorem rowLoop_prefix (w : Writer) (columns : List GoString)
    (rest : List (Except Error (List Value))) (pre : List (List Value)) :
    ∀ hist : List Call,
      (∀ p r q, pre = p ++ r :: q → w.WriteRow (hist ++ writeCalls columns p) r columns = none) →
      rowLoop w columns (pre.map .ok ++ rest) hist
        = (rowCalls columns pre ++ (rowLoop w columns rest (hist ++ writeCalls columns pre)).1,
           (rowLoop w columns rest (hist ++ writeCalls columns pre)).2) := by
  induction pre with
  | nil => intro hist _; simp [writeCalls, rowCalls]
  | cons r rs ih =>
    intro hist h
    have h0 : w.WriteRow hist r columns = none := by
      have := h [] r rs rfl
      simpa [writeCalls] using this
    have hrec := ih (hist ++ [.WriteRow r columns none]) (by
      intro p r' q e
      have := h (r :: p) r' q (by rw [e]; rfl)
      simpa [writeCalls, List.append_assoc] using this)
    simp only [List.map_cons, List.cons_append, rowLoop, h0, List.append_eq]
    rw [hrec]
    simp [writeCalls, rowCalls, List.append_assoc]

theorem sinkCalls_rowCalls (columns : List GoString) (rs : List (List Value)) :
    sinkCalls (rowCalls columns rs) = writeCalls columns rs := by
  induction rs with
  | nil => rfl
  | cons r rs ih =>
    simp only [sinkCalls, rowCalls, writeCalls] at ih ⊢
    simp [List.flatMap_cons, List.filter_cons, Call.isSink, ih]

theorem sinkCalls_deferred (rows : Rows) : sinkCalls (deferred rows) = [] := by
  unfold deferred sinkCalls
  cases rows.Close <;> simp [Call.isSink]

theorem Export_delivering (w : Writer) (db : DB) (query : GoString) (rows : Rows)
    (columns : List GoString) (columnTypes : List ColumnType) (types : List GoString)
    (hs : db.Select query = .ok rows) (hc : rows.Columns = .ok columns)
    (ht : rows.ColumnTypes = .ok columnTypes)
    (hty : setTypes (List.replicate columns.length []) 0 columnTypes = some types)
    (hp : w.PreWrite [] columns types = none) :
    Export w db query =
      ⟨.Select query none :: .Columns none :: .ColumnTypes none :: .PreWrite columns types none ::
          (rowLoop w columns rows.scans [.PreWrite columns types none]).1 ++ deferred rows,
        .returned (rowLoop w columns rows.scans [.PreWrite columns types none]).2⟩ := by
  simp [Export, exportBody, hs, hc, ht, hty, hp]

/-- C6: when `Select`, `Columns`, `ColumnTypes` (one descriptor per column) and every
`Scan` succeed, the cursor yields the rows `rs`, and the `PreWrite` call and every
`WriteRow` call of the run succeed, the sink calls of `Export` are exactly
`PreWrite(columns, declared type names)`, then `WriteRow(r, columns)` for the rows `r` of
`rs` in order with the values as scanned, then one `PostWrite`. -/
theorem Export_sink_calls (w : Writer) (db : DB) (query : GoString) (rows : Rows)
    (columns : List GoString) (columnTypes : List ColumnType) (rs : List (List Value))
    (hs : db.Select query = .ok rows) (hc : rows.Columns = .ok columns)
    (ht : rows.ColumnTypes = .ok columnTypes) (hlen : columnTypes.length = columns.length)
    (hscan : rows.scans = rs.map .ok)
    (hpre : w.PreWrite [] columns (columnTypes.map ColumnType.DatabaseTypeName) = none)
    (hrow : ∀ p r q, rs = p ++ r :: q →
      w.WriteRow (.PreWrite columns (columnTypes.map ColumnType.DatabaseTypeName) none
        :: writeCalls columns p) r columns = none) :
    sinkCalls (Export w db query).trace =
      .PreWrite columns (columnTypes.map ColumnType.DatabaseTypeName) none
        :: writeCalls columns rs
        ++ [.PostWrite (w.PostWrite
            (.PreWrite columns (columnTypes.map ColumnType.DatabaseTypeName) none
              :: writeCalls columns rs))] := by
  have hl := rowLoop_prefix w columns [] rs
    [.PreWrite columns (columnTypes.map ColumnType.DatabaseTypeName) none]
    (by simpa using hrow)
  rw [List.append_nil] at hl
  rw [Export_delivering w db query rows columns columnTypes _ hs hc ht
    (setTypes_same_length columns columnTypes hlen) hpre, hscan, hl]
  have h1 := sinkCalls_rowCalls columns rs
  have h2 := sinkCalls_deferred rows
  simp only [sinkCalls] at h1 h2 ⊢
  simp [rowLoop, List.filter_cons, List.filter_append, Call.isSink, h1, h2]

theorem Export_sink_calls_witness :
    sinkCalls (Export okWriter
        (constDB (idNameRows [.ok [.int64 1, .string (ascii "a")], .ok [.int64 2, .nil]] none))
        (ascii "SELECT * FROM t")).trace =
      [.PreWrite [ascii "id", ascii "name"] [ascii "INTEGER", ascii "TEXT"] none,
       .WriteRow [.int64 1, .string (ascii "a")] [ascii "id", ascii "name"] none,
       .WriteRow [.int64 2, .nil] [ascii "id", ascii "name"] none,
       .PostWrite none] :=
  Export_sink_calls okWriter
    (constDB (idNameRows [.ok [.int64 1, .string (ascii "a")], .ok [.int64 2, .nil]] none))
    (ascii "SELECT * FROM t")
    (idNameRows [.ok [.int64 1, .string (ascii "a")], .ok [.int64 2, .nil]] none)
    [ascii "id", ascii "name"] [⟨ascii "INTEGER"⟩, ⟨ascii "TEXT"⟩]
    [[.int64 1, .string (ascii "a")], [.int64 2, .nil]]
    rfl rfl rfl rfl rfl rfl (fun _ _ _ _ => rfl)

theorem filter_rowCalls_isWriteRow (columns : List GoString) (rs : List (List Value)) :
    (rowCalls columns rs).filter Call.isWriteRow = writeCalls columns rs := by
  induction rs with
  | nil => rfl
  | cons r rs ih =>
    simp only [rowCalls, writeCalls] at ih ⊢
    simp [List.flatMap_cons, List.filter_cons, Call.isWriteRow, ih]

theorem filter_rowCalls_isPostWrite (columns : List GoString) (rs : List (List Value)) :
    (rowCalls columns rs).filter Call.isPostWrite = [] := by
  induction rs with
  | nil => rfl
  | cons r rs ih =>
    simp only [rowCalls] at ih ⊢
    simp [List.flatMap_cons, List.filter_cons, Call.isPostWrite, ih]

theorem filter_rowCalls_isClose (columns : List GoString) (rs : List (List Value)) :
    (rowCalls columns rs).filter Call.isClose = [] := by
  induction rs with
  | nil => rfl
  | cons r rs ih =>
    simp only [rowCalls] at ih ⊢
    simp [List.flatMap_cons, List.filter_cons, Call.isClose, ih]

theorem filter_deferred_isWriteRow (rows : Rows) :
    (deferred rows).filter Call.isWriteRow = [] := by
  unfold deferred
  cases rows.Close <;> simp [Call.isWriteRow]

theorem filter_deferred_isPostWrite (rows : Rows) :
    (deferred rows).filter Call.isPostWrite = [] := by
  unfold deferred
  cases rows.Close <;> simp [Call.isPostWrite]

theorem filter_deferred_isFetch (rows : Rows) :
    (deferred rows).filter Call.isFetch = [] := by
  unfold deferred
  cases rows.Close <;> simp [Call.isFetch]

theorem filter_deferred_isClose (rows : Rows) :
    (deferred rows).filter Call.isClose = [.Close rows.Close] := by
  unfold deferred
  cases h : rows.Close <;> simp [Call.isClose]

/-- C7: for every `k ≥ 1`, if `Scan` fails with `e` on the `k`-th row while everything
before it succeeded (the rows `pre` before it, `k - 1` of them, were scanned and written),
`Export` returns `e`, its `WriteRow` calls are exactly those for the rows of `pre` in order,
`k - 1` calls, it makes no `PostWrite` call, and it calls `Close` on the cursor; the calls of
the run are listed in full. -/
theorem Export_scan_error (w : Writer) (db : DB) (query : GoString) (rows : Rows)
    (columns : List GoString) (columnTypes : List ColumnType) (types : List GoString)
    (pre : List (List Value)) (e : Error) (post : List (Except Error (List Value))) (k : Nat)
    (hs : db.Select query = .ok rows) (hc : rows.Columns = .ok columns)
    (ht : rows.ColumnTypes = .ok columnTypes)
    (hty : setTypes (List.replicate columns.length []) 0 columnTypes = some types)
    (hpre : w.PreWrite [] columns types = none)
    (hscan : rows.scans = pre.map .ok ++ .error e :: post) (hk : pre.length + 1 = k)
    (hrow : ∀ p r q, pre = p ++ r :: q →
      w.WriteRow (.PreWrite columns types none :: writeCalls columns p) r columns = none) :
    (Export w db query).result = .returned (some e) ∧
    (Export w db query).trace =
      [.Select query none, .Columns none, .ColumnTypes none, .PreWrite columns types none]
        ++ rowCalls columns pre ++ [.Next true, .Scan (some e)] ++ deferred rows ∧
    (Export w db query).trace.filter Call.isWriteRow = writeCalls columns pre ∧
    ((Export w db query).trace.filter Call.isWriteRow).length = k - 1 ∧
    (Export w db query).trace.filter Call.isPostWrite = [] ∧
    (Export w db query).trace.filter Call.isClose = [.Close rows.Close] := by
  have hl := rowLoop_prefix w columns (.error e :: post) pre [.PreWrite columns types none]
    (by simpa using hrow)
  have hE := Export_delivering w db query rows columns columnTypes types hs hc ht hty hpre
  rw [hscan, hl] at hE
  simp only [rowLoop] at hE
  have h1 := filter_rowCalls_isWriteRow columns pre
  have h2 := filter_rowCalls_isPostWrite columns pre
  have h3 := filter_rowCalls_isClose columns pre
  have h4 := filter_deferred_isWriteRow rows
  have h5 := filter_deferred_isPostWrite rows
  have h6 := filter_deferred_isClose rows
  rw [hE]
  refine ⟨rfl, by simp, ?_, ?_, ?_, ?_⟩
  · simp [List.filter_cons, List.filter_append, Call.isWriteRow, h1, h4]
  · simp [List.filter_cons, List.filter_append, Call.isWriteRow, h1, h4, writeCalls, ← hk]
  · simp [List.filter_cons, List.filter_append, Call.isPostWrite, h2, h5]
  · simp [List.filter_cons, List.filter_append, Call.isClose, h3, h6]

theorem Export_scan_error_witness :
    (Export okWriter (constDB (idNameRows
        [.ok [.int64 1, .string (ascii "a")], .error ⟨"scan"⟩, .ok [.int64 3, .nil]] none))
      (ascii "q")).result = .returned (some ⟨"scan"⟩) ∧
    (Export okWriter (constDB (idNameRows
        [.ok [.int64 1, .string (ascii "a")], .error ⟨"scan"⟩, .ok [.int64 3, .nil]] none))
      (ascii "q")).trace =
      [.Select (ascii "q") none, .Columns none, .ColumnTypes none,
        .PreWrite [ascii "id", ascii "name"] [ascii "INTEGER", ascii "TEXT"] none]
        ++ rowCalls [ascii "id", ascii "name"] [[.int64 1, .string (ascii "a")]]
        ++ [.Next true, .Scan (some ⟨"scan"⟩)]
        ++ deferred (idNameRows
          [.ok [.int64 1, .string (ascii "a")], .error ⟨"scan"⟩, .ok [.int64 3, .nil]] none) ∧
    (Export okWriter (constDB (idNameRows
        [.ok [.int64 1, .string (ascii "a")], .error ⟨"scan"⟩, .ok [.int64 3, .nil]] none))
      (ascii "q")).trace.filter Call.isWriteRow
      = writeCalls [ascii "id", ascii "name"] [[.int64 1, .string (ascii "a")]] ∧
    ((Export okWriter (constDB (idNameRows
        [.ok [.int64 1, .string (ascii "a")], .error ⟨"scan"⟩, .ok [.int64 3, .nil]] none))
      (ascii "q")).trace.filter Call.isWriteRow).length = 2 - 1 ∧
    (Export okWriter (constDB (idNameRows
        [.ok [.int64 1, .string (ascii "a")], .error ⟨"scan"⟩, .ok [.int64 3, .nil]] none))
      (ascii "q")).trace.filter Call.isPostWrite = [] ∧
    (Export okWriter (constDB (idNameRows
        [.ok [.int64 1, .string (ascii "a")], .error ⟨"scan"⟩, .ok [.int64 3, .nil]] none))
      (ascii "q")).trace.filter Call.isClose = [.Close none] :=
  Export_scan_error okWriter _ (ascii "q")
    (idNameRows [.ok [.int64 1, .string (ascii "a")], .error ⟨"scan"⟩, .ok [.int64 3, .nil]] none)
    [ascii "id", ascii "name"] [⟨ascii "INTEGER"⟩, ⟨ascii "TEXT"⟩]
    [ascii "INTEGER", ascii "TEXT"] [[.int64 1, .string (ascii "a")]] ⟨"scan"⟩
    [.ok [.int64 3, .nil]] 2 rfl rfl rfl rfl rfl rfl rfl (fun _ _ _ _ => rfl)

/-- C8: if `PreWrite` fails with `e` (everything before it having succeeded), `Export`
returns exactly `e`, calls neither `WriteRow` nor `PostWrite`, fetches no row (no `Next`, no
`Scan`), and calls `Close` on the cursor; the calls of the run are listed in full. -/
theorem Export_PreWrite_error (w : Writer) (db : DB) (query : GoString) (rows : Rows)
    (columns : List GoString) (columnTypes : List ColumnType) (types : List GoString)
    (e : Error)
    (hs : db.Select query = .ok rows) (hc : rows.Columns = .ok columns)
    (ht : rows.ColumnTypes = .ok columnTypes)
    (hty : setTypes (List.replicate columns.length []) 0 columnTypes = some types)
    (hpre : w.PreWrite [] columns types = some e) :
    (Export w db query).result = .returned (some e) ∧
    (Export w db query).trace =
      [.Select query none, .Columns none, .ColumnTypes none,
        .PreWrite columns types (some e)] ++ deferred rows ∧
    (Export w db query).trace.filter Call.isWriteRow = [] ∧
    (Export w db query).trace.filter Call.isPostWrite = [] ∧
    (Export w db query).trace.filter Call.isFetch = [] ∧
    (Export w db query).trace.filter Call.isClose = [.Close rows.Close] := by
  have hE : Export w db query =
      ⟨[.Select query none, .Columns none, .ColumnTypes none,
        .PreWrite columns types (some e)] ++ deferred rows, .returned (some e)⟩ := by
    simp [Export, exportBody, hs, hc, ht, hty, hpre]
  have h4 := filter_deferred_isWriteRow rows
  have h5 := filter_deferred_isPostWrite rows
  have h6 := filter_deferred_isClose rows
  have h7 := filter_deferred_isFetch rows
  rw [hE]
  refine ⟨rfl, rfl, ?_, ?_, ?_, ?_⟩
  · simp [List.filter_cons, Call.isWriteRow, h4]
  · simp [List.filter_cons, Call.isPostWrite, h5]
  · simp [List.filter_cons, Call.isFetch, h7]
  · simp [List.filter_cons, Call.isClose, h6]

theorem Export_PreWrite_error_witness :
    (Export (failingPreWrite ⟨"pre"⟩) (constDB (idNameRows [.ok [.int64 1, .nil]] none))
      (ascii "q")).result = .returned (some ⟨"pre"⟩) ∧
    (Export (failingPreWrite ⟨"pre"⟩) (constDB (idNameRows [.ok [.int64 1, .nil]] none))
      (ascii "q")).trace =
      [.Select (ascii "q") none, .Columns none, .ColumnTypes none,
        .PreWrite [ascii "id", ascii "name"] [ascii "INTEGER", ascii "TEXT"] (some ⟨"pre"⟩)]
        ++ deferred (idNameRows [.ok [.int64 1, .nil]] none) ∧
    (Export (failingPreWrite ⟨"pre"⟩) (constDB (idNameRows [.ok [.int64 1, .nil]] none))
      (ascii "q")).trace.filter Call.isWriteRow = [] ∧
    (Export (failingPreWrite ⟨"pre"⟩) (constDB (idNameRows [.ok [.int64 1, .nil]] none))
      (ascii "q")).trace.filter Call.isPostWrite = [] ∧
    (Export (failingPreWrite ⟨"pre"⟩) (constDB (idNameRows [.ok [.int64 1, .nil]] none))
      (ascii "q")).trace.filter Call.isFetch = [] ∧
    (Export (failingPreWrite ⟨"pre"⟩) (constDB (idNameRows [.ok [.int64 1, .nil]] none))
      (ascii "q")).trace.filter Call.isClose = [.Close none] :=
  Export_PreWrite_error (failingPreWrite ⟨"pre"⟩) _ (ascii "q")
    (idNameRows [.ok [.int64 1, .nil]] none)
    [ascii "id", ascii "name"] [⟨ascii "INTEGER"⟩, ⟨ascii "TEXT"⟩]
    [ascii "INTEGER", ascii "TEXT"] ⟨"pre"⟩ rfl rfl rfl rfl rfl

/-- C9 (the code at the failing input): when `Columns()` fails, `Export` returns that
error after the two calls `Select` and `Columns`; the deferred `Close` is not yet registered
and no `Close` call is made. -/
theorem Export_Columns_error_no_Close :
    (Export okWriter (constDB (failingColumns ⟨"columns"⟩ none)) (ascii "q")).result
      = .returned (some ⟨"columns"⟩) ∧
    (Export okWriter (constDB (failingColumns ⟨"columns"⟩ none)) (ascii "q")).trace
      = [.Select (ascii "q") none, .Columns (some ⟨"columns"⟩)] ∧
    (Export okWriter (constDB (failingColumns ⟨"columns"⟩ none)) (ascii "q")).trace.filter
      Call.isClose = [] := by
  decide

theorem exportBody_withClose (w : Writer) (rows : Rows) (columns : List GoString)
    (c : Option Error) : exportBody w (rows.withClose c) columns = exportBody w rows columns :=
  rfl

theorem Export_result_eq (w : Writer) (db : DB) (query : GoString) (c : Option Error) :
    (Export w (db.withClose c) query).result = (Export w db query).result := by
  cases hs : db.Select query with
  | error e => simp only [Export, DB.withClose, hs]
  | ok rows =>
    cases hc : rows.Columns with
    | error e => simp only [Export, DB.withClose, hs, Rows.withClose, hc]
    | ok columns =>
      have hc2 : (rows.withClose c).Columns = .ok columns := hc
      simp only [Export, DB.withClose, hs, hc, hc2, exportBody_withClose]

/-! ## Theorems: timestamps -/

theorem isLeap_iff (year : Int) :
    isLeap year = true ↔ year % 4 = 0 ∧ (year % 100 ≠ 0 ∨ year % 400 = 0) := by
  simp [isLeap]

/-- The arithmetic of the cycle decomposition, on named intermediate values. -/
theorem cycles (d n c' c q y' y : Int)
    (hn : n = d / 146097) (hc' : c' = (d - 146097 * n) / 36524) (hc : c = c' - c' / 4)
    (hq : q = (d - 146097 * n - 36524 * c) / 1461)
    (hy' : y' = (d - 146097 * n - 36524 * c - 1461 * q) / 365) (hy : y = y' - y' / 4) :
    0 ≤ c ∧ c ≤ 3 ∧ 0 ≤ q ∧ q ≤ 24 ∧ 0 ≤ y ∧ y ≤ 3 ∧
    0 ≤ d - 146097 * n - 36524 * c - 1461 * q - 365 * y ∧
    d - 146097 * n - 36524 * c - 1461 * q - 365 * y ≤ 365 ∧
    (d - 146097 * n - 36524 * c - 1461 * q - 365 * y = 365 → y = 3 ∧ (q ≠ 24 ∨ c = 3)) := by
  have b1 : 0 ≤ d - 146097 * n ∧ d - 146097 * n < 146097 := by omega
  have b2 : 0 ≤ c' ∧ c' ≤ 4 := by omega
  have b3 : 0 ≤ c ∧ c ≤ 3 := by omega
  have b4 : 0 ≤ d - 146097 * n - 36524 * c ∧ d - 146097 * n - 36524 * c ≤ 36524 ∧
      (c < 3 → d - 146097 * n - 36524 * c < 36524) := by omega
  have b5 : 0 ≤ q ∧ q ≤ 24 := by omega
  have b6 : 0 ≤ d - 146097 * n - 36524 * c - 1461 * q ∧
      d - 146097 * n - 36524 * c - 1461 * q ≤ 1460 ∧
      (q = 24 → c < 3 → d - 146097 * n - 36524 * c - 1461 * q < 1460) := by omega
  have b7 : 0 ≤ y' ∧ y' ≤ 4 := by omega
  have b8 : 0 ≤ y ∧ y ≤ 3 := by omega
  refine ⟨b3.1, b3.2, b5.1, b5.2, b8.1, b8.2, ?_, ?_, ?_⟩ <;> omega

theorem absYear_eq (d : Int) :
    ∃ n c q y : Int, 0 ≤ c ∧ c ≤ 3 ∧ 0 ≤ q ∧ q ≤ 24 ∧ 0 ≤ y ∧ y ≤ 3 ∧
      absYear d = (400 * n + 100 * c + 4 * q + y + 1,
        d - 146097 * n - 36524 * c - 1461 * q - 365 * y) ∧
      0 ≤ d - 146097 * n - 36524 * c - 1461 * q - 365 * y ∧
      d - 146097 * n - 36524 * c - 1461 * q - 365 * y ≤ 365 ∧
      (d - 146097 * n - 36524 * c - 1461 * q - 365 * y = 365 → y = 3 ∧ (q ≠ 24 ∨ c = 3)) := by
  obtain ⟨h1, h2, h3, h4, h5, h6, h7, h8, h9⟩ := cycles d _ _ _ _ _ _ rfl rfl rfl rfl rfl rfl
  refine ⟨_, _, _, _, h1, h2, h3, h4, h5, h6, ?_, h7, h8, h9⟩
  simp only [absYear, daysPer400Years, daysPer100Years, daysPer4Years]
  norm_num

theorem daysSinceEpoch_eq (n c q y : Int) (hc : 0 ≤ c ∧ c ≤ 3) (hq : 0 ≤ q ∧ q ≤ 24)
    (hy : 0 ≤ y ∧ y ≤ 3) :
    daysSinceEpoch (400 * n + 100 * c + 4 * q + y + 1)
      = 146097 * n + 36524 * c + 1461 * q + 365 * y := by
  simp only [daysSinceEpoch, daysPer400Years, daysPer100Years, daysPer4Years]
  norm_num
  have e1 : (400 * n + 100 * c + 4 * q + y) / 400 = n := by omega
  rw [e1]
  have e2 : (400 * n + 100 * c + 4 * q + y - 400 * n) / 100 = c := by omega
  rw [e2]
  have e3 : (400 * n + 100 * c + 4 * q + y - 400 * n - 100 * c) / 4 = q := by omega
  rw [e3]
  ring

theorem isLeap_eq (n c q y : Int) (hc : 0 ≤ c ∧ c ≤ 3) (hq : 0 ≤ q ∧ q ≤ 24)
    (hy : 0 ≤ y ∧ y ≤ 3) :
    isLeap (400 * n + 100 * c + 4 * q + y + 1) = true ↔ (y = 3 ∧ (q ≠ 24 ∨ c = 3)) := by
  rw [isLeap_iff]
  omega

theorem monthOf_spec (day : Int) (h0 : 0 ≤ day) (h1 : day < 365) :
    ∃ (m : Nat) (dd : Int),
      (let month := (day / 31).toNat
       let e := daysBefore (month + 1)
       if day ≥ e then (month + 2, day - e + 1)
       else (month + 1, day - daysBefore month + 1)) = (m, dd) ∧
      1 ≤ m ∧ m ≤ 12 ∧ 1 ≤ dd ∧ dd ≤ daysBefore m - daysBefore (m - 1) ∧
      daysBefore (m - 1) + (dd - 1) = day := by
  obtain ⟨k, hk⟩ : ∃ k : Nat, (day / 31).toNat = k := ⟨_, rfl⟩
  have hk2 : k ≤ 11 := by omega
  have hk3 : (k : Int) = day / 31 := by omega
  simp only [hk]
  interval_cases k <;> simp only [daysBefore, List.getD_cons_succ, List.getD_cons_zero] <;>
    split_ifs <;> refine ⟨_, _, rfl, ?_⟩ <;> norm_num <;> omega

theorem absMonthDay_spec (year yday : Int) (h0 : 0 ≤ yday) (h1 : yday ≤ 365)
    (h2 : yday = 365 → isLeap year = true) :
    1 ≤ (absMonthDay year yday).1 ∧ (absMonthDay year yday).1 ≤ 12 ∧
    1 ≤ (absMonthDay year yday).2 ∧
    (absMonthDay year yday).2 ≤ daysIn (absMonthDay year yday).1 year ∧
    daysBefore ((absMonthDay year yday).1 - 1)
      + (if isLeap year = true ∧ (absMonthDay year yday).1 ≥ 3 then 1 else 0)
      + ((absMonthDay year yday).2 - 1) = yday := by
  unfold absMonthDay
  by_cases hL : isLeap year = true
  · by_cases h59 : yday = 31 + 29 - 1
    · simp only [hL, h59, and_self, if_true, daysIn]
      simp [daysBefore]
    · rw [if_neg (by tauto)]
      by_cases hgt : yday > 31 + 29 - 1
      · simp only [hL, hgt, and_self, if_true]
        obtain ⟨m, dd, e, m1, m2, d1, d2, d3⟩ := monthOf_spec (yday - 1) (by omega) (by omega)
        simp only at e
        rw [e]
        simp only [daysIn, hL, and_true]
        norm_num at hgt
        interval_cases m <;> simp only [daysBefore, List.getD_cons_succ, List.getD_cons_zero] at * <;>
          norm_num at * <;> omega
      · simp only [hL, hgt, and_false, if_false]
        obtain ⟨m, dd, e, m1, m2, d1, d2, d3⟩ := monthOf_spec yday (by omega) (by omega)
        simp only at e
        rw [e]
        simp only [daysIn, hL, and_true, true_and]
        norm_num at hgt h59
        interval_cases m <;> simp only [daysBefore, List.getD_cons_succ, List.getD_cons_zero] at * <;>
          norm_num at * <;> omega
  · have hL2 : isLeap year = false := by simpa using hL
    have hlt : yday < 365 := by
      by_contra h
      exact hL (h2 (by omega))
    simp only [hL2, Bool.false_eq_true, false_and, if_false]
    obtain ⟨m, dd, e, m1, m2, d1, d2, d3⟩ := monthOf_spec yday h0 hlt
    simp only at e
    rw [e]
    simp only [daysIn, hL2, Bool.false_eq_true, and_false, if_false]
    exact ⟨m1, m2, d1, d2, by omega⟩

theorem appendIntLoop_lt (fuel u : Nat) (buf : List Byte) (h : u < 10) :
    appendIntLoop (fuel + 1) u buf = digit u :: buf := by
  simp [appendIntLoop, Nat.not_le.mpr h]

theorem appendIntLoop_ge (fuel u : Nat) (buf : List Byte) (h : 10 ≤ u) :
    appendIntLoop (fuel + 1) u buf = appendIntLoop fuel (u / 10) (digit (u % 10) :: buf) := by
  simp [appendIntLoop, h]

theorem digit_zero : digit 0 = (0x30 : Byte) := rfl

theorem appendInt_two (n : Nat) (h : n < 100) :
    appendInt (n : Int) 2 = [digit (n / 10), digit (n % 10)] := by
  have hneg : ¬ ((n : Int) < 0) := by omega
  simp only [appendInt, hneg, if_false, Int.natAbs_ofNat]
  by_cases h10 : 10 ≤ n
  · rw [appendIntLoop_ge 19 n [] h10, appendIntLoop_lt 18 _ _ (by omega)]
    rfl
  · have e1 : n / 10 = 0 := by omega
    have e2 : n % 10 = n := by omega
    rw [appendIntLoop_lt 19 n [] (by omega), e1, e2]
    rfl

theorem appendInt_four (n : Nat) (h : n < 10000) :
    appendInt (n : Int) 4
      = [digit (n / 1000), digit (n / 100 % 10), digit (n / 10 % 10), digit (n % 10)] := by
  have hneg : ¬ ((n : Int) < 0) := by omega
  simp only [appendInt, hneg, if_false, Int.natAbs_ofNat]
  by_cases h10 : 10 ≤ n
  · rw [appendIntLoop_ge 19 n [] h10]
    by_cases h100 : 10 ≤ n / 10
    · rw [appendIntLoop_ge 18 _ _ h100]
      by_cases h1000 : 10 ≤ n / 10 / 10
      · have e1 : n / 10 / 10 / 10 = n / 1000 := by omega
        have e2 : n / 10 / 10 % 10 = n / 100 % 10 := by omega
        rw [appendIntLoop_ge 17 _ _ h1000, appendIntLoop_lt 16 _ _ (by omega), e1, e2]
        rfl
      · have e1 : n / 1000 = 0 := by omega
        have e2 : n / 100 % 10 = n / 10 / 10 := by omega
        rw [appendIntLoop_lt 17 _ _ (by omega), e1, e2]
        rfl
    · have e1 : n / 1000 = 0 := by omega
      have e2 : n / 100 % 10 = 0 := by omega
      have e3 : n / 10 % 10 = n / 10 := by omega
      rw [appendIntLoop_lt 18 _ _ (by omega), e1, e2, e3]
      rfl
  · have e1 : n / 1000 = 0 := by omega
    have e2 : n / 100 % 10 = 0 := by omega
    have e3 : n / 10 % 10 = 0 := by omega
    have e4 : n % 10 = n := by omega
    rw [appendIntLoop_lt 19 n [] (by omega), e1, e2, e3, e4]
    rfl

theorem foldl_int_valOf (s : List Byte) : ∀ n : Nat,
    s.foldl (fun (x : Int) c => x * 10 + ((c.val - 0x30 : Nat) : Int)) (n : Int)
      = ((valOf n s : Nat) : Int) := by
  induction s with
  | nil => intro n; rfl
  | cons c s ih =>
    intro n
    rw [List.foldl_cons, valOf_cons, ← ih]
    push_cast
    rfl

theorem parseUintIn_digits (s : List Byte) (hd : ∀ c ∈ s, isDigit c) (lo hi : Int)
    (h1 : lo ≤ (valOf 0 s : Nat)) (h2 : ((valOf 0 s : Nat) : Int) ≤ hi) :
    parseUintIn s lo hi = some ((valOf 0 s : Nat) : Int) := by
  have hall : (s.all fun c => decide (0x30 ≤ c.val) && decide (c.val ≤ 0x39)) = true := by
    rw [List.all_eq_true]
    intro c hc
    have := hd c hc
    unfold isDigit at this
    simp [this.1, this.2]
  have hf := foldl_int_valOf s 0
  simp only [Nat.cast_zero] at hf
  unfold parseUintIn
  rw [if_pos hall]
  simp only [hf]
  rw [if_neg (by omega)]

theorem parseUintIn_two (a b : Nat) (ha : a < 10) (hb : b < 10) (lo hi : Int)
    (h1 : lo ≤ (a * 10 + b : Nat)) (h2 : ((a * 10 + b : Nat) : Int) ≤ hi) :
    parseUintIn [digit a, digit b] lo hi = some ((a * 10 + b : Nat) : Int) := by
  have hv : valOf 0 [digit a, digit b] = a * 10 + b := by
    rw [valOf_cons, valOf_cons, digit_val a ha, digit_val b hb]
    simp [valOf]
  have hd : ∀ c ∈ [digit a, digit b], isDigit c := by
    intro c hc
    simp only [List.mem_cons, List.mem_singleton, List.not_mem_nil, or_false] at hc
    rcases hc with rfl | rfl
    · exact digit_isDigit a ha
    · exact digit_isDigit b hb
  rw [parseUintIn_digits _ hd lo hi (by rw [hv]; exact h1) (by rw [hv]; exact h2), hv]

theorem parseUintIn_four (a b c d : Nat) (ha : a < 10) (hb : b < 10) (hc : c < 10)
    (hd : d < 10) :
    parseUintIn [digit a, digit b, digit c, digit d] 0 9999
      = some ((a * 1000 + b * 100 + c * 10 + d : Nat) : Int) := by
  have hv : valOf 0 [digit a, digit b, digit c, digit d] = a * 1000 + b * 100 + c * 10 + d := by
    rw [valOf_cons, valOf_cons, valOf_cons, valOf_cons, digit_val a ha, digit_val b hb,
      digit_val c hc, digit_val d hd]
    simp only [valOf, List.foldl_nil]
    omega
  have hds : ∀ x ∈ [digit a, digit b, digit c, digit d], isDigit x := by
    intro x hx
    simp only [List.mem_cons, List.mem_singleton, List.not_mem_nil, or_false] at hx
    rcases hx with rfl | rfl | rfl | rfl
    · exact digit_isDigit a ha
    · exact digit_isDigit b hb
    · exact digit_isDigit c hc
    · exact digit_isDigit d hd
  rw [parseUintIn_digits _ hds 0 9999 (by omega) (by rw [hv]; omega), hv]

theorem parseRFC3339_fieldsText (Y M D h mi s : Nat) (zs : GoString) (zo : Int)
    (hY : Y ≤ 9999) (hM : 1 ≤ M ∧ M ≤ 12) (hD : 1 ≤ D ∧ (D : Int) ≤ daysIn M Y)
    (hh : h ≤ 23) (hmi : mi ≤ 59) (hs : s ≤ 59)
    (hz : parseZone zs = some zo) (hdot : ∀ c l, zs = c :: l → c.val ≠ 0x2e) :
    parseRFC3339 (fieldsText Y M D h mi s ++ zs)
      = some { sec := (Date Y M D h mi s 0).sec - zo, nsec := 0, offset := zo } := by
  have hD31 : D ≤ 31 := by
    have : daysIn M Y ≤ 31 := by
      unfold daysIn
      obtain ⟨m1, m2⟩ := hM
      split_ifs
      · norm_num
      · interval_cases M <;> simp [daysBefore]
    omega
  have eY : ((Y / 1000 * 1000 + Y / 100 % 10 * 100 + Y / 10 % 10 * 10 + Y % 10 : Nat) : Int)
      = (Y : Int) := by congr 1; omega
  have pY := parseUintIn_four (Y / 1000) (Y / 100 % 10) (Y / 10 % 10) (Y % 10)
    (by omega) (by omega) (by omega) (by omega)
  rw [eY] at pY
  have e2 : ∀ n : Nat, ((n / 10 * 10 + n % 10 : Nat) : Int) = (n : Int) := by
    intro n; congr 1; omega
  have pM := parseUintIn_two (M / 10) (M % 10) (by omega) (by omega) 1 12
    (by rw [e2]; omega) (by rw [e2]; omega)
  have pD := parseUintIn_two (D / 10) (D % 10) (by omega) (by omega) 1 (daysIn M Y)
    (by rw [e2]; omega) (by rw [e2]; omega)
  have ph := parseUintIn_two (h / 10) (h % 10) (by omega) (by omega) 0 23
    (by rw [e2]; omega) (by rw [e2]; omega)
  have pmi := parseUintIn_two (mi / 10) (mi % 10) (by omega) (by omega) 0 59
    (by rw [e2]; omega) (by rw [e2]; omega)
  have ps := parseUintIn_two (s / 10) (s % 10) (by omega) (by omega) 0 59
    (by rw [e2]; omega) (by rw [e2]; omega)
  rw [e2] at pM pD ph pmi ps
  have h45 : ((45 : Byte) : Nat) = 45 := rfl
  have h84 : ((84 : Byte) : Nat) = 84 := rfl
  have h58 : ((58 : Byte) : Nat) = 58 := rfl
  simp only [fieldsText, List.cons_append, List.nil_append, parseRFC3339, pY, pM,
    Int.toNat_ofNat, pD, ph, pmi, ps, h45, h84, h58, and_self, if_true]
  rcases zs with _ | ⟨dot, _ | ⟨f0, more⟩⟩
  · simp only [hz, Date]
  · simp only [hz, Date]
  · have hd := hdot dot (f0 :: more) rfl
    simp only [hd, false_and, if_false, hz, Date]

theorem FormatRFC3339_eq (t : Time) (Y M D : Nat) (hY : Y ≤ 9999) (hM : M ≤ 12) (hD : D ≤ 31)
    (hdate : absDate t.abs.1 = ((Y : Int), M, (D : Int)))
    (hoff : t.offset % 60 = 0) (hlo : -86400 < t.offset) (hhi : t.offset < 86400) :
    t.FormatRFC3339
      = fieldsText Y M D (t.abs.2 / 3600).toNat (t.abs.2 % 3600 / 60).toNat (t.abs.2 % 60).toNat
        ++ zoneText (t.offset / 60) := by
  have hs : 0 ≤ t.abs.2 ∧ t.abs.2 < 86400 := by
    simp only [Time.abs, secondsPerDay]
    omega
  obtain ⟨h, hh⟩ : ∃ h : Nat, t.abs.2 / 3600 = h := ⟨(t.abs.2 / 3600).toNat, by omega⟩
  obtain ⟨mi, hmi⟩ : ∃ mi : Nat, t.abs.2 % 3600 / 60 = mi :=
    ⟨(t.abs.2 % 3600 / 60).toNat, by omega⟩
  obtain ⟨s, hsec⟩ : ∃ s : Nat, t.abs.2 % 60 = s := ⟨(t.abs.2 % 60).toNat, by omega⟩
  have ht : Int.tdiv t.offset 60 = t.offset / 60 :=
    Int.tdiv_eq_ediv_of_dvd (Int.dvd_of_emod_eq_zero hoff)
  unfold Time.FormatRFC3339
  simp only [hdate, hh, hmi, hsec, Int.toNat_ofNat, ht]
  rw [appendInt_four Y (by omega), appendInt_two M (by omega), appendInt_two D (by omega),
    appendInt_two h (by omega), appendInt_two mi (by omega), appendInt_two s (by omega)]
  by_cases h0 : t.offset = 0
  · simp [h0, fieldsText, zoneText]
  · have hz : t.offset / 60 ≠ 0 := by omega
    simp only [h0, if_false, zoneText, hz]
    by_cases hneg : t.offset / 60 < 0
    · obtain ⟨z, hzz⟩ : ∃ z : Nat, -(t.offset / 60) = z := ⟨(-(t.offset / 60)).toNat, by omega⟩
      have hz60 : (z : Int) / 60 = ((z / 60 : Nat) : Int) := by omega
      have hz60m : (z : Int) % 60 = ((z % 60 : Nat) : Int) := by omega
      have hna : (t.offset / 60).natAbs = z := by omega
      simp only [hneg, if_true, hzz, hna, hz60, hz60m]
      rw [appendInt_two (z / 60) (by omega), appendInt_two (z % 60) (by omega)]
      simp [fieldsText]
    · obtain ⟨z, hzz⟩ : ∃ z : Nat, t.offset / 60 = z := ⟨(t.offset / 60).toNat, by omega⟩
      have hz60 : (z : Int) / 60 = ((z / 60 : Nat) : Int) := by omega
      have hz60m : (z : Int) % 60 = ((z % 60 : Nat) : Int) := by omega
      have hna : (t.offset / 60).natAbs = z := by omega
      simp only [hneg, if_false, hna]
      simp only [hzz, hz60, hz60m]
      rw [appendInt_two (z / 60) (by omega), appendInt_two (z % 60) (by omega)]
      simp [fieldsText]

theorem parseZone_zoneText (zone : Int) (hlo : -1440 < zone) (hhi : zone < 1440) :
    parseZone (zoneText zone) = some (zone * 60) ∧
      ∀ c l, zoneText zone = c :: l → c.val ≠ 0x2e := by
  by_cases h0 : zone = 0
  · subst h0
    refine ⟨by decide, ?_⟩
    intro c l h
    simp only [zoneText, if_true, List.cons.injEq] at h
    rw [← h.1]
    decide
  · obtain ⟨z, hz⟩ : ∃ z : Nat, zone.natAbs = z := ⟨_, rfl⟩
    have e2 : ∀ n : Nat, ((n / 10 * 10 + n % 10 : Nat) : Int) = (n : Int) := by
      intro n; congr 1; omega
    have ph := parseUintIn_two (z / 60 / 10) (z / 60 % 10) (by omega) (by omega) 0 23
      (by rw [e2]; omega) (by rw [e2]; omega)
    have pm := parseUintIn_two (z % 60 / 10) (z % 60 % 10) (by omega) (by omega) 0 59
      (by rw [e2]; omega) (by rw [e2]; omega)
    rw [e2] at ph pm
    have h58 : ((58 : Byte) : Nat) = 58 := rfl
    have h45 : ((45 : Byte) : Nat) = 45 := rfl
    have h43 : ((43 : Byte) : Nat) = 43 := rfl
    constructor
    · simp only [zoneText, h0, if_false, hz, parseZone, ph, pm, h58]
      by_cases hneg : zone < 0
      · simp only [hneg, if_true, h45]
        simp
        omega
      · simp only [hneg, if_false, h43]
        simp
        omega
    · intro c l h
      simp only [zoneText, h0, if_false, List.cons.injEq] at h
      rw [← h.1]
      split_ifs <;> decide

theorem absDate_spec (d : Int) :
    1 ≤ (absDate d).2.1 ∧ (absDate d).2.1 ≤ 12 ∧ 1 ≤ (absDate d).2.2 ∧
    (absDate d).2.2 ≤ daysIn (absDate d).2.1 (absDate d).1 ∧
    daysSinceEpoch (absDate d).1 + daysBefore ((absDate d).2.1 - 1)
      + (if isLeap (absDate d).1 = true ∧ (absDate d).2.1 ≥ 3 then 1 else 0)
      + ((absDate d).2.2 - 1) = d := by
  obtain ⟨n, c, q, y, c0, c3, q0, q24, y0, y3, hA, hd0, hd365, hleap⟩ := absYear_eq d
  have hL := isLeap_eq n c q y ⟨c0, c3⟩ ⟨q0, q24⟩ ⟨y0, y3⟩
  have hE := daysSinceEpoch_eq n c q y ⟨c0, c3⟩ ⟨q0, q24⟩ ⟨y0, y3⟩
  obtain ⟨m1, m2, d1, d2, d3⟩ := absMonthDay_spec (400 * n + 100 * c + 4 * q + y + 1)
    (d - 146097 * n - 36524 * c - 1461 * q - 365 * y) hd0 hd365 (fun h => hL.mpr (hleap h))
  simp only [absDate, hA]
  refine ⟨m1, m2, d1, d2, ?_⟩
  rw [hE]
  omega

/-- The round trip of `Time.FormatRFC3339` and `parseRFC3339`, for whole seconds, years
0..9999 and offsets of whole minutes below 24 hours. -/
theorem parseRFC3339_FormatRFC3339 (t : Time) (hn : t.nsec = 0) (hy0 : 0 ≤ t.Year)
    (hy1 : t.Year ≤ 9999) (hoff : t.offset % 60 = 0) (hlo : -86400 < t.offset)
    (hhi : t.offset < 86400) : parseRFC3339 t.FormatRFC3339 = some t := by
  obtain ⟨m1, m2, d1, d2, d3⟩ := absDate_spec t.abs.1
  unfold Time.Year at hy0 hy1
  obtain ⟨Y, hY⟩ : ∃ Y : Nat, (absDate t.abs.1).1 = Y := ⟨(absDate t.abs.1).1.toNat, by omega⟩
  obtain ⟨D, hD⟩ : ∃ D : Nat, (absDate t.abs.1).2.2 = D :=
    ⟨(absDate t.abs.1).2.2.toNat, by omega⟩
  obtain ⟨M, hM⟩ : ∃ M : Nat, (absDate t.abs.1).2.1 = M := ⟨_, rfl⟩
  have hdate : absDate t.abs.1 = ((Y : Int), M, (D : Int)) := by
    rw [← hY, ← hD, ← hM]
  rw [hY, hM, hD] at d2 d3
  rw [hM] at m1 m2
  rw [hD] at d1
  have hD31 : D ≤ 31 := by
    have : daysIn M Y ≤ 31 := by
      unfold daysIn
      split_ifs
      · norm_num
      · interval_cases M <;> simp [daysBefore]
    omega
  have hs : 0 ≤ t.abs.2 ∧ t.abs.2 < 86400 := by
    simp only [Time.abs, secondsPerDay]
    omega
  have hsum : t.abs.1 * 86400 + t.abs.2 = t.sec + t.offset + unixToInternal := by
    simp only [Time.abs, secondsPerDay]
    omega
  obtain ⟨z1, z2⟩ := parseZone_zoneText (t.offset / 60) (by omega) (by omega)
  rw [FormatRFC3339_eq t Y M D (by omega) m2 hD31 hdate hoff hlo hhi,
    parseRFC3339_fieldsText Y M D _ _ _ _ _ (by omega) ⟨m1, m2⟩ ⟨by omega, d2⟩ (by omega)
      (by omega) (by omega) z1 z2]
  have e60 : t.offset / 60 * 60 = t.offset := by omega
  have hday : (Date Y M D (t.abs.2 / 3600).toNat (t.abs.2 % 3600 / 60).toNat
      (t.abs.2 % 60).toNat 0).sec = t.sec + t.offset := by
    simp only [Date, secondsPerDay]
    have e1 : ((t.abs.2 / 3600).toNat : Int) = t.abs.2 / 3600 := by omega
    have e2 : ((t.abs.2 % 3600 / 60).toNat : Int) = t.abs.2 % 3600 / 60 := by omega
    have e3 : ((t.abs.2 % 60).toNat : Int) = t.abs.2 % 60 := by omega
    rw [e1, e2, e3]
    by_cases hl : isLeap (Y : Int) = true ∧ M ≥ 3
    · rw [if_pos hl] at d3
      rw [if_pos hl]
      omega
    · rw [if_neg hl] at d3
      rw [if_neg hl]
      omega
  rw [hday, e60]
  cases t with
  | mk sec nsec offset =>
    simp only at hn
    simp [hn]

/-- C4 (as stated, refuted): the timestamp one nanosecond after the Unix epoch, in UTC, is
written as `1970-01-01T00:00:00Z`, which parses to the epoch itself, a different instant. -/
theorem ValString_time_drops_nanoseconds :
    ValString (.time ⟨0, 1, 0⟩) = ascii "1970-01-01T00:00:00Z" ∧
    parseRFC3339 (ValString (.time ⟨0, 1, 0⟩)) = some ⟨0, 0, 0⟩ ∧
    Time.Equal ⟨0, 0, 0⟩ ⟨0, 1, 0⟩ = false := by
  decide

/-- C4 (amended): for every timestamp `t` with no fractional second, whose year in its own
zone lies in 0..9999 and whose zone offset is a whole number of minutes and less than 24
hours either way, parsing `ValString` of `t` as RFC 3339 succeeds and yields a timestamp
equal to `t` (the same instant, and also the same offset). -/
theorem ValString_time_parses_back (t : Time) (hn : t.nsec = 0) (hy0 : 0 ≤ t.Year)
    (hy1 : t.Year ≤ 9999) (hoff : t.offset % 60 = 0) (hlo : -86400 < t.offset)
    (hhi : t.offset < 86400) :
    ∃ u : Time, parseRFC3339 (ValString (.time t)) = some u ∧ u.Equal t = true ∧ u = t := by
  refine ⟨t, ?_, by simp [Time.Equal], rfl⟩
  exact parseRFC3339_FormatRFC3339 t hn hy0 hy1 hoff hlo hhi

theorem ValString_time_parses_back_witness :
    ∃ u : Time, parseRFC3339 (ValString (.time ⟨1704207845, 0, 25200⟩)) = some u ∧
      u.Equal ⟨1704207845, 0, 25200⟩ = true ∧ u = ⟨1704207845, 0, 25200⟩ :=
  ValString_time_parses_back ⟨1704207845, 0, 25200⟩ rfl (by decide) (by decide) (by decide)
    (by decide) (by decide)

/-- Outside the range of the layout the round trip through `parseRFC3339` fails as well: a
year beyond 9999 is written with five digits and is not parsed, an offset that is not a
whole number of minutes loses its seconds and the parsed instant is another, and an offset
of 24 hours is written with an hour that this strict parser rejects (`time.Parse` then
falls back on its general layout parser, which is not modelled here). -/
theorem FormatRFC3339_not_parsed_back :
    parseRFC3339 (ValString (.time ⟨253402300800, 0, 0⟩)) = none ∧
    parseRFC3339 (ValString (.time ⟨0, 0, 30⟩)) = some ⟨30, 0, 0⟩ ∧
    parseRFC3339 (ValString (.time ⟨0, 0, 86400⟩)) = none := by
  decide

/-! ## Theorems: valid UTF-8 -/

/-- One round of the loop of `Valid` on a slice of at least four bytes. -/
theorem Valid_cons4 (p0 c1 c2 c3 : Byte) (r3 : List Byte) :
    Valid (p0 :: c1 :: c2 :: c3 :: r3) =
    if p0.val < RuneSelf then Valid (c1 :: c2 :: c3 :: r3)
    else if first p0.val = xx then false
    else if c1.val < (acceptRanges (first p0.val / 16)).1
        ∨ (acceptRanges (first p0.val / 16)).2 < c1.val then false
    else if first p0.val % 8 = 2 then Valid (c2 :: c3 :: r3)
    else if c2.val < locb ∨ hicb < c2.val then false
    else if first p0.val % 8 = 3 then Valid (c3 :: r3)
    else if c3.val < locb ∨ hicb < c3.val then false
    else Valid r3 := rfl

theorem Valid_cons3 (p0 c1 c2 : Byte) :
    Valid [p0, c1, c2] =
    if p0.val < RuneSelf then Valid [c1, c2]
    else if first p0.val = xx then false
    else if c1.val < (acceptRanges (first p0.val / 16)).1
        ∨ (acceptRanges (first p0.val / 16)).2 < c1.val then false
    else if first p0.val % 8 = 2 then Valid [c2]
    else if c2.val < locb ∨ hicb < c2.val then false
    else if first p0.val % 8 = 3 then true
    else false := rfl

theorem Valid_cons2 (p0 c1 : Byte) :
    Valid [p0, c1] =
    if p0.val < RuneSelf then Valid [c1]
    else if first p0.val = xx then false
    else if c1.val < (acceptRanges (first p0.val / 16)).1
        ∨ (acceptRanges (first p0.val / 16)).2 < c1.val then false
    else if first p0.val % 8 = 2 then true
    else false := rfl

theorem Valid_cons1 (p0 : Byte) :
    Valid [p0] = if p0.val < RuneSelf then true else false := by
  by_cases h : p0.val < RuneSelf
  · simp only [h, if_true]; show (if p0.val < RuneSelf then Valid [] else _) = true
    rw [if_pos h]; rfl
  · simp only [h, if_false]; show (if p0.val < RuneSelf then Valid [] else _) = false
    rw [if_neg h]
    by_cases hx : first p0.val = xx <;> simp [hx]

set_option maxRecDepth 100000 in
theorem first_spec (b : Byte) (h80 : 0x80 ≤ b.val) (hx : first b.val ≠ xx) :
    (0xC2 ≤ b.val ∧ b.val ≤ 0xDF ∧ first b.val % 8 = 2
      ∧ acceptRanges (first b.val / 16) = (0x80, 0xBF)) ∨
    (b.val = 0xE0 ∧ first b.val % 8 = 3 ∧ acceptRanges (first b.val / 16) = (0xA0, 0xBF)) ∨
    (0xE1 ≤ b.val ∧ b.val ≤ 0xEF ∧ b.val ≠ 0xED ∧ first b.val % 8 = 3
      ∧ acceptRanges (first b.val / 16) = (0x80, 0xBF)) ∨
    (b.val = 0xED ∧ first b.val % 8 = 3 ∧ acceptRanges (first b.val / 16) = (0x80, 0x9F)) ∨
    (b.val = 0xF0 ∧ first b.val % 8 = 4 ∧ acceptRanges (first b.val / 16) = (0x90, 0xBF)) ∨
    (0xF1 ≤ b.val ∧ b.val ≤ 0xF3 ∧ first b.val % 8 = 4
      ∧ acceptRanges (first b.val / 16) = (0x80, 0xBF)) ∨
    (b.val = 0xF4 ∧ first b.val % 8 = 4 ∧ acceptRanges (first b.val / 16) = (0x80, 0x8F)) := by
  revert b
  decide

/-- What one round of the loop of `Valid` accepts: an ASCII byte, or a starter byte with
one, two or three continuation bytes in range. -/
theorem Valid_step (p0 : Byte) (rest : List Byte) (h : Valid (p0 :: rest) = true) :
    (p0.val < 0x80 ∧ Valid rest = true) ∨
    (0x80 ≤ p0.val ∧ first p0.val ≠ xx ∧ ∃ c1 r1, rest = c1 :: r1 ∧
      (acceptRanges (first p0.val / 16)).1 ≤ c1.val ∧
      c1.val ≤ (acceptRanges (first p0.val / 16)).2 ∧
      ((first p0.val % 8 = 2 ∧ Valid r1 = true) ∨
       (first p0.val % 8 ≠ 2 ∧ ∃ c2 r2, r1 = c2 :: r2 ∧ 0x80 ≤ c2.val ∧ c2.val ≤ 0xBF ∧
         ((first p0.val % 8 = 3 ∧ Valid r2 = true) ∨
          (first p0.val % 8 ≠ 3 ∧ ∃ c3 r3, r2 = c3 :: r3 ∧ 0x80 ≤ c3.val ∧ c3.val ≤ 0xBF ∧
            Valid r3 = true))))) := by
  rcases rest with _ | ⟨c1, _ | ⟨c2, _ | ⟨c3, r3⟩⟩⟩
  · rw [Valid_cons1] at h
    by_cases h0 : p0.val < RuneSelf
    · left; exact ⟨h0, rfl⟩
    · simp [h0] at h
  · rw [Valid_cons2] at h
    by_cases h0 : p0.val < RuneSelf
    · left; rw [if_pos h0] at h; exact ⟨h0, h⟩
    · right
      rw [if_neg h0] at h
      simp only [RuneSelf, not_lt] at h0
      split_ifs at h with hx ha hs
      refine ⟨h0, hx, c1, [], rfl, by omega, by omega, Or.inl ⟨hs, rfl⟩⟩
  · rw [Valid_cons3] at h
    by_cases h0 : p0.val < RuneSelf
    · left; rw [if_pos h0] at h; exact ⟨h0, h⟩
    · right
      rw [if_neg h0] at h
      simp only [RuneSelf, not_lt] at h0
      simp only [locb, hicb] at h
      split_ifs at h with hx ha hs hc hs3
      · exact ⟨h0, hx, c1, [c2], rfl, by omega, by omega, Or.inl ⟨hs, h⟩⟩
      · exact ⟨h0, hx, c1, [c2], rfl, by omega, by omega,
          Or.inr ⟨hs, c2, [], rfl, by omega, by omega, Or.inl ⟨hs3, rfl⟩⟩⟩
  · rw [Valid_cons4] at h
    by_cases h0 : p0.val < RuneSelf
    · left; rw [if_pos h0] at h; exact ⟨h0, h⟩
    · right
      rw [if_neg h0] at h
      simp only [RuneSelf, not_lt] at h0
      simp only [locb, hicb] at h
      split_ifs at h with hx ha hs hc hs3 hc3
      · exact ⟨h0, hx, c1, c2 :: c3 :: r3, rfl, by omega, by omega, Or.inl ⟨hs, h⟩⟩
      · exact ⟨h0, hx, c1, c2 :: c3 :: r3, rfl, by omega, by omega,
          Or.inr ⟨hs, c2, c3 :: r3, rfl, by omega, by omega, Or.inl ⟨hs3, h⟩⟩⟩
      · exact ⟨h0, hx, c1, c2 :: c3 :: r3, rfl, by omega, by omega,
          Or.inr ⟨hs, c2, c3 :: r3, rfl, by omega, by omega,
            Or.inr ⟨hs3, c3, r3, rfl, by omega, by omega, h⟩⟩⟩

theorem ofNat_eq (b : Byte) (n : Nat) (h : n = b.val) : (Fin.ofNat n : Byte) = b := by
  apply Fin.ext
  subst h
  simp [Fin.ofNat]

theorem EncodeRune_one (p0 : Byte) (h : p0.val < 0x80) : EncodeRune p0.val = [p0] := by
  have h1 : p0.val ≤ 0x7F := by omega
  simp only [EncodeRune, h1, if_true, ofNat_eq p0 _ rfl]

theorem EncodeRune_two (p0 c1 : Byte) (h0 : 0xC2 ≤ p0.val) (h1 : p0.val ≤ 0xDF)
    (h2 : 0x80 ≤ c1.val) (h3 : c1.val ≤ 0xBF) :
    EncodeRune ((p0.val - 0xC0) * 64 + (c1.val - 0x80)) = [p0, c1] ∧
      ValidRune ((p0.val - 0xC0) * 64 + (c1.val - 0x80)) = true := by
  have e1 : ¬ ((p0.val - 0xC0) * 64 + (c1.val - 0x80) ≤ 0x7F) := by omega
  have e2 : (p0.val - 0xC0) * 64 + (c1.val - 0x80) ≤ 0x7FF := by omega
  constructor
  · simp only [EncodeRune, e1, e2, if_true, if_false]
    rw [ofNat_eq p0 _ (by omega), ofNat_eq c1 _ (by omega)]
  · simp only [ValidRune, Bool.or_eq_true, decide_eq_true_eq]
    left; omega

theorem EncodeRune_three (p0 c1 c2 : Byte) (h0 : 0xE0 ≤ p0.val) (h1 : p0.val ≤ 0xEF)
    (h2 : 0x80 ≤ c1.val) (h3 : c1.val ≤ 0xBF) (h4 : 0x80 ≤ c2.val) (h5 : c2.val ≤ 0xBF)
    (hE0 : p0.val = 0xE0 → 0xA0 ≤ c1.val) (hED : p0.val = 0xED → c1.val ≤ 0x9F) :
    EncodeRune ((p0.val - 0xE0) * 4096 + (c1.val - 0x80) * 64 + (c2.val - 0x80)) = [p0, c1, c2] ∧
      ValidRune ((p0.val - 0xE0) * 4096 + (c1.val - 0x80) * 64 + (c2.val - 0x80)) = true := by
  have e1 : ¬ ((p0.val - 0xE0) * 4096 + (c1.val - 0x80) * 64 + (c2.val - 0x80) ≤ 0x7F) := by
    omega
  have e2 : ¬ ((p0.val - 0xE0) * 4096 + (c1.val - 0x80) * 64 + (c2.val - 0x80) ≤ 0x7FF) := by
    omega
  have e3 : (p0.val - 0xE0) * 4096 + (c1.val - 0x80) * 64 + (c2.val - 0x80) ≤ 0xFFFF := by omega
  have hv : ValidRune ((p0.val - 0xE0) * 4096 + (c1.val - 0x80) * 64 + (c2.val - 0x80))
      = true := by
    simp only [ValidRune, Bool.or_eq_true, decide_eq_true_eq, Bool.and_eq_true]
    omega
  refine ⟨?_, hv⟩
  simp only [EncodeRune, e1, e2, e3, hv, if_true, if_false, Bool.true_eq_false]
  rw [ofNat_eq p0 _ (by omega), ofNat_eq c1 _ (by omega), ofNat_eq c2 _ (by omega)]

theorem EncodeRune_four (p0 c1 c2 c3 : Byte) (h0 : 0xF0 ≤ p0.val) (h1 : p0.val ≤ 0xF4)
    (h2 : 0x80 ≤ c1.val) (h3 : c1.val ≤ 0xBF) (h4 : 0x80 ≤ c2.val) (h5 : c2.val ≤ 0xBF)
    (h6 : 0x80 ≤ c3.val) (h7 : c3.val ≤ 0xBF)
    (hF0 : p0.val = 0xF0 → 0x90 ≤ c1.val) (hF4 : p0.val = 0xF4 → c1.val ≤ 0x8F) :
    EncodeRune ((p0.val - 0xF0) * 262144 + (c1.val - 0x80) * 4096 + (c2.val - 0x80) * 64
        + (c3.val - 0x80)) = [p0, c1, c2, c3] ∧
      ValidRune ((p0.val - 0xF0) * 262144 + (c1.val - 0x80) * 4096 + (c2.val - 0x80) * 64
        + (c3.val - 0x80)) = true := by
  generalize hr : (p0.val - 0xF0) * 262144 + (c1.val - 0x80) * 4096 + (c2.val - 0x80) * 64
        + (c3.val - 0x80) = r
  have e1 : ¬ (r ≤ 0x7F) := by omega
  have e2 : ¬ (r ≤ 0x7FF) := by omega
  have e3 : ¬ (r ≤ 0xFFFF) := by omega
  have hv : ValidRune r = true := by
    simp only [ValidRune, Bool.or_eq_true, decide_eq_true_eq, Bool.and_eq_true]
    omega
  refine ⟨?_, hv⟩
  simp only [EncodeRune, e1, e2, e3, hv, if_false, Bool.true_eq_false]
  rw [ofNat_eq p0 _ (by omega), ofNat_eq c1 _ (by omega), ofNat_eq c2 _ (by omega),
    ofNat_eq c3 _ (by omega)]

theorem encodeRunes_cons (r : Nat) (rs : List Nat) :
    encodeRunes (r :: rs) = EncodeRune r ++ encodeRunes rs := by
  simp [encodeRunes, List.flatMap_cons]

/-- Every byte sequence `Valid` accepts is the UTF-8 encoding of a sequence of valid
runes. -/
theorem Valid_runes : ∀ (n : Nat) (b : List Byte), b.length ≤ n → Valid b = true →
    ∃ rs : List Nat, (∀ r ∈ rs, ValidRune r = true) ∧ encodeRunes rs = b := by
  intro n
  induction n with
  | zero =>
    intro b hb _
    have : b = [] := List.length_eq_zero.mp (by omega)
    exact ⟨[], by simp, by rw [this]; rfl⟩
  | succ n ih =>
    intro b hb hv
    cases b with
    | nil => exact ⟨[], by simp, rfl⟩
    | cons p0 rest =>
      simp only [List.length_cons] at hb
      have step : ∀ (r : Nat) (pre tail : List Byte), p0 :: rest = pre ++ tail →
          tail.length ≤ n → EncodeRune r = pre ∧ ValidRune r = true → Valid tail = true →
          ∃ rs : List Nat, (∀ r ∈ rs, ValidRune r = true) ∧ encodeRunes rs = p0 :: rest := by
        intro r pre tail e hl hr hvt
        obtain ⟨rs, h1, h2⟩ := ih tail hl hvt
        refine ⟨r :: rs, ?_, ?_⟩
        · intro x hx
          rcases List.mem_cons.mp hx with rfl | hx
          · exact hr.2
          · exact h1 x hx
        · rw [encodeRunes_cons, hr.1, h2, e]
      rcases Valid_step p0 rest hv with ⟨h0, hr⟩ | ⟨h80, hx, c1, r1, rfl, a1, a2, hrest⟩
      · exact step p0.val [p0] rest rfl (by omega) ⟨EncodeRune_one p0 h0, by
          simp only [ValidRune, Bool.or_eq_true, decide_eq_true_eq]; left; omega⟩ hr
      · simp only [List.length_cons] at hb
        rcases hrest with ⟨hs, hv1⟩ | ⟨hs, c2, r2, rfl, b1, b2, hrest⟩
        · rcases first_spec p0 h80 hx with ⟨f1, f2, f3, f4⟩ | ⟨f1, f3, f4⟩ | ⟨f1, f2, f0, f3, f4⟩
            | ⟨f1, f3, f4⟩ | ⟨f1, f3, f4⟩ | ⟨f1, f2, f3, f4⟩ | ⟨f1, f3, f4⟩ <;>
            first
            | omega
            | (rw [f4] at a1 a2
               exact step _ [p0, c1] r1 rfl (by omega)
                 (EncodeRune_two p0 c1 (by omega) (by omega) a1 a2) hv1)
        · simp only [List.length_cons] at hb
          rcases hrest with ⟨hs3, hv2⟩ | ⟨hs3, c3, r3, rfl, d1, d2, hv3⟩
          · rcases first_spec p0 h80 hx with ⟨f1, f2, f3, f4⟩ | ⟨f1, f3, f4⟩
              | ⟨f1, f2, f0, f3, f4⟩ | ⟨f1, f3, f4⟩ | ⟨f1, f3, f4⟩ | ⟨f1, f2, f3, f4⟩
              | ⟨f1, f3, f4⟩ <;>
              first
              | omega
              | (rw [f4] at a1 a2
                 simp only at a1 a2
                 exact step _ [p0, c1, c2] r2 rfl (by omega)
                   (EncodeRune_three p0 c1 c2 (by omega) (by omega) (by omega) (by omega) b1 b2
                     (by omega) (by omega)) hv2)
          · simp only [List.length_cons] at hb
            rcases first_spec p0 h80 hx with ⟨f1, f2, f3, f4⟩ | ⟨f1, f3, f4⟩
              | ⟨f1, f2, f0, f3, f4⟩ | ⟨f1, f3, f4⟩ | ⟨f1, f3, f4⟩ | ⟨f1, f2, f3, f4⟩
              | ⟨f1, f3, f4⟩ <;>
              first
              | omega
              | (rw [f4] at a1 a2
                 simp only at a1 a2
                 exact step _ [p0, c1, c2, c3] r3 rfl (by omega)
                   (EncodeRune_four p0 c1 c2 c3 (by omega) (by omega) (by omega) (by omega)
                     b1 b2 d1 d2 (by omega) (by omega)) hv3)

set_option maxRecDepth 100000 in
theorem first_of_range (b : Byte) :
    (0xC2 ≤ b.val ∧ b.val ≤ 0xDF → first b.val = 0x02) ∧
    (b.val = 0xE0 → first b.val = 0x13) ∧
    (0xE1 ≤ b.val ∧ b.val ≤ 0xEF ∧ b.val ≠ 0xED → first b.val = 0x03) ∧
    (b.val = 0xED → first b.val = 0x23) ∧
    (b.val = 0xF0 → first b.val = 0x34) ∧
    (0xF1 ≤ b.val ∧ b.val ≤ 0xF3 → first b.val = 0x04) ∧
    (b.val = 0xF4 → first b.val = 0x44) := by
  revert b
  decide

theorem Valid_one_intro (p0 : Byte) (rest : List Byte) (h : p0.val < 0x80) :
    Valid (p0 :: rest) = Valid rest := by
  have h' : p0.val < RuneSelf := h
  rcases rest with _ | ⟨c1, _ | ⟨c2, _ | ⟨c3, r3⟩⟩⟩
  · rw [Valid_cons1, if_pos h']; rfl
  · rw [Valid_cons2, if_pos h']
  · rw [Valid_cons3, if_pos h']
  · rw [Valid_cons4, if_pos h']

theorem Valid_two_intro (p0 c1 : Byte) (rest : List Byte) (lo hi : Nat) (h : 0x80 ≤ p0.val)
    (hx : first p0.val ≠ xx) (hs : first p0.val % 8 = 2)
    (ha : acceptRanges (first p0.val / 16) = (lo, hi)) (h1 : lo ≤ c1.val) (h2 : c1.val ≤ hi) :
    Valid (p0 :: c1 :: rest) = Valid rest := by
  have h' : ¬ p0.val < RuneSelf := by simp only [RuneSelf]; omega
  have hc : ¬ (c1.val < lo ∨ hi < c1.val) := by omega
  rcases rest with _ | ⟨c2, _ | ⟨c3, r3⟩⟩
  · rw [Valid_cons2, if_neg h', if_neg hx, ha, if_neg hc, if_pos hs]; rfl
  · rw [Valid_cons3, if_neg h', if_neg hx, ha, if_neg hc, if_pos hs]
  · rw [Valid_cons4, if_neg h', if_neg hx, ha, if_neg hc, if_pos hs]

theorem Valid_three_intro (p0 c1 c2 : Byte) (rest : List Byte) (lo hi : Nat)
    (h : 0x80 ≤ p0.val) (hx : first p0.val ≠ xx) (hs : first p0.val % 8 = 3)
    (ha : acceptRanges (first p0.val / 16) = (lo, hi)) (h1 : lo ≤ c1.val) (h2 : c1.val ≤ hi)
    (h3 : 0x80 ≤ c2.val) (h4 : c2.val ≤ 0xBF) :
    Valid (p0 :: c1 :: c2 :: rest) = Valid rest := by
  have h' : ¬ p0.val < RuneSelf := by simp only [RuneSelf]; omega
  have hc : ¬ (c1.val < lo ∨ hi < c1.val) := by omega
  have hc2 : ¬ (c2.val < locb ∨ hicb < c2.val) := by simp only [locb, hicb]; omega
  have hs2 : ¬ (first p0.val % 8 = 2) := by omega
  rcases rest with _ | ⟨c3, r3⟩
  · rw [Valid_cons3, if_neg h', if_neg hx, ha, if_neg hc, if_neg hs2, if_neg hc2, if_pos hs]
    rfl
  · rw [Valid_cons4, if_neg h', if_neg hx, ha, if_neg hc, if_neg hs2, if_neg hc2, if_pos hs]

theorem Valid_four_intro (p0 c1 c2 c3 : Byte) (rest : List Byte) (lo hi : Nat)
    (h : 0x80 ≤ p0.val) (hx : first p0.val ≠ xx) (hs : first p0.val % 8 = 4)
    (ha : acceptRanges (first p0.val / 16) = (lo, hi)) (h1 : lo ≤ c1.val) (h2 : c1.val ≤ hi)
    (h3 : 0x80 ≤ c2.val) (h4 : c2.val ≤ 0xBF) (h5 : 0x80 ≤ c3.val) (h6 : c3.val ≤ 0xBF) :
    Valid (p0 :: c1 :: c2 :: c3 :: rest) = Valid rest := by
  have h' : ¬ p0.val < RuneSelf := by simp only [RuneSelf]; omega
  have hc : ¬ (c1.val < lo ∨ hi < c1.val) := by omega
  have hc2 : ¬ (c2.val < locb ∨ hicb < c2.val) := by simp only [locb, hicb]; omega
  have hc3 : ¬ (c3.val < locb ∨ hicb < c3.val) := by simp only [locb, hicb]; omega
  have hs2 : ¬ (first p0.val % 8 = 2) := by omega
  have hs3 : ¬ (first p0.val % 8 = 3) := by omega
  rw [Valid_cons4, if_neg h', if_neg hx, ha, if_neg hc, if_neg hs2, if_neg hc2, if_neg hs3,
    if_neg hc3]

theorem ofNat_val (n : Nat) (h : n < 256) : ((Fin.ofNat n : Byte)).val = n := by
  simp [Fin.ofNat]; omega

theorem Valid_EncodeRune_append (r : Nat) (rest : List Byte) (hr : ValidRune r = true) :
    Valid (EncodeRune r ++ rest) = Valid rest := by
  simp only [ValidRune, Bool.or_eq_true, decide_eq_true_eq, Bool.and_eq_true] at hr
  unfold EncodeRune
  by_cases h1 : r ≤ 0x7F
  · rw [if_pos h1]
    exact Valid_one_intro _ _ (by rw [ofNat_val _ (by omega)]; omega)
  · rw [if_neg h1]
    by_cases h2 : r ≤ 0x7FF
    · rw [if_pos h2]
      have v0 := ofNat_val (0xC0 + r / 64) (by omega)
      have v1 := ofNat_val (0x80 + r % 64) (by omega)
      have f := (first_of_range (Fin.ofNat (0xC0 + r / 64))).1 (by omega)
      exact Valid_two_intro _ _ rest 0x80 0xBF (by omega) (by rw [f]; decide) (by rw [f])
        (by rw [f]; rfl) (by omega) (by omega)
    · rw [if_neg h2]
      have hv : ¬ (ValidRune r = false) := by
        simp only [ValidRune, Bool.or_eq_false_iff, decide_eq_false_iff_not,
          Bool.and_eq_false_iff]
        omega
      rw [if_neg hv]
      by_cases h3 : r ≤ 0xFFFF
      · rw [if_pos h3]
        have v0 := ofNat_val (0xE0 + r / 4096) (by omega)
        have v1 := ofNat_val (0x80 + r / 64 % 64) (by omega)
        have v2 := ofNat_val (0x80 + r % 64) (by omega)
        obtain ⟨-, fE0, fE, fED, -⟩ := first_of_range (Fin.ofNat (0xE0 + r / 4096))
        by_cases c0 : r / 4096 = 0
        · have f := fE0 (by omega)
          exact Valid_three_intro _ _ _ rest 0xA0 0xBF (by omega) (by rw [f]; decide)
            (by rw [f]) (by rw [f]; rfl) (by omega) (by omega) (by omega) (by omega)
        · by_cases cD : r / 4096 = 13
          · have f := fED (by omega)
            exact Valid_three_intro _ _ _ rest 0x80 0x9F (by omega) (by rw [f]; decide)
              (by rw [f]) (by rw [f]; rfl) (by omega) (by omega) (by omega) (by omega)
          · have f := fE (by omega)
            exact Valid_three_intro _ _ _ rest 0x80 0xBF (by omega) (by rw [f]; decide)
              (by rw [f]) (by rw [f]; rfl) (by omega) (by omega) (by omega) (by omega)
      · rw [if_neg h3]
        have v0 := ofNat_val (0xF0 + r / 262144) (by omega)
        have v1 := ofNat_val (0x80 + r / 4096 % 64) (by omega)
        have v2 := ofNat_val (0x80 + r / 64 % 64) (by omega)
        have v3 := ofNat_val (0x80 + r % 64) (by omega)
        obtain ⟨-, -, -, -, fF0, fF, fF4⟩ := first_of_range (Fin.ofNat (0xF0 + r / 262144))
        by_cases c0 : r / 262144 = 0
        · have f := fF0 (by omega)
          exact Valid_four_intro _ _ _ _ rest 0x90 0xBF (by omega) (by rw [f]; decide)
            (by rw [f]) (by rw [f]; rfl) (by omega) (by omega) (by omega) (by omega)
            (by omega) (by omega)
        · by_cases c4 : r / 262144 = 4
          · have f := fF4 (by omega)
            exact Valid_four_intro _ _ _ _ rest 0x80 0x8F (by omega) (by rw [f]; decide)
              (by rw [f]) (by rw [f]; rfl) (by omega) (by omega) (by omega) (by omega)
              (by omega) (by omega)
          · have f := fF (by omega)
            exact Valid_four_intro _ _ _ _ rest 0x80 0xBF (by omega) (by rw [f]; decide)
              (by rw [f]) (by rw [f]; rfl) (by omega) (by omega) (by omega) (by omega)
              (by omega) (by omega)

/-- The UTF-8 encoding of a sequence of valid runes is accepted by `Valid`. -/
theorem Valid_encodeRunes (rs : List Nat) (h : ∀ r ∈ rs, ValidRune r = true) :
    Valid (encodeRunes rs) = true := by
  induction rs with
  | nil => rfl
  | cons r rs ih =>
    rw [encodeRunes_cons, Valid_EncodeRune_append r _ (h r (List.mem_cons_self _ _))]
    exact ih (fun x hx => h x (List.mem_cons_of_mem _ hx))

/-- C2: for every byte sequence `b` that is valid UTF-8, `ValString` of `b` is `b` itself
as a string, the same string as `ValString` of the text `b`, and it is the UTF-8 encoding of
a sequence of valid runes, the text that `b` encodes: no escape marker is added and nothing
is reinterpreted. -/
theorem ValString_bytes_valid (b : List Byte) (h : Valid b = true) :
    ValString (.bytes b) = b ∧ ValString (.bytes b) = ValString (.string b) ∧
      ∃ rs : List Nat, (∀ r ∈ rs, ValidRune r = true) ∧ encodeRunes rs = ValString (.bytes b) := by
  have e : ValString (.bytes b) = b := by simp [ValString, h]
  obtain ⟨rs, h1, h2⟩ := Valid_runes b.length b (Nat.le_refl _) h
  exact ⟨e, by rw [e]; rfl, rs, h1, by rw [e, h2]⟩

theorem ValString_bytes_valid_witness :
    ValString (.bytes (ascii "123")) = ascii "123" ∧
      ValString (.bytes (ascii "123")) = ValString (.string (ascii "123")) ∧
      ∃ rs : List Nat, (∀ r ∈ rs, ValidRune r = true) ∧
        encodeRunes rs = ValString (.bytes (ascii "123")) :=
  ValString_bytes_valid (ascii "123") (by decide)

/-! ## Theorems: every run of the export pipeline -/

/-- The three ways the row loop of `Export` ends, after the rows `pre` have been fetched
and written: the cursor is exhausted and `PostWrite` is called, the next `Scan` fails, or
the next `WriteRow` fails. -/
theorem rowLoop_cases (w : Writer) (columns : List GoString) :
    ∀ (scans : List (Except Error (List Value))) (hist : List Call),
    ∃ pre : List (List Value),
      (∀ p r q, pre = p ++ r :: q →
        w.WriteRow (hist ++ writeCalls columns p) r columns = none) ∧
      ((scans = pre.map .ok ∧
        rowLoop w columns scans hist =
          (rowCalls columns pre
            ++ [.Next false, .PostWrite (w.PostWrite (hist ++ writeCalls columns pre))],
           w.PostWrite (hist ++ writeCalls columns pre))) ∨
       (∃ e post, scans = pre.map .ok ++ .error e :: post ∧
        rowLoop w columns scans hist =
          (rowCalls columns pre ++ [.Next true, .Scan (some e)], some e)) ∨
       (∃ r e post, scans = pre.map .ok ++ .ok r :: post ∧
        w.WriteRow (hist ++ writeCalls columns pre) r columns = some e ∧
        rowLoop w columns scans hist =
          (rowCalls columns pre ++ [.Next true, .Scan none, .WriteRow r columns (some e)],
           some e))) := by
  intro scans
  induction scans with
  | nil =>
    intro hist
    refine ⟨[], ?_, Or.inl ⟨rfl, ?_⟩⟩
    · intro p r q h; simp at h
    · simp [rowLoop, rowCalls, writeCalls]
  | cons s scans ih =>
    intro hist
    cases s with
    | error e =>
      refine ⟨[], ?_, Or.inr (Or.inl ⟨e, scans, rfl, ?_⟩)⟩
      · intro p r q h; simp at h
      · simp [rowLoop, rowCalls]
    | ok r =>
      cases hw : w.WriteRow hist r columns with
      | some e =>
        refine ⟨[], ?_, Or.inr (Or.inr ⟨r, e, scans, rfl, ?_, ?_⟩)⟩
        · intro p r q h; simp at h
        · simpa [writeCalls] using hw
        · simp [rowLoop, rowCalls, hw]
      | none =>
        obtain ⟨pre, hpre, hcase⟩ := ih (hist ++ [.WriteRow r columns none])
        have hh : ∀ l, hist ++ [Call.WriteRow r columns none] ++ writeCalls columns l
            = hist ++ writeCalls columns (r :: l) := by
          intro l; simp [writeCalls]
        refine ⟨r :: pre, ?_, ?_⟩
        · intro p r' q h
          cases p with
          | nil =>
            simp only [List.nil_append, List.cons.injEq] at h
            rw [← h.1]
            simpa [writeCalls] using hw
          | cons a p =>
            simp only [List.cons_append, List.cons.injEq] at h
            rw [← h.1, ← hh]
            exact hpre p r' q h.2
        · rw [hh] at hcase
          rcases hcase with ⟨h1, h2⟩ | ⟨e, post, h1, h2⟩ | ⟨r', e, post, h1, h3, h2⟩
          · left
            refine ⟨by rw [h1]; rfl, ?_⟩
            simp only [rowLoop, hw, h2]
            simp [rowCalls]
          · right; left
            refine ⟨e, post, by rw [h1]; rfl, ?_⟩
            simp only [rowLoop, hw, h2]
            simp [rowCalls]
          · right; right
            refine ⟨r', e, post, by rw [h1]; rfl, h3, ?_⟩
            simp only [rowLoop, hw, h2]
            simp [rowCalls]

/-- Every run of `Export` has one of seven shapes, by the first call that fails (or the
panic of the type-name loop, or none). -/
theorem Export_cases (w : Writer) (db : DB) (query : GoString) :
    (∃ e, Export w db query = ⟨[.Select query (some e)], .returned (some e)⟩) ∨
    (∃ e, Export w db query
      = ⟨[.Select query none, .Columns (some e)], .returned (some e)⟩) ∨
    (∃ (rows : Rows) (body : List Call) (result : Outcome),
      Export w db query
        = ⟨.Select query none :: .Columns none :: body ++ deferred rows, result⟩ ∧
      ((∃ e, body = [.ColumnTypes (some e)] ∧ result = .returned (some e)) ∨
       (body = [.ColumnTypes none] ∧ result = .panicked) ∨
       (∃ columns types e, body = [.ColumnTypes none, .PreWrite columns types (some e)] ∧
          result = .returned (some e)) ∨
       (∃ columns types pre tail err,
          body = .ColumnTypes none :: .PreWrite columns types none
            :: rowCalls columns pre ++ tail ∧
          result = .returned err ∧
          (tail = [.Next false, .PostWrite err] ∨
           (∃ e, tail = [.Next true, .Scan (some e)] ∧ err = some e) ∨
           (∃ r e, tail = [.Next true, .Scan none, .WriteRow r columns (some e)] ∧
              err = some e))))) := by
  cases hs : db.Select query with
  | error e => left; exact ⟨e, by simp [Export, hs]⟩
  | ok rows =>
    cases hc : rows.Columns with
    | error e => right; left; exact ⟨e, by simp [Export, hs, hc]⟩
    | ok columns =>
      right; right
      refine ⟨rows, (exportBody w rows columns).1, (exportBody w rows columns).2,
        by simp [Export, hs, hc], ?_⟩
      cases ht : rows.ColumnTypes with
      | error e => left; exact ⟨e, by simp [exportBody, ht], by simp [exportBody, ht]⟩
      | ok columnTypes =>
        cases hty : setTypes (List.replicate columns.length []) 0 columnTypes with
        | none =>
          right; left
          exact ⟨by simp [exportBody, ht, hty], by simp [exportBody, ht, hty]⟩
        | some types =>
          cases hp : w.PreWrite [] columns types with
          | some e =>
            right; right; left
            exact ⟨columns, types, e, by simp [exportBody, ht, hty, hp],
              by simp [exportBody, ht, hty, hp]⟩
          | none =>
            right; right; right
            obtain ⟨pre, -, hcase⟩ :=
              rowLoop_cases w columns rows.scans [.PreWrite columns types none]
            rcases hcase with ⟨-, h2⟩ | ⟨e, post, -, h2⟩ | ⟨r, e, post, -, -, h2⟩
            · exact ⟨columns, types, pre, _,
                w.PostWrite ([.PreWrite columns types none] ++ writeCalls columns pre),
                by simp [exportBody, ht, hty, hp, h2],
                by simp only [exportBody, ht, hty, hp, h2], Or.inl rfl⟩
            · exact ⟨columns, types, pre, _, some e, by simp [exportBody, ht, hty, hp, h2],
                by simp only [exportBody, ht, hty, hp, h2], Or.inr (Or.inl ⟨e, rfl, rfl⟩)⟩
            · exact ⟨columns, types, pre, _, some e, by simp [exportBody, ht, hty, hp, h2],
                by simp only [exportBody, ht, hty, hp, h2], Or.inr (Or.inr ⟨r, e, rfl, rfl⟩)⟩

theorem mem_rowCalls (columns : List GoString) (pre : List (List Value)) (c : Call)
    (h : c ∈ rowCalls columns pre) :
    c = .Next true ∨ c = .Scan none ∨ ∃ r, r ∈ pre ∧ c = .WriteRow r columns none := by
  simp only [rowCalls, List.mem_flatMap, List.mem_cons, List.mem_singleton,
    List.not_mem_nil, or_false] at h
  obtain ⟨r, hr, h | h | h⟩ := h
  · exact Or.inl h
  · exact Or.inr (Or.inl h)
  · exact Or.inr (Or.inr ⟨r, hr, h⟩)

theorem mem_deferred (rows : Rows) (c : Call) (h : c ∈ deferred rows) :
    c = .Close rows.Close ∨ ∃ e, c = .Log e := by
  unfold deferred at h
  cases hc : rows.Close with
  | none => simp [hc] at h; exact Or.inl h
  | some e =>
    simp [hc] at h
    rcases h with h | h
    · exact Or.inl h
    · exact Or.inr ⟨e, h⟩

/-- C11: `PostWrite` is invoked if and only if `Select`, `Columns`, `ColumnTypes` and
`PreWrite` were called and succeeded and no `Scan` and no `WriteRow` call failed; when it is
invoked, it is invoked exactly once and what `Export` returns is exactly what `PostWrite`
returned, its error or nil. -/
theorem Export_PostWrite_iff (w : Writer) (db : DB) (query : GoString) :
    ((∃ err, Call.PostWrite err ∈ (Export w db query).trace) ↔
      (Call.Select query none ∈ (Export w db query).trace ∧
       Call.Columns none ∈ (Export w db query).trace ∧
       Call.ColumnTypes none ∈ (Export w db query).trace ∧
       (∃ columns types, Call.PreWrite columns types none ∈ (Export w db query).trace) ∧
       (∀ e, Call.Scan (some e) ∉ (Export w db query).trace) ∧
       (∀ r columns e, Call.WriteRow r columns (some e) ∉ (Export w db query).trace))) ∧
    (∀ err, Call.PostWrite err ∈ (Export w db query).trace →
      (Export w db query).trace.filter Call.isPostWrite = [.PostWrite err] ∧
      (Export w db query).result = .returned err) := by
  have hd : ∀ (rows : Rows) (c : Call), c ∈ deferred rows →
      (∀ e, c ≠ .PostWrite e) ∧ (∀ e, c ≠ .Scan e) ∧ (∀ r cs e, c ≠ .WriteRow r cs e) ∧
      (∀ cs ts e, c ≠ .PreWrite cs ts e) ∧ (∀ e, c ≠ .ColumnTypes e) := by
    intro rows c hc
    rcases mem_deferred rows c hc with h | ⟨e, h⟩ <;> subst h <;> simp
  have hr : ∀ (columns : List GoString) (pre : List (List Value)) (c : Call),
      c ∈ rowCalls columns pre →
      (∀ e, c ≠ .PostWrite e) ∧ (∀ e, c ≠ .Scan (some e)) ∧
      (∀ r cs e, c ≠ .WriteRow r cs (some e)) ∧ (∀ cs ts e, c ≠ .PreWrite cs ts e) := by
    intro columns pre c hc
    rcases mem_rowCalls columns pre c hc with h | h | ⟨r, -, h⟩ <;> subst h <;> simp
  have hfd := filter_deferred_isPostWrite
  have hfr := filter_rowCalls_isPostWrite
  rcases Export_cases w db query with ⟨e, h⟩ | ⟨e, h⟩ | ⟨rows, body, result, h, hb⟩
  · rw [h]; simp
  · rw [h]; simp
  · rw [h]
    rcases hb with ⟨e, rfl, rfl⟩ | ⟨rfl, rfl⟩ | ⟨columns, types, e, rfl, rfl⟩
      | ⟨columns, types, pre, tail, err, rfl, rfl, ht⟩
    · constructor
      · constructor
        · rintro ⟨err, herr⟩
          simp at herr
          exact absurd rfl ((hd rows _ herr).1 err)
        · rintro ⟨-, -, h3, -⟩
          simp at h3
          exact absurd rfl ((hd rows _ h3).2.2.2.2 none)
      · intro err herr
        simp at herr
        exact absurd rfl ((hd rows _ herr).1 err)
    · constructor
      · constructor
        · rintro ⟨err, herr⟩
          simp at herr
          exact absurd rfl ((hd rows _ herr).1 err)
        · rintro ⟨-, -, -, ⟨cs, ts, h4⟩, -⟩
          simp at h4
          exact absurd rfl ((hd rows _ h4).2.2.2.1 cs ts none)
      · intro err herr
        simp at herr
        exact absurd rfl ((hd rows _ herr).1 err)
    · constructor
      · constructor
        · rintro ⟨err, herr⟩
          simp at herr
          exact absurd rfl ((hd rows _ herr).1 err)
        · rintro ⟨-, -, -, ⟨cs, ts, h4⟩, -⟩
          simp at h4
          exact absurd rfl ((hd rows _ h4).2.2.2.1 cs ts none)
      · intro err herr
        simp at herr
        exact absurd rfl ((hd rows _ herr).1 err)
    · rcases ht with rfl | ⟨e, rfl, rfl⟩ | ⟨r, e, rfl, rfl⟩
      · constructor
        · constructor
          · intro _
            refine ⟨by simp, by simp, by simp, ⟨columns, types, by simp⟩, ?_, ?_⟩
            · intro e he
              simp at he
              rcases he with he | he
              · exact (hr columns pre _ he).2.1 e rfl
              · exact (hd rows _ he).2.1 _ rfl
            · intro r cs e he
              simp at he
              rcases he with he | he
              · exact (hr columns pre _ he).2.2.1 r cs e rfl
              · exact (hd rows _ he).2.2.1 r cs _ rfl
          · intro _
            exact ⟨err, by simp⟩
        · intro err' herr
          simp at herr
          rcases herr with herr | herr | herr
          · exact absurd rfl ((hr columns pre _ herr).1 err')
          · subst herr
            refine ⟨?_, rfl⟩
            simp [List.filter_cons, List.filter_append, Call.isPostWrite, hfd, hfr]
          · exact absurd rfl ((hd rows _ herr).1 err')
      · constructor
        · constructor
          · rintro ⟨err, herr⟩
            simp at herr
            rcases herr with herr | herr
            · exact absurd rfl ((hr columns pre _ herr).1 err)
            · exact absurd rfl ((hd rows _ herr).1 err)
          · rintro ⟨-, -, -, -, h5, -⟩
            exact absurd (by simp) (h5 e)
        · intro err herr
          simp at herr
          rcases herr with herr | herr
          · exact absurd rfl ((hr columns pre _ herr).1 err)
          · exact absurd rfl ((hd rows _ herr).1 err)
      · constructor
        · constructor
          · rintro ⟨err, herr⟩
            simp at herr
            rcases herr with herr | herr
            · exact absurd rfl ((hr columns pre _ herr).1 err)
            · exact absurd rfl ((hd rows _ herr).1 err)
          · rintro ⟨-, -, -, -, -, h6⟩
            exact absurd (by simp) (h6 r columns e)
        · intro err herr
          simp at herr
          rcases herr with herr | herr
          · exact absurd rfl ((hr columns pre _ herr).1 err)
          · exact absurd rfl ((hd rows _ herr).1 err)

/-- C12: if `Select` fails, `Export` returns the error of the source as it is and makes no
further call: the `Select` call is its only call, so there is no `Columns`, `ColumnTypes`,
`Next`, `Scan` or `Close` call on a cursor and no call on the sink. -/
theorem Export_Select_error (w : Writer) (db : DB) (query : GoString) (e : Error)
    (hs : db.Select query = .error e) :
    (Export w db query).result = .returned (some e) ∧
    (Export w db query).trace = [.Select query (some e)] ∧
    (Export w db query).trace.filter Call.isCursor = [] ∧
    sinkCalls (Export w db query).trace = [] := by
  have h : Export w db query = ⟨[.Select query (some e)], .returned (some e)⟩ := by
    simp [Export, hs]
  rw [h]
  exact ⟨rfl, rfl, rfl, rfl⟩

theorem Export_Select_error_witness :
    (Export okWriter (failingDB ⟨"query"⟩) (ascii "q")).result = .returned (some ⟨"query"⟩) ∧
    (Export okWriter (failingDB ⟨"query"⟩) (ascii "q")).trace
      = [.Select (ascii "q") (some ⟨"query"⟩)] ∧
    (Export okWriter (failingDB ⟨"query"⟩) (ascii "q")).trace.filter Call.isCursor = [] ∧
    sinkCalls (Export okWriter (failingDB ⟨"query"⟩) (ascii "q")).trace = [] :=
  Export_Select_error okWriter (failingDB ⟨"query"⟩) (ascii "q") ⟨"query"⟩ rfl

theorem filter_rowCalls_isFetch (columns : List GoString) (rs : List (List Value)) :
    ((rowCalls columns rs).filter Call.isFetch).length = 2 * rs.length := by
  induction rs with
  | nil => rfl
  | cons r rs ih =>
    simp only [rowCalls] at ih ⊢
    simp [List.flatMap_cons, List.filter_cons, Call.isFetch, ih]
    omega

/-- C13: for every `k ≥ 1`, if `WriteRow` fails with `e` on the `k`-th row while everything
before it succeeded (the rows `pre` before it, `k - 1` of them, were scanned and written, and
the `k`-th row `r` was scanned), `Export` returns exactly `e`, has called `WriteRow` `k` times
in all, fetches no further row (`k` `Next` and `k` `Scan` calls, none after the failing
`WriteRow`), makes no `PostWrite` call, and calls `Close`; the calls of the run are listed in
full. -/
theorem Export_WriteRow_error (w : Writer) (db : DB) (query : GoString) (rows : Rows)
    (columns : List GoString) (columnTypes : List ColumnType) (types : List GoString)
    (pre : List (List Value)) (r : List Value) (e : Error)
    (post : List (Except Error (List Value))) (k : Nat)
    (hs : db.Select query = .ok rows) (hc : rows.Columns = .ok columns)
    (ht : rows.ColumnTypes = .ok columnTypes)
    (hty : setTypes (List.replicate columns.length []) 0 columnTypes = some types)
    (hpre : w.PreWrite [] columns types = none)
    (hscan : rows.scans = pre.map .ok ++ .ok r :: post) (hk : pre.length + 1 = k)
    (hrow : ∀ p r' q, pre = p ++ r' :: q →
      w.WriteRow (.PreWrite columns types none :: writeCalls columns p) r' columns = none)
    (hfail : w.WriteRow (.PreWrite columns types none :: writeCalls columns pre) r columns
      = some e) :
    (Export w db query).result = .returned (some e) ∧
    (Export w db query).trace =
      [.Select query none, .Columns none, .ColumnTypes none, .PreWrite columns types none]
        ++ rowCalls columns pre
        ++ [.Next true, .Scan none, .WriteRow r columns (some e)] ++ deferred rows ∧
    (Export w db query).trace.filter Call.isWriteRow
      = writeCalls columns pre ++ [.WriteRow r columns (some e)] ∧
    ((Export w db query).trace.filter Call.isWriteRow).length = k ∧
    ((Export w db query).trace.filter Call.isFetch).length = 2 * k ∧
    (Export w db query).trace.filter Call.isPostWrite = [] ∧
    (Export w db query).trace.filter Call.isClose = [.Close rows.Close] := by
  have hl := rowLoop_prefix w columns (.ok r :: post) pre [.PreWrite columns types none]
    (by simpa using hrow)
  have hE := Export_delivering w db query rows columns columnTypes types hs hc ht hty hpre
  rw [hscan, hl] at hE
  have hfail' : w.WriteRow ([Call.PreWrite columns types none] ++ writeCalls columns pre) r
      columns = some e := by simpa using hfail
  simp only [rowLoop, hfail'] at hE
  have h1 := filter_rowCalls_isWriteRow columns pre
  have h2 := filter_rowCalls_isPostWrite columns pre
  have h3 := filter_rowCalls_isClose columns pre
  have h4 := filter_deferred_isWriteRow rows
  have h5 := filter_deferred_isPostWrite rows
  have h6 := filter_deferred_isClose rows
  have h7 := filter_deferred_isFetch rows
  have h8 := filter_rowCalls_isFetch columns pre
  rw [hE]
  refine ⟨rfl, by simp, ?_, ?_, ?_, ?_, ?_⟩
  · simp [List.filter_cons, List.filter_append, Call.isWriteRow, h1, h4]
  · simp [List.filter_cons, List.filter_append, Call.isWriteRow, h1, h4, writeCalls, ← hk]
  · simp [List.filter_cons, List.filter_append, Call.isFetch, h7, h8, ← hk]
    omega
  · simp [List.filter_cons, List.filter_append, Call.isPostWrite, h2, h5]
  · simp [List.filter_cons, List.filter_append, Call.isClose, h3, h6]

theorem Export_WriteRow_error_witness :
    writeFailingRun.result = .returned (some ⟨"write"⟩) ∧
    writeFailingRun.trace =
      [.Select (ascii "q") none, .Columns none, .ColumnTypes none,
        .PreWrite [ascii "id", ascii "name"] [ascii "INTEGER", ascii "TEXT"] none]
        ++ rowCalls [ascii "id", ascii "name"] [[.int64 1, .nil]]
        ++ [.Next true, .Scan none,
          .WriteRow [.int64 2, .nil] [ascii "id", ascii "name"] (some ⟨"write"⟩)]
        ++ deferred threeRows ∧
    writeFailingRun.trace.filter Call.isWriteRow
      = writeCalls [ascii "id", ascii "name"] [[.int64 1, .nil]]
        ++ [.WriteRow [.int64 2, .nil] [ascii "id", ascii "name"] (some ⟨"write"⟩)] ∧
    (writeFailingRun.trace.filter Call.isWriteRow).length = 2 ∧
    (writeFailingRun.trace.filter Call.isFetch).length = 2 * 2 ∧
    writeFailingRun.trace.filter Call.isPostWrite = [] ∧
    writeFailingRun.trace.filter Call.isClose = [.Close none] :=
  Export_WriteRow_error (failingWriteRow 2 ⟨"write"⟩) _ (ascii "q") threeRows
    [ascii "id", ascii "name"] [⟨ascii "INTEGER"⟩, ⟨ascii "TEXT"⟩]
    [ascii "INTEGER", ascii "TEXT"] [[.int64 1, .nil]] [.int64 2, .nil] ⟨"write"⟩
    [.ok [.int64 3, .nil]] 2 rfl rfl rfl rfl rfl rfl rfl
    (fun p r' q h => by
      cases p with
      | nil => rfl
      | cons a p => simp at h)
    rfl

theorem filter_rowCalls_isPreWrite (columns : List GoString) (rs : List (List Value)) :
    (rowCalls columns rs).filter Call.isPreWrite = [] := by
  induction rs with
  | nil => rfl
  | cons r rs ih =>
    simp only [rowCalls] at ih ⊢
    simp [List.flatMap_cons, List.filter_cons, Call.isPreWrite, ih]

theorem filter_deferred_isPreWrite (rows : Rows) :
    (deferred rows).filter Call.isPreWrite = [] := by
  unfold deferred
  cases rows.Close <;> simp [Call.isPreWrite]

theorem filter_rowLoop_isPreWrite (w : Writer) (columns : List GoString)
    (scans : List (Except Error (List Value))) (hist : List Call) :
    (rowLoop w columns scans hist).1.filter Call.isPreWrite = [] := by
  have h0 := filter_rowCalls_isPreWrite columns
  obtain ⟨pre, -, hcase⟩ := rowLoop_cases w columns scans hist
  rcases hcase with ⟨-, h2⟩ | ⟨e, post, -, h2⟩ | ⟨r, e, post, -, -, h2⟩ <;>
    simp [h2, List.filter_append, List.filter_cons, Call.isPreWrite, h0]

/-- The one `PreWrite` call of a run in which the type-name loop does not panic. -/
theorem Export_filter_isPreWrite (w : Writer) (db : DB) (query : GoString) (rows : Rows)
    (columns : List GoString) (columnTypes : List ColumnType) (types : List GoString)
    (hs : db.Select query = .ok rows) (hc : rows.Columns = .ok columns)
    (ht : rows.ColumnTypes = .ok columnTypes)
    (hty : setTypes (List.replicate columns.length []) 0 columnTypes = some types) :
    (Export w db query).trace.filter Call.isPreWrite
      = [.PreWrite columns types (w.PreWrite [] columns types)] := by
  have hd := filter_deferred_isPreWrite rows
  cases hp : w.PreWrite [] columns types with
  | some e =>
    simp [Export, exportBody, hs, hc, ht, hty, hp, List.filter_cons, Call.isPreWrite, hd]
  | none =>
    rw [Export_delivering w db query rows columns columnTypes types hs hc ht hty hp]
    have hl := filter_rowLoop_isPreWrite w columns rows.scans [.PreWrite columns types none]
    simp [List.filter_cons, List.filter_append, Call.isPreWrite, hd, hl]

/-- C14: when `ColumnTypes()` succeeds with one descriptor per column, `Export` makes one
`PreWrite` call; the column names it passes are exactly what `Columns()` returned (in
order, duplicates and all), and the types it passes are as many as the column names, the
`i`-th being `DatabaseTypeName()` of the `i`-th descriptor. -/
theorem Export_PreWrite_arguments (w : Writer) (db : DB) (query : GoString) (rows : Rows)
    (columns : List GoString) (columnTypes : List ColumnType)
    (hs : db.Select query = .ok rows) (hc : rows.Columns = .ok columns)
    (ht : rows.ColumnTypes = .ok columnTypes) (hlen : columnTypes.length = columns.length) :
    ∃ types : List GoString,
      (Export w db query).trace.filter Call.isPreWrite
        = [.PreWrite columns types (w.PreWrite [] columns types)] ∧
      types.length = columns.length ∧
      ∀ i : Nat, types[i]? = (columnTypes[i]?).map ColumnType.DatabaseTypeName := by
  refine ⟨columnTypes.map ColumnType.DatabaseTypeName, ?_, by simp [hlen], ?_⟩
  · exact Export_filter_isPreWrite w db query rows columns columnTypes _ hs hc ht
      (setTypes_same_length columns columnTypes hlen)
  · intro i
    simp

theorem Export_PreWrite_arguments_witness :
    ∃ types : List GoString,
      (Export okWriter (constDB joinRows) (ascii "q")).trace.filter Call.isPreWrite
        = [.PreWrite [ascii "id", ascii "id"] types
            (okWriter.PreWrite [] [ascii "id", ascii "id"] types)] ∧
      types.length = [ascii "id", ascii "id"].length ∧
      ∀ i : Nat, types[i]?
        = (([⟨ascii "INTEGER"⟩, ⟨ascii "TEXT"⟩] : List ColumnType)[i]?).map
            ColumnType.DatabaseTypeName :=
  Export_PreWrite_arguments okWriter (constDB joinRows) (ascii "q") joinRows
    [ascii "id", ascii "id"] [⟨ascii "INTEGER"⟩, ⟨ascii "TEXT"⟩] rfl rfl rfl rfl

theorem setTypes_none (columnTypes : List ColumnType) :
    ∀ (types : List GoString) (i : Nat), i ≤ types.length →
      types.length < i + columnTypes.length → setTypes types i columnTypes = none := by
  induction columnTypes with
  | nil => intro types i h1 h2; simp at h2; omega
  | cons ct cts ih =>
    intro types i h1 h2
    simp only [List.length_cons] at h2
    by_cases hi : i < types.length
    · simp only [setTypes, hi, if_true]
      exact ih _ _ (by simp; omega) (by simp; omega)
    · simp only [setTypes, hi, if_false]

/-- C20: the indexed write `types[i]` of the type-name loop stays in bounds in every round
(the loop does not panic) if and only if `ColumnTypes()` returned at most as many
descriptors as `Columns()` returned names, and `Export` panics exactly otherwise; when it
stays in bounds, the types handed to `PreWrite` are exactly as many as the column names,
the `i`-th being the type name of the `i`-th descriptor and every position at or beyond the
number of descriptors holding the empty string. -/
theorem Export_types_in_bounds (w : Writer) (db : DB) (query : GoString) (rows : Rows)
    (columns : List GoString) (columnTypes : List ColumnType)
    (hs : db.Select query = .ok rows) (hc : rows.Columns = .ok columns)
    (ht : rows.ColumnTypes = .ok columnTypes) :
    (setTypes (List.replicate columns.length []) 0 columnTypes ≠ none
      ↔ columnTypes.length ≤ columns.length) ∧
    ((Export w db query).result = .panicked ↔ columns.length < columnTypes.length) ∧
    (columnTypes.length ≤ columns.length →
      ∃ types : List GoString,
        (Export w db query).trace.filter Call.isPreWrite
          = [.PreWrite columns types (w.PreWrite [] columns types)] ∧
        types.length = columns.length ∧
        (∀ i : Nat, i < columnTypes.length →
          types[i]? = (columnTypes[i]?).map ColumnType.DatabaseTypeName) ∧
        (∀ i : Nat, columnTypes.length ≤ i → i < columns.length → types[i]? = some [])) := by
  refine ⟨?_, ?_, ?_⟩
  · constructor
    · intro h
      by_contra hlt
      exact h (setTypes_none columnTypes _ 0 (by simp) (by simp; omega))
    · intro h
      rw [setTypes_le _ _ h]
      simp
  · by_cases h : columnTypes.length ≤ columns.length
    · have hty := setTypes_le _ _ h
      constructor
      · intro hp
        exfalso
        cases hpw : w.PreWrite [] columns
            (columnTypes.map ColumnType.DatabaseTypeName
              ++ List.replicate (columns.length - columnTypes.length) []) with
        | some e => simp [Export, exportBody, hs, hc, ht, hty, hpw] at hp
        | none => simp [Export, exportBody, hs, hc, ht, hty, hpw] at hp
      · intro hlt; omega
    · have hty := setTypes_none columnTypes (List.replicate columns.length []) 0 (by simp)
        (by simp; omega)
      constructor
      · intro _; omega
      · intro _
        simp [Export, exportBody, hs, hc, ht, hty]
  · intro h
    refine ⟨_, Export_filter_isPreWrite w db query rows columns columnTypes _ hs hc ht
      (setTypes_le _ _ h), by simp; omega, ?_, ?_⟩
    · intro i hi
      rw [List.getElem?_append_left (by simpa using hi)]
      simp
    · intro i h1 h2
      rw [List.getElem?_append_right (by simpa using h1), List.length_map,
        List.getElem?_replicate, if_pos (by omega)]

theorem Export_types_in_bounds_witness :
    (setTypes (List.replicate [ascii "id", ascii "name"].length []) 0 [⟨ascii "INTEGER"⟩]
        ≠ none
      ↔ ([⟨ascii "INTEGER"⟩] : List ColumnType).length ≤ [ascii "id", ascii "name"].length) ∧
    ((Export okWriter (constDB shortTypesRows) (ascii "q")).result = .panicked
      ↔ [ascii "id", ascii "name"].length < ([⟨ascii "INTEGER"⟩] : List ColumnType).length) ∧
    (([⟨ascii "INTEGER"⟩] : List ColumnType).length ≤ [ascii "id", ascii "name"].length →
      ∃ types : List GoString,
        (Export okWriter (constDB shortTypesRows) (ascii "q")).trace.filter Call.isPreWrite
          = [.PreWrite [ascii "id", ascii "name"] types
              (okWriter.PreWrite [] [ascii "id", ascii "name"] types)] ∧
        types.length = [ascii "id", ascii "name"].length ∧
        (∀ i : Nat, i < ([⟨ascii "INTEGER"⟩] : List ColumnType).length →
          types[i]? = (([⟨ascii "INTEGER"⟩] : List ColumnType)[i]?).map
            ColumnType.DatabaseTypeName) ∧
        (∀ i : Nat, ([⟨ascii "INTEGER"⟩] : List ColumnType).length ≤ i →
          i < [ascii "id", ascii "name"].length → types[i]? = some [])) :=
  Export_types_in_bounds okWriter (constDB shortTypesRows) (ascii "q") shortTypesRows
    [ascii "id", ascii "name"] [⟨ascii "INTEGER"⟩] rfl rfl rfl

/-- A cursor with one column and two type descriptors: at this input the type-name loop
writes `types[1]` in a slice of length one and `Export` panics, after which the deferred
function still closes the cursor. -/
theorem Export_types_out_of_bounds :
    Export okWriter
        (constDB { Columns := .ok [ascii "id"],
                   ColumnTypes := .ok [⟨ascii "INTEGER"⟩, ⟨ascii "TEXT"⟩],
                   scans := [], Close := none })
        (ascii "q")
      = ⟨[.Select (ascii "q") none, .Columns none, .ColumnTypes none, .Close none],
          .panicked⟩ := by
  decide

/-- C19: `ValString` is not injective on byte sequences: the single byte `0xff`, which is
not valid UTF-8, and the four ASCII bytes backslash, `x`, `f`, `f`, which are, are different
and have the same `ValString`, as a byte sequence and as a text value alike. -/
theorem ValString_not_injective :
    ∃ b₁ b₂ : List Byte, b₁ = [0xff] ∧ b₂ = [0x5c, 0x78, 0x66, 0x66] ∧
      Valid b₁ = false ∧ Valid b₂ = true ∧ b₁ ≠ b₂ ∧
      ValString (.bytes b₁) = ValString (.bytes b₂) ∧
      ValString (.bytes b₁) = ValString (.string b₂) :=
  ⟨[0xff], [0x5c, 0x78, 0x66, 0x66], rfl, rfl, by decide, by decide, by decide, by decide,
    by decide⟩

/-- The four shapes of what `Export` does after the `defer` statement. -/
theorem exportBody_cases (w : Writer) (rows : Rows) (columns : List GoString) :
    (∃ e, exportBody w rows columns = ([.ColumnTypes (some e)], .returned (some e))) ∨
    (exportBody w rows columns = ([.ColumnTypes none], .panicked)) ∨
    (∃ types e, exportBody w rows columns
      = ([.ColumnTypes none, .PreWrite columns types (some e)], .returned (some e))) ∨
    (∃ types pre tail err,
      exportBody w rows columns
        = (.ColumnTypes none :: .PreWrite columns types none :: rowCalls columns pre ++ tail,
           .returned err) ∧
      (tail = [.Next false, .PostWrite err] ∨
       (∃ e, tail = [.Next true, .Scan (some e)] ∧ err = some e) ∨
       (∃ r e, tail = [.Next true, .Scan none, .WriteRow r columns (some e)] ∧
          err = some e))) := by
  cases ht : rows.ColumnTypes with
  | error e => left; exact ⟨e, by simp [exportBody, ht]⟩
  | ok columnTypes =>
    cases hty : setTypes (List.replicate columns.length []) 0 columnTypes with
    | none => right; left; simp [exportBody, ht, hty]
    | some types =>
      cases hp : w.PreWrite [] columns types with
      | some e => right; right; left; exact ⟨types, e, by simp [exportBody, ht, hty, hp]⟩
      | none =>
        right; right; right
        obtain ⟨pre, -, hcase⟩ :=
          rowLoop_cases w columns rows.scans [.PreWrite columns types none]
        rcases hcase with ⟨-, h2⟩ | ⟨e, post, -, h2⟩ | ⟨r, e, post, -, -, h2⟩
        · exact ⟨types, pre, _,
            w.PostWrite ([.PreWrite columns types none] ++ writeCalls columns pre),
            by simp [exportBody, ht, hty, hp, h2], Or.inl rfl⟩
        · exact ⟨types, pre, _, some e, by simp [exportBody, ht, hty, hp, h2],
            Or.inr (Or.inl ⟨e, rfl, rfl⟩)⟩
        · exact ⟨types, pre, _, some e, by simp [exportBody, ht, hty, hp, h2],
            Or.inr (Or.inr ⟨r, e, rfl, rfl⟩)⟩

theorem rowCalls_not_failed (columns : List GoString) (pre : List (List Value)) :
    ∀ c ∈ rowCalls columns pre, c.failed = false ∧ c.isClose = false := by
  intro c hc
  rcases mem_rowCalls columns pre c hc with h | h | ⟨r, -, h⟩ <;> subst h <;> exact ⟨rfl, rfl⟩

theorem deferred_not_sink (rows : Rows) :
    ∀ c ∈ deferred rows, c.isSink = false := by
  intro c hc
  rcases mem_deferred rows c hc with h | ⟨e, h⟩ <;> subst h <;> rfl

/-- In a list of calls that do not fail, then one call, then calls that are not sink
calls, no sink call follows a failed call. -/
theorem absorbing_of_split (B : List Call) (x : Call) (hB : ∀ d ∈ B, d.isSink = false) :
    ∀ (A : List Call), (∀ c ∈ A, c.failed = false) →
      ∀ pre c post, A ++ x :: B = pre ++ c :: post → c.failed = true →
        ∀ d ∈ post, d.isSink = false := by
  intro A
  induction A with
  | nil =>
    intro _ pre c post h _ d hd
    cases pre with
    | nil =>
      simp only [List.nil_append, List.cons.injEq] at h
      exact hB d (h.2 ▸ hd)
    | cons p pre =>
      simp only [List.nil_append, List.cons_append, List.cons.injEq] at h
      exact hB d (by rw [h.2]; simp [hd])
  | cons a A ih =>
    intro hA pre c post h hc d hd
    cases pre with
    | nil =>
      simp only [List.nil_append, List.cons_append, List.cons.injEq] at h
      have := hA a (List.mem_cons_self _ _)
      rw [h.1, hc] at this
      exact absurd this (by simp)
    | cons p pre =>
      simp only [List.cons_append, List.cons.injEq] at h
      exact ih (fun c hc => hA c (List.mem_cons_of_mem _ hc)) pre c post h.2 hc d hd

theorem Export_split (w : Writer) (db : DB) (query : GoString) :
    ∃ (A : List Call) (x : Call) (B : List Call), (Export w db query).trace = A ++ x :: B ∧
      (∀ c ∈ A, c.failed = false) ∧ (∀ d ∈ B, d.isSink = false) := by
  cases hs : db.Select query with
  | error e => exact ⟨[], .Select query (some e), [], by simp [Export, hs], by simp, by simp⟩
  | ok rows =>
    cases hc : rows.Columns with
    | error e =>
      exact ⟨[.Select query none], .Columns (some e), [], by simp [Export, hs, hc],
        by simp [Call.failed], by simp⟩
    | ok columns =>
      have hE : (Export w db query).trace
          = .Select query none :: .Columns none :: (exportBody w rows columns).1
            ++ deferred rows := by
        simp [Export, hs, hc]
      have hB := deferred_not_sink rows
      have hR := rowCalls_not_failed columns
      rw [hE]
      rcases exportBody_cases w rows columns with ⟨e, h⟩ | h | ⟨types, e, h⟩
        | ⟨types, pre, tail, err, h, ht⟩
      · exact ⟨[.Select query none, .Columns none], .ColumnTypes (some e), deferred rows,
          by simp [h], by simp [Call.failed], hB⟩
      · exact ⟨[.Select query none, .Columns none], .ColumnTypes none, deferred rows,
          by simp [h], by simp [Call.failed], hB⟩
      · exact ⟨[.Select query none, .Columns none, .ColumnTypes none],
          .PreWrite columns types (some e), deferred rows,
          by simp [h], by simp [Call.failed], hB⟩
      · have hA : ∀ (y : Call), y.failed = false →
            ∀ c ∈ [Call.Select query none, .Columns none, .ColumnTypes none,
              .PreWrite columns types none] ++ rowCalls columns pre ++ [y],
            c.failed = false := by
          intro y hy c hc
          simp only [List.mem_append, List.mem_cons, List.mem_singleton, List.not_mem_nil,
            or_false] at hc
          rcases hc with ((rfl | rfl | rfl | rfl) | hc) | rfl
          · rfl
          · rfl
          · rfl
          · rfl
          · exact (hR pre c hc).1
          · exact hy
        rcases ht with rfl | ⟨e, rfl, rfl⟩ | ⟨r, e, rfl, rfl⟩
        · exact ⟨_, .PostWrite err, deferred rows, by simp [h], hA (.Next false) rfl, hB⟩
        · exact ⟨_, .Scan (some e), deferred rows, by simp [h], hA (.Next true) rfl, hB⟩
        · refine ⟨[Call.Select query none, .Columns none, .ColumnTypes none,
              .PreWrite columns types none] ++ rowCalls columns pre ++ [.Next true]
              ++ [.Scan none],
            .WriteRow r columns (some e), deferred rows, by simp [h], ?_, hB⟩
          intro c hc
          rw [List.mem_append] at hc
          rcases hc with hc | hc
          · exact hA (.Next true) rfl c hc
          · simp only [List.mem_singleton] at hc
            subst hc
            rfl

/-- C17: in every run of `Export`, whatever fails and wherever, the calls on the sink are
a prefix of `PreWrite`, `WriteRow`..., `PostWrite`: none at all, or a failed `PreWrite`
alone, or one successful `PreWrite`, then successful `WriteRow` calls, then nothing more or
one failed `WriteRow` or one `PostWrite`; and no sink call follows a call that failed, be it
a call on the database, the cursor or the sink. -/
theorem Export_sink_protocol (w : Writer) (db : DB) (query : GoString) :
    (sinkCalls (Export w db query).trace = [] ∨
     (∃ columns types e,
        sinkCalls (Export w db query).trace = [.PreWrite columns types (some e)]) ∨
     (∃ columns types rs last,
        sinkCalls (Export w db query).trace
          = .PreWrite columns types none :: writeCalls columns rs ++ last ∧
        (last = [] ∨ (∃ r e, last = [.WriteRow r columns (some e)]) ∨
          ∃ err, last = [.PostWrite err]))) ∧
    (∀ pre c post, (Export w db query).trace = pre ++ c :: post → c.failed = true →
      ∀ d ∈ post, d.isSink = false) := by
  constructor
  · cases hs : db.Select query with
    | error e => left; simp [Export, hs, sinkCalls, Call.isSink]
    | ok rows =>
      cases hc : rows.Columns with
      | error e => left; simp [Export, hs, hc, sinkCalls, Call.isSink]
      | ok columns =>
        have hE : (Export w db query).trace
            = .Select query none :: .Columns none :: (exportBody w rows columns).1
              ++ deferred rows := by
          simp [Export, hs, hc]
        have hd := sinkCalls_deferred rows
        have hr := sinkCalls_rowCalls columns
        simp only [sinkCalls] at hd hr
        rw [hE]
        rcases exportBody_cases w rows columns with ⟨e, h⟩ | h | ⟨types, e, h⟩
          | ⟨types, pre, tail, err, h, ht⟩
        · left; simp [h, sinkCalls, List.filter_cons, Call.isSink, hd]
        · left; simp [h, sinkCalls, List.filter_cons, Call.isSink, hd]
        · right; left
          exact ⟨columns, types, e, by simp [h, sinkCalls, List.filter_cons, Call.isSink, hd]⟩
        · right; right
          rcases ht with rfl | ⟨e, rfl, rfl⟩ | ⟨r, e, rfl, rfl⟩
          · exact ⟨columns, types, pre, [.PostWrite err],
              by simp [h, sinkCalls, List.filter_cons, List.filter_append, Call.isSink, hd, hr],
              Or.inr (Or.inr ⟨err, rfl⟩)⟩
          · exact ⟨columns, types, pre, [],
              by simp [h, sinkCalls, List.filter_cons, List.filter_append, Call.isSink, hd, hr],
              Or.inl rfl⟩
          · exact ⟨columns, types, pre, [.WriteRow r columns (some e)],
              by simp [h, sinkCalls, List.filter_cons, List.filter_append, Call.isSink, hd, hr],
              Or.inr (Or.inl ⟨r, e, rfl⟩)⟩
  · obtain ⟨A, x, B, hE, hA, hB⟩ := Export_split w db query
    rw [hE]
    exact absorbing_of_split B x hB A hA

/-- C18: in every run of `Export` in which `Select` and `Columns` succeed, `Close` is
called exactly once on the cursor and is the last call on the cursor or the sink: the
`ColumnTypes` call, every `Next`, `Scan` and `WriteRow` call and the `PostWrite` call, if
there is one, come before it, and after it comes at most the log entry of its failure. -/
theorem Export_Close_last (w : Writer) (db : DB) (query : GoString) (rows : Rows)
    (columns : List GoString)
    (hs : db.Select query = .ok rows) (hc : rows.Columns = .ok columns) :
    (Export w db query).trace.filter Call.isClose = [.Close rows.Close] ∧
    ∃ before after, (Export w db query).trace = before ++ .Close rows.Close :: after ∧
      (∀ c ∈ before, c.isClose = false) ∧
      (∀ c ∈ after, c.isCursor = false ∧ c.isSink = false) ∧
      (∀ c ∈ (Export w db query).trace, c.isCursor = true ∨ c.isSink = true →
        c ∈ before ∨ c = .Close rows.Close) := by
  have hE : (Export w db query).trace
      = .Select query none :: .Columns none :: (exportBody w rows columns).1
        ++ deferred rows := by
    simp [Export, hs, hc]
  have hbody : ∀ c ∈ (exportBody w rows columns).1, c.isClose = false := by
    have hR := rowCalls_not_failed columns
    rcases exportBody_cases w rows columns with ⟨e, h⟩ | h | ⟨types, e, h⟩
      | ⟨types, pre, tail, err, h, ht⟩
    · simp [h, Call.isClose]
    · simp [h, Call.isClose]
    · simp [h, Call.isClose]
    · intro c hc
      rw [h] at hc
      simp only [List.mem_cons, List.mem_append] at hc
      rcases hc with (rfl | rfl | hc) | hc
      · rfl
      · rfl
      · exact (hR pre c hc).2
      · rcases ht with rfl | ⟨e, rfl, rfl⟩ | ⟨r, e, rfl, rfl⟩ <;>
          simp only [List.mem_cons, List.mem_singleton, List.not_mem_nil, or_false] at hc <;>
          rcases hc with rfl | rfl | rfl <;> rfl
  have hdef : ∃ after, deferred rows = .Close rows.Close :: after ∧
      ∀ c ∈ after, c.isCursor = false ∧ c.isSink = false := by
    unfold deferred
    cases rows.Close with
    | none => exact ⟨[], rfl, by simp⟩
    | some e => exact ⟨[.Log e], rfl, by simp [Call.isCursor, Call.isSink]⟩
  obtain ⟨after, hdef, hafter⟩ := hdef
  have hbefore : ∀ c ∈ Call.Select query none :: .Columns none :: (exportBody w rows columns).1,
      c.isClose = false := by
    intro c hc
    simp only [List.mem_cons] at hc
    rcases hc with rfl | rfl | hc
    · rfl
    · rfl
    · exact hbody c hc
  refine ⟨?_, .Select query none :: .Columns none :: (exportBody w rows columns).1, after,
    by rw [hE, hdef], hbefore, hafter, ?_⟩
  · have hnil : (Call.Select query none :: .Columns none
        :: (exportBody w rows columns).1).filter Call.isClose = [] := by
      rw [List.filter_eq_nil_iff]
      intro c hc
      simp [hbefore c hc]
    rw [hE, List.filter_append, filter_deferred_isClose, hnil]
    rfl
  · intro c hc hcs
    rw [hE, hdef] at hc
    simp only [List.cons_append, List.mem_cons, List.mem_append] at hc ⊢
    rcases hc with rfl | rfl | hc | rfl | hc
    · left; left; rfl
    · left; right; left; rfl
    · left; right; right; exact hc
    · right; rfl
    · have := hafter c hc
      rw [this.1, this.2] at hcs
      simp at hcs

theorem Export_Close_last_witness :
    closeFailingRun.trace.filter Call.isClose = [.Close (some ⟨"close"⟩)] ∧
    ∃ before after, closeFailingRun.trace = before ++ .Close (some ⟨"close"⟩) :: after ∧
      (∀ c ∈ before, c.isClose = false) ∧
      (∀ c ∈ after, c.isCursor = false ∧ c.isSink = false) ∧
      (∀ c ∈ closeFailingRun.trace, c.isCursor = true ∨ c.isSink = true →
        c ∈ before ∨ c = .Close (some ⟨"close"⟩)) :=
  Export_Close_last okWriter (constDB closeFailingRows) (ascii "q") closeFailingRows
    [ascii "id", ascii "name"] rfl rfl

/-! ## Theorems: canonical numerals and the shape of timestamps -/

theorem formatBitsLoop_zero : ∀ (fuel us : Nat) (a : List Byte),
    (formatBitsLoop fuel us a).1 = 0 → us = 0 := by
  intro fuel
  induction fuel with
  | zero => intro us a h; simpa [formatBitsLoop] using h
  | succ fuel ih =>
    intro us a h
    by_cases h100 : 100 ≤ us
    · simp only [formatBitsLoop, h100, if_true] at h
      have := ih _ _ h
      omega
    · simpa [formatBitsLoop, h100] using h

theorem digit_eq_zero (d : Nat) (h : d < 10) (h0 : digit d = (0x30 : Byte)) : d = 0 := by
  have hv := digit_val d h
  rw [h0] at hv
  have : ((0x30 : Byte) : Nat) = 48 := rfl
  omega

/-- The numeral `formatBits` writes has no leading zero, except for zero itself. -/
theorem formatBits_head (u : Nat) (hu : u < 2 ^ 64)
    (h : (formatBits u false).head? = some 0x30) : u = 0 := by
  obtain ⟨r1, -, -⟩ := formatBitsLoop_spec 32 u [] (by norm_num; omega) (by simp)
  have hz := formatBitsLoop_zero 32 u []
  simp only [formatBits, Bool.false_eq_true, if_false, smallsString_even,
    smallsString_odd] at h
  generalize formatBitsLoop 32 u [] = r at r1 hz h
  obtain ⟨us, a⟩ := r
  simp only at r1 hz h
  by_cases h10 : 10 ≤ us
  · simp only [h10, if_true, List.head?_cons, Option.some.injEq] at h
    have := digit_eq_zero (us / 10) (by omega) h
    omega
  · simp only [h10, if_false, List.head?_cons, Option.some.injEq] at h
    have := digit_eq_zero (us % 10) (by omega) h
    exact hz (by omega)

/-- C15: for every integer `n` in the range of the signed type of `bits` bits, `bits` being
32 or 64, `ValString` of `n` (as `int32`, `int64` or `int`) is the canonical decimal numeral
of `n`: `-` in front exactly when `n < 0`, then the digits `ds`, at least one and decimal
digits all (so there is no `+`), which denote the absolute value of `n` and start with `0`
only when `n = 0`, in which case they are the single digit `0`. -/
theorem ValString_int_canonical (n : Int) (bits : Nat) (hb : bits = 32 ∨ bits = 64)
    (hlo : -2 ^ (bits - 1) ≤ n) (hhi : n < 2 ^ (bits - 1)) :
    ∃ ds : GoString,
      ValString (.int32 n) = (if n < 0 then [0x2d] else []) ++ ds ∧
      ValString (.int64 n) = (if n < 0 then [0x2d] else []) ++ ds ∧
      ValString (.int n) = (if n < 0 then [0x2d] else []) ++ ds ∧
      ds ≠ [] ∧ (∀ c ∈ ds, isDigit c) ∧ valOf 0 ds = n.natAbs ∧
      (ds.head? = some 0x30 → n = 0) ∧ (n = 0 → ds = [0x30]) := by
  have hle : (2:Int) ^ (bits - 1) ≤ 2 ^ 63 := by
    rcases hb with rfl | rfl <;> norm_num
  by_cases h0 : 0 ≤ n
  · obtain ⟨d1, d2, d3⟩ := formatBits_pos n.toNat (by omega)
    have hF := FormatInt_nonneg n h0 (by omega)
    have hneg : ¬ n < 0 := by omega
    refine ⟨formatBits n.toNat false, ?_, ?_, ?_, d2, d1, by rw [d3]; omega, ?_, ?_⟩
    · simp [ValString, hF, hneg]
    · simp [ValString, hF, hneg]
    · simp [ValString, Itoa, hF, hneg]
    · intro h
      have := formatBits_head n.toNat (by omega) h
      omega
    · intro hn
      subst hn
      decide
  · obtain ⟨d1, d2, d3⟩ := formatBits_pos (-n).toNat (by omega)
    have hF := FormatInt_neg n (by omega) (by omega)
    have hneg : n < 0 := by omega
    refine ⟨formatBits (-n).toNat false, ?_, ?_, ?_, d2, d1, by rw [d3]; omega, ?_, ?_⟩
    · simp [ValString, hF, hneg]
    · simp [ValString, hF, hneg]
    · simp [ValString, Itoa, hF, hneg]
    · intro h
      have := formatBits_head (-n).toNat (by omega) h
      omega
    · intro hn
      omega

theorem ValString_int_canonical_witness :
    (∃ ds : GoString,
      ValString (.int32 0) = (if (0 : Int) < 0 then [0x2d] else []) ++ ds ∧
      ValString (.int64 0) = (if (0 : Int) < 0 then [0x2d] else []) ++ ds ∧
      ValString (.int 0) = (if (0 : Int) < 0 then [0x2d] else []) ++ ds ∧
      ds ≠ [] ∧ (∀ c ∈ ds, isDigit c) ∧ valOf 0 ds = (0 : Int).natAbs ∧
      (ds.head? = some 0x30 → (0 : Int) = 0) ∧ ((0 : Int) = 0 → ds = [0x30])) ∧
    (∃ ds : GoString,
      ValString (.int32 (-2147483648))
        = (if (-2147483648 : Int) < 0 then [0x2d] else []) ++ ds ∧
      ValString (.int64 (-2147483648))
        = (if (-2147483648 : Int) < 0 then [0x2d] else []) ++ ds ∧
      ValString (.int (-2147483648))
        = (if (-2147483648 : Int) < 0 then [0x2d] else []) ++ ds ∧
      ds ≠ [] ∧ (∀ c ∈ ds, isDigit c) ∧ valOf 0 ds = (-2147483648 : Int).natAbs ∧
      (ds.head? = some 0x30 → (-2147483648 : Int) = 0) ∧
      ((-2147483648 : Int) = 0 → ds = [0x30])) :=
  ⟨ValString_int_canonical 0 32 (Or.inl rfl) (by norm_num) (by norm_num),
   ValString_int_canonical (-2147483648) 32 (Or.inl rfl) (by norm_num) (by norm_num)⟩

/-- The numerals at zero and at the bounds of the 32-bit and 64-bit ranges. -/
theorem ValString_int_examples :
    ValString (.int64 0) = ascii "0" ∧
    ValString (.int32 2147483647) = ascii "2147483647" ∧
    ValString (.int32 (-2147483648)) = ascii "-2147483648" ∧
    ValString (.int64 9223372036854775807) = ascii "9223372036854775807" ∧
    ValString (.int64 (-9223372036854775808)) = ascii "-9223372036854775808" := by
  decide

/-- The text `FormatRFC3339` writes for a year in 0..9999 and an offset of whole minutes
below 100 hours: the date and clock fields of the local day and second, then the zone. -/
theorem FormatRFC3339_shape (t : Time) (Y M D : Nat) (hY : Y ≤ 9999) (hM : M ≤ 12)
    (hD : D ≤ 31) (hdate : absDate t.abs.1 = ((Y : Int), M, (D : Int)))
    (hoff : t.offset % 60 = 0) (hlo : -360000 < t.offset) (hhi : t.offset < 360000) :
    t.FormatRFC3339
      = fieldsText Y M D (t.abs.2 / 3600).toNat (t.abs.2 % 3600 / 60).toNat (t.abs.2 % 60).toNat
        ++ zoneText (t.offset / 60) := by
  have hs : 0 ≤ t.abs.2 ∧ t.abs.2 < 86400 := by
    simp only [Time.abs, secondsPerDay]
    omega
  obtain ⟨h, hh⟩ : ∃ h : Nat, t.abs.2 / 3600 = h := ⟨(t.abs.2 / 3600).toNat, by omega⟩
  obtain ⟨mi, hmi⟩ : ∃ mi : Nat, t.abs.2 % 3600 / 60 = mi :=
    ⟨(t.abs.2 % 3600 / 60).toNat, by omega⟩
  obtain ⟨s, hsec⟩ : ∃ s : Nat, t.abs.2 % 60 = s := ⟨(t.abs.2 % 60).toNat, by omega⟩
  have ht : Int.tdiv t.offset 60 = t.offset / 60 :=
    Int.tdiv_eq_ediv_of_dvd (Int.dvd_of_emod_eq_zero hoff)
  unfold Time.FormatRFC3339
  simp only [hdate, hh, hmi, hsec, Int.toNat_ofNat, ht]
  rw [appendInt_four Y (by omega), appendInt_two M (by omega), appendInt_two D (by omega),
    appendInt_two h (by omega), appendInt_two mi (by omega), appendInt_two s (by omega)]
  by_cases h0 : t.offset = 0
  · simp [h0, fieldsText, zoneText]
  · have hz : t.offset / 60 ≠ 0 := by omega
    simp only [h0, if_false, zoneText, hz]
    by_cases hneg : t.offset / 60 < 0
    · obtain ⟨z, hzz⟩ : ∃ z : Nat, -(t.offset / 60) = z := ⟨(-(t.offset / 60)).toNat, by omega⟩
      have hz60 : (z : Int) / 60 = ((z / 60 : Nat) : Int) := by omega
      have hz60m : (z : Int) % 60 = ((z % 60 : Nat) : Int) := by omega
      have hna : (t.offset / 60).natAbs = z := by omega
      simp only [hneg, if_true, hzz, hna, hz60, hz60m]
      rw [appendInt_two (z / 60) (by omega), appendInt_two (z % 60) (by omega)]
      simp [fieldsText]
    · obtain ⟨z, hzz⟩ : ∃ z : Nat, t.offset / 60 = z := ⟨(t.offset / 60).toNat, by omega⟩
      have hz60 : (z : Int) / 60 = ((z / 60 : Nat) : Int) := by omega
      have hz60m : (z : Int) % 60 = ((z % 60 : Nat) : Int) := by omega
      have hna : (t.offset / 60).natAbs = z := by omega
      simp only [hneg, if_false, hna]
      simp only [hzz, hz60, hz60m]
      rw [appendInt_two (z / 60) (by omega), appendInt_two (z % 60) (by omega)]
      simp [fieldsText]

/-- C16 (as stated, refuted): the Unix epoch in a zone 30 seconds east of UTC is written
with the wall-clock time `00:00:30` of that zone but with the designator `+00:00`, which is
the offset zero and not the offset of the timestamp. -/
theorem ValString_time_offset_seconds_lost :
    ValString (.time ⟨0, 0, 30⟩) = fieldsText 1970 1 1 0 0 30 ++ [0x2b, 0x30, 0x30, 0x3a, 0x30, 0x30] ∧
    parseZone [0x2b, 0x30, 0x30, 0x3a, 0x30, 0x30] = some 0 ∧
    (⟨0, 0, 30⟩ : Time).offset ≠ 0 := by
  decide

/-- C16 (amended): for every timestamp `t` whose year in its own zone lies in 0..9999 and
whose zone offset is a whole number of minutes and less than 100 hours either way,
`ValString` of `t` is `YYYY-MM-DDTHH:MM:SS` followed by a zone designator. The date and
clock fields are the wall-clock fields of `t` in the offset it carries: valid fields that
denote, read as UTC, the second `t.sec + t.offset`. The designator is `Z` when the offset is
zero and otherwise the sign of the offset and its hours and minutes `HH:MM`. -/
theorem ValString_time_shape (t : Time) (hy0 : 0 ≤ t.Year) (hy1 : t.Year ≤ 9999)
    (hoff : t.offset % 60 = 0) (hlo : -360000 < t.offset) (hhi : t.offset < 360000) :
    ∃ (Y M D h mi s : Nat) (zone : GoString),
      ValString (.time t) = fieldsText Y M D h mi s ++ zone ∧
      Y ≤ 9999 ∧ 1 ≤ M ∧ M ≤ 12 ∧ 1 ≤ D ∧ (D : Int) ≤ daysIn M Y ∧
      h ≤ 23 ∧ mi ≤ 59 ∧ s ≤ 59 ∧
      (Date Y M D h mi s t.nsec).sec = t.sec + t.offset ∧
      (t.offset = 0 → zone = [0x5a]) ∧
      (t.offset ≠ 0 → ∃ H Mi : Nat, H ≤ 99 ∧ Mi ≤ 59 ∧
        zone = [if t.offset < 0 then 0x2d else 0x2b, digit (H / 10), digit (H % 10), 0x3a,
          digit (Mi / 10), digit (Mi % 10)] ∧
        (((H * 60 + Mi) * 60 : Nat) : Int) = (if t.offset < 0 then -t.offset else t.offset)) := by
  obtain ⟨m1, m2, d1, d2, d3⟩ := absDate_spec t.abs.1
  unfold Time.Year at hy0 hy1
  obtain ⟨Y, hY⟩ : ∃ Y : Nat, (absDate t.abs.1).1 = Y := ⟨(absDate t.abs.1).1.toNat, by omega⟩
  obtain ⟨D, hD⟩ : ∃ D : Nat, (absDate t.abs.1).2.2 = D :=
    ⟨(absDate t.abs.1).2.2.toNat, by omega⟩
  obtain ⟨M, hM⟩ : ∃ M : Nat, (absDate t.abs.1).2.1 = M := ⟨_, rfl⟩
  have hdate : absDate t.abs.1 = ((Y : Int), M, (D : Int)) := by
    rw [← hY, ← hD, ← hM]
  rw [hY, hM, hD] at d2 d3
  rw [hM] at m1 m2
  rw [hD] at d1
  have hD31 : D ≤ 31 := by
    have : daysIn M Y ≤ 31 := by
      unfold daysIn
      split_ifs
      · norm_num
      · interval_cases M <;> simp [daysBefore]
    omega
  have hs : 0 ≤ t.abs.2 ∧ t.abs.2 < 86400 := by
    simp only [Time.abs, secondsPerDay]
    omega
  have hsum : t.abs.1 * 86400 + t.abs.2 = t.sec + t.offset + unixToInternal := by
    simp only [Time.abs, secondsPerDay]
    omega
  have hday : (Date Y M D (t.abs.2 / 3600).toNat (t.abs.2 % 3600 / 60).toNat
      (t.abs.2 % 60).toNat t.nsec).sec = t.sec + t.offset := by
    simp only [Date, secondsPerDay]
    have e1 : ((t.abs.2 / 3600).toNat : Int) = t.abs.2 / 3600 := by omega
    have e2 : ((t.abs.2 % 3600 / 60).toNat : Int) = t.abs.2 % 3600 / 60 := by omega
    have e3 : ((t.abs.2 % 60).toNat : Int) = t.abs.2 % 60 := by omega
    rw [e1, e2, e3]
    by_cases hl : isLeap (Y : Int) = true ∧ M ≥ 3
    · rw [if_pos hl] at d3
      rw [if_pos hl]
      omega
    · rw [if_neg hl] at d3
      rw [if_neg hl]
      omega
  refine ⟨Y, M, D, (t.abs.2 / 3600).toNat, (t.abs.2 % 3600 / 60).toNat, (t.abs.2 % 60).toNat,
    zoneText (t.offset / 60), ?_, by omega, m1, m2, by omega, d2, by omega, by omega, by omega,
    hday, ?_, ?_⟩
  · exact FormatRFC3339_shape t Y M D (by omega) m2 hD31 hdate hoff hlo hhi
  · intro h0
    simp [zoneText, h0]
  · intro h0
    have hz : t.offset / 60 ≠ 0 := by omega
    refine ⟨(t.offset / 60).natAbs / 60, (t.offset / 60).natAbs % 60, by omega, by omega, ?_, ?_⟩
    · simp only [zoneText, hz, if_false]
      have hsign : (t.offset / 60 < 0) ↔ (t.offset < 0) := by omega
      simp only [hsign]
    · split_ifs <;> omega

theorem ValString_time_shape_witness :
    ∃ (Y M D h mi s : Nat) (zone : GoString),
      ValString (.time (⟨1704207845, 5, 25200⟩ : Time)) = fieldsText Y M D h mi s ++ zone ∧
      Y ≤ 9999 ∧ 1 ≤ M ∧ M ≤ 12 ∧ 1 ≤ D ∧ (D : Int) ≤ daysIn M Y ∧
      h ≤ 23 ∧ mi ≤ 59 ∧ s ≤ 59 ∧
      (Date Y M D h mi s (⟨1704207845, 5, 25200⟩ : Time).nsec).sec = (⟨1704207845, 5, 25200⟩ : Time).sec + (⟨1704207845, 5, 25200⟩ : Time).offset ∧
      ((⟨1704207845, 5, 25200⟩ : Time).offset = 0 → zone = [0x5a]) ∧
      ((⟨1704207845, 5, 25200⟩ : Time).offset ≠ 0 → ∃ H Mi : Nat, H ≤ 99 ∧ Mi ≤ 59 ∧
        zone = [if (⟨1704207845, 5, 25200⟩ : Time).offset < 0 then 0x2d else 0x2b, digit (H / 10), digit (H % 10), 0x3a,
          digit (Mi / 10), digit (Mi % 10)] ∧
        (((H * 60 + Mi) * 60 : Nat) : Int)
          = (if (⟨1704207845, 5, 25200⟩ : Time).offset < 0 then -(⟨1704207845, 5, 25200⟩ : Time).offset else (⟨1704207845, 5, 25200⟩ : Time).offset)) :=
  ValString_time_shape (⟨1704207845, 5, 25200⟩ : Time) (by decide) (by decide) (by decide) (by decide) (by decide)

/-- An offset of 100 hours is written with a three-digit hour, `+100:00`, which is not of
the form `HH:MM`. -/
theorem ValString_time_offset_100h :
    ValString (.time ⟨0, 0, 360000⟩)
      = fieldsText 1970 1 5 4 0 0 ++ [0x2b, 0x31, 0x30, 0x30, 0x3a, 0x30, 0x30] := by
  decide

/-! ## Theorems: the result of a run and the outcome of Close -/

/-- What `Export` returns, read off the calls of the run other than `Close`: the error of
a call that failed, and nil when none failed and the type-name loop did not panic. -/
theorem Export_result_of_steps (w : Writer) (db : DB) (query : GoString) :
    (∀ call ∈ (Export w db query).trace, call.isClose = false →
      ∀ e, call.error = some e → (Export w db query).result = .returned (some e)) ∧
    ((∀ call ∈ (Export w db query).trace, call.isClose = false → call.error = none) →
      (Export w db query).result ≠ .panicked →
      (Export w db query).result = .returned none) := by
  have hd : ∀ (rows : Rows) (c : Call), c ∈ deferred rows → c.isClose = false →
      c.error = none := by
    intro rows c hc hcl
    rcases mem_deferred rows c hc with h | ⟨e, h⟩ <;> subst h
    · simp [Call.isClose] at hcl
    · rfl
  have hr : ∀ (columns : List GoString) (pre : List (List Value)) (c : Call),
      c ∈ rowCalls columns pre → c.error = none := by
    intro columns pre c hc
    rcases mem_rowCalls columns pre c hc with h | h | ⟨r, -, h⟩ <;> subst h <;> rfl
  rcases Export_cases w db query with ⟨e, h⟩ | ⟨e, h⟩ | ⟨rows, body, result, h, hb⟩
  · rw [h]
    constructor
    · intro call hc _ e' he
      simp only [List.mem_singleton] at hc
      subst hc
      simp only [Call.error, Option.some.injEq] at he
      rw [he]
    · intro H _
      have := H (.Select query (some e)) (by simp) rfl
      simp [Call.error] at this
  · rw [h]
    constructor
    · intro call hc _ e' he
      simp only [List.mem_cons, List.mem_singleton, List.not_mem_nil, or_false] at hc
      rcases hc with rfl | rfl
      · simp [Call.error] at he
      · simp only [Call.error, Option.some.injEq] at he
        rw [he]
    · intro H _
      have := H (.Columns (some e)) (by simp) rfl
      simp [Call.error] at this
  · rw [h]
    have key : ∀ (front : List Call) (last : Call) (err : Option Error),
        body = front ++ [last] → (∀ c ∈ front, c.error = none) → last.isClose = false →
        last.error = err → result = .returned err →
        (∀ call ∈ Call.Select query none :: Call.Columns none :: body ++ deferred rows,
          call.isClose = false → ∀ e, call.error = some e → result = .returned (some e)) ∧
        ((∀ call ∈ Call.Select query none :: Call.Columns none :: body ++ deferred rows,
          call.isClose = false → call.error = none) → result ≠ .panicked →
          result = .returned none) := by
      intro front last err hbody hfront hlc hle hres
      have hmem : ∀ call ∈ Call.Select query none :: Call.Columns none :: body
          ++ deferred rows, call.isClose = false → call.error = none ∨ call = last := by
        intro call hc hcl
        rw [hbody] at hc
        simp only [List.cons_append, List.mem_cons, List.mem_append, List.mem_singleton,
          List.not_mem_nil, or_false] at hc
        rcases hc with rfl | rfl | (hc | rfl) | hc
        · left; rfl
        · left; rfl
        · left; exact hfront call hc
        · right; rfl
        · left; exact hd rows call hc hcl
      constructor
      · intro call hc hcl e he
        rcases hmem call hc hcl with h0 | rfl
        · rw [h0] at he; simp at he
        · rw [hres, ← hle, he]
      · intro H _
        have := H last (by rw [hbody]; simp) hlc
        rw [hres, ← hle, this]
    rcases hb with ⟨e, rfl, rfl⟩ | ⟨rfl, rfl⟩ | ⟨columns, types, e, rfl, rfl⟩
      | ⟨columns, types, pre, tail, err, rfl, rfl, ht⟩
    · exact key [] (.ColumnTypes (some e)) (some e) rfl (by simp) rfl rfl rfl
    · constructor
      · intro call hc hcl e he
        simp only [List.cons_append, List.nil_append, List.mem_cons] at hc
        rcases hc with rfl | rfl | rfl | hc
        · simp [Call.error] at he
        · simp [Call.error] at he
        · simp [Call.error] at he
        · rw [hd rows call hc hcl] at he; simp at he
      · intro _ hp
        exact absurd rfl hp
    · exact key [.ColumnTypes none] (.PreWrite columns types (some e)) (some e) rfl
        (by simp [Call.error]) rfl rfl rfl
    · have hfront : ∀ (y : Call), y.error = none →
          ∀ c ∈ Call.ColumnTypes none :: Call.PreWrite columns types none
            :: rowCalls columns pre ++ [y], c.error = none := by
        intro y hy c hc
        simp only [List.cons_append, List.mem_cons, List.mem_append, List.mem_singleton,
          List.not_mem_nil, or_false] at hc
        rcases hc with rfl | rfl | hc | rfl
        · rfl
        · rfl
        · exact hr columns pre c hc
        · exact hy
      rcases ht with rfl | ⟨e, rfl, rfl⟩ | ⟨r, e, rfl, rfl⟩
      · exact key _ (.PostWrite err) err (by simp) (hfront (.Next false) rfl) rfl rfl rfl
      · exact key _ (.Scan (some e)) (some e) (by simp) (hfront (.Next true) rfl) rfl rfl rfl
      · refine key (Call.ColumnTypes none :: Call.PreWrite columns types none
            :: rowCalls columns pre ++ [.Next true] ++ [.Scan none])
          (.WriteRow r columns (some e)) (some e) (by simp) ?_ rfl rfl rfl
        intro c hc
        rw [List.mem_append] at hc
        rcases hc with hc | hc
        · exact hfront (.Next true) rfl c hc
        · simp only [List.mem_singleton] at hc
          subst hc
          rfl

theorem exportBody_not_Close (w : Writer) (rows : Rows) (columns : List GoString) :
    ∀ c ∈ (exportBody w rows columns).1, c.isClose = false := by
  have hR := rowCalls_not_failed columns
  rcases exportBody_cases w rows columns with ⟨e, h⟩ | h | ⟨types, e, h⟩
    | ⟨types, pre, tail, err, h, ht⟩
  · simp [h, Call.isClose]
  · simp [h, Call.isClose]
  · simp [h, Call.isClose]
  · intro c hc
    rw [h] at hc
    simp only [List.mem_cons, List.mem_append] at hc
    rcases hc with (rfl | rfl | hc) | hc
    · rfl
    · rfl
    · exact (hR pre c hc).2
    · rcases ht with rfl | ⟨e, rfl, rfl⟩ | ⟨r, e, rfl, rfl⟩ <;>
        simp only [List.mem_cons, List.mem_singleton, List.not_mem_nil, or_false] at hc <;>
        rcases hc with rfl | rfl | rfl <;> rfl

/-- Every `Close` call of a run is the call on the cursor that `Select` returned, with the
outcome of that cursor's `Close()`. -/
theorem Export_Close_calls (w : Writer) (db : DB) (query : GoString) :
    ∀ call ∈ (Export w db query).trace, call.isClose = true →
      ∃ rows, db.Select query = .ok rows ∧ call = .Close rows.Close := by
  intro call hcall hcl
  cases hs : db.Select query with
  | error e =>
    simp only [Export, hs, List.mem_singleton] at hcall
    subst hcall
    simp [Call.isClose] at hcl
  | ok rows =>
    cases hc : rows.Columns with
    | error e =>
      simp only [Export, hs, hc, List.mem_cons, List.mem_singleton, List.not_mem_nil,
        or_false] at hcall
      rcases hcall with rfl | rfl <;> simp [Call.isClose] at hcl
    | ok columns =>
      have hE : (Export w db query).trace
          = .Select query none :: .Columns none :: (exportBody w rows columns).1
            ++ deferred rows := by
        simp [Export, hs, hc]
      rw [hE] at hcall
      simp only [List.cons_append, List.mem_cons, List.mem_append] at hcall
      rcases hcall with rfl | rfl | hb | hd
      · simp [Call.isClose] at hcl
      · simp [Call.isClose] at hcl
      · rw [exportBody_not_Close w rows columns call hb] at hcl
        simp at hcl
      · rcases mem_deferred rows call hd with h | ⟨e, h⟩
        · exact ⟨rows, rfl, h⟩
        · subst h
          simp [Call.isClose] at hcl

/-- C10: the value `Export` returns does not depend on what `Close` returns. Two runs
that differ only in the outcome of `Close` (`c₁` or `c₂`) end the same way. In the run in
which `Close` returns `c₁` (every `Close` call of the run returns `c₁`, a failure when `c₁`
is an error), what `Export` returns is fixed by the other calls: when one of them failed
with `e`, `Export` returns `e`, the earlier error, and when none of them failed and the
type-name loop did not panic, `Export` returns nil. -/
theorem Export_result_independent_of_Close (w : Writer) (db : DB) (query : GoString)
    (c₁ c₂ : Option Error) :
    (Export w (db.withClose c₁) query).result = (Export w (db.withClose c₂) query).result ∧
    (∀ call ∈ (Export w (db.withClose c₁) query).trace, call.isClose = true →
      call = .Close c₁) ∧
    (∀ call ∈ (Export w (db.withClose c₁) query).trace, call.isClose = false →
      ∀ e, call.error = some e →
        (Export w (db.withClose c₁) query).result = .returned (some e)) ∧
    ((∀ call ∈ (Export w (db.withClose c₁) query).trace, call.isClose = false →
        call.error = none) →
      (Export w (db.withClose c₁) query).result ≠ .panicked →
      (Export w (db.withClose c₁) query).result = .returned none) := by
  refine ⟨by rw [Export_result_eq, Export_result_eq], ?_,
    (Export_result_of_steps w (db.withClose c₁) query).1,
    (Export_result_of_steps w (db.withClose c₁) query).2⟩
  intro call hcall hcl
  obtain ⟨rows, hs, h⟩ := Export_Close_calls w (db.withClose c₁) query call hcall hcl
  rw [h]
  simp only [DB.withClose] at hs
  cases hd : db.Select query with
  | error e => simp [hd] at hs
  | ok rows0 =>
    simp only [hd, Except.ok.injEq] at hs
    rw [← hs]
    rfl

theorem Export_result_independent_of_Close_witness :
    (Export okWriter ((constDB oneRow).withClose (some ⟨"close"⟩)) (ascii "q")).result
      = .returned none ∧
    Call.Close (some ⟨"close"⟩)
      ∈ (Export okWriter ((constDB oneRow).withClose (some ⟨"close"⟩)) (ascii "q")).trace ∧
    (Export okWriter ((constDB scanFailingRows).withClose (some ⟨"close"⟩)) (ascii "q")).result
      = .returned (some ⟨"scan"⟩) ∧
    Call.Close (some ⟨"close"⟩)
      ∈ (Export okWriter ((constDB scanFailingRows).withClose (some ⟨"close"⟩))
          (ascii "q")).trace :=
  ⟨(Export_result_independent_of_Close okWriter (constDB oneRow) (ascii "q")
      (some ⟨"close"⟩) none).2.2.2 (by decide) (by decide),
   by decide,
   (Export_result_independent_of_Close okWriter (constDB scanFailingRows) (ascii "q")
      (some ⟨"close"⟩) none).2.2.1 (.Scan (some ⟨"scan"⟩)) (by decide) rfl ⟨"scan"⟩ rfl,
   by decide⟩

end Trdsql
